import Mathlib

/-!
Shallow embedding of `src/scheduler.py` (repository zyin422/schedool) and
proofs about the claims of its specification.

Modeling conventions:
* Python objects (sections, teachers, classrooms) are identified with their
  index in the corresponding input list; their dataclass fields are records.
* Python `set[str]` fields are lists queried only through membership.
* Python `dict` is an insertion-ordered association list with unique keys
  (`aIns` overwrites in place exactly like dict assignment); reads of keys
  that Python guarantees present are totalized with `none` defaults.
* Python `int` is `Int` (loads can transiently pass through any value).
* The mutable state (`Period.assigned_sections`, the scoreboard dicts, the
  sections' two assignment fields) is one record `St`; everything fixed
  after `build_scheduling_context` + `prioritize_sections` is `Env`.
* Supplied `Period` objects are modeled by their ids with empty
  `assigned_sections` lists: every caller in the repository constructs them
  that way, and the claims under study restrict to that case.
-/

set_option maxRecDepth 10000
set_option linter.unusedVariables false

namespace Schedool

/-- `Classroom` dataclass (scheduler.py). -/
structure Classroom where
  name : String
  size : Int
  purposes : List String
deriving DecidableEq

/-- `Class` dataclass (scheduler.py). `num_sections` is only used through
`range(num_sections)`, hence `Nat`. -/
structure ClassC where
  name : String
  numSections : Nat
  requiredClassroomType : String
deriving DecidableEq

/-- `Teacher` dataclass (scheduler.py). `assigned_count` is never read or
written by scheduler.py but participates in dataclass equality. -/
structure Teacher where
  name : String
  subjects : List String
  maxSections : Int
  assignedCount : Int
deriving DecidableEq

/-- Static fields of the `Section` dataclass (scheduler.py). The two mutable
fields `assigned_teacher` / `assigned_classroom` live in `St`, indexed by
the section's position in the generated list. -/
structure SectionS where
  sectionId : String
  className : String
  requiredClassroomType : String
deriving DecidableEq

deriving instance DecidableEq for Except

instance : Inhabited Classroom := ⟨⟨"", 0, []⟩⟩
instance : Inhabited Teacher := ⟨⟨"", [], 0, 0⟩⟩
instance : Inhabited SectionS := ⟨⟨"", "", ""⟩⟩

/-! ### Python dicts as insertion-ordered association lists -/

/-- Dict read `d.get(k)`. -/
def aGet {α : Type} (m : List (String × α)) (k : String) : Option α :=
  (m.find? (fun kv => kv.fst == k)).map Prod.snd

/-- Dict read with default. -/
def aGetD {α : Type} (m : List (String × α)) (k : String) (d : α) : α :=
  (aGet m k).getD d

/-- Write to a present key, `d[k] = v`. Every entry carrying `k` is
rewritten, which coincides with Python's single shared entry. Writing an
absent key is a no-op (Python raises; all writes in the modeled code hit
keys installed by `build_scheduling_context`). -/
def aSet {α : Type} (m : List (String × α)) (k : String) (v : α) : List (String × α) :=
  m.map (fun kv => if kv.fst == k then (k, v) else kv)

/-- Python dict assignment `d[k] = v`: overwrite when present, else append
(dicts preserve insertion order). -/
def aIns {α : Type} (m : List (String × α)) (k : String) (v : α) : List (String × α) :=
  if (m.find? (fun kv => kv.fst == k)).isSome then aSet m k v else m ++ [(k, v)]

/-- Two-level occupancy read `d[k1][k2]` for the scoreboard dicts, flattened
so that a missing key reads like an empty slot. -/
def a2Get (m : List (String × List (String × Option Nat))) (k1 k2 : String) : Option Nat :=
  (((aGetD m k1 []).find? (fun kv => kv.fst == k2)).map Prod.snd).join

/-- Two-level occupancy write `d[k1][k2] = v`. -/
def a2Set (m : List (String × List (String × Option Nat))) (k1 k2 : String) (v : Option Nat) :
    List (String × List (String × Option Nat)) :=
  aSet m k1 (aSet (aGetD m k1 []) k2 v)

/-! ### Sections and the scheduling context -/

/-- `Class.get_sections` (scheduler.py): `"{name}-{i+1}"` for `i < num_sections`. -/
def ClassC.getSections (c : ClassC) : List String :=
  (List.range c.numSections).map (fun i => c.name ++ "-" ++ toString (i + 1))

/-- `generate_sections` (scheduler.py 77-87). -/
def generateSections (classes : List ClassC) : List SectionS :=
  (classes.map (fun c => c.getSections.map (fun sid =>
    ({ sectionId := sid, className := c.name,
       requiredClassroomType := c.requiredClassroomType } : SectionS)))).flatten

/-- Data fixed for the whole run after context building and prioritization:
`all_sections` (as section indices, in prioritized order), the input lists,
and the precomputed domains (as indices into the input lists). -/
structure Env where
  secs : List SectionS
  teachers : List Teacher
  classrooms : List Classroom
  periodIds : List String
  validTeachers : List (String × List Nat)
  validRooms : List (String × List Nat)
  allSections : List Nat
deriving DecidableEq

/-- The mutable state: the periods' `assigned_sections` (by period
position), the scoreboard (`teacher_schedule`, `room_schedule`,
`teacher_load`) and the sections' mutable fields (by section index). -/
structure St where
  periodSections : List (List Nat)
  teacherSchedule : List (String × List (String × Option Nat))
  roomSchedule : List (String × List (String × Option Nat))
  teacherLoad : List (String × Int)
  assignedTeacher : List (Option Nat)
  assignedRoom : List (Option Nat)
deriving DecidableEq

def secOf (env : Env) (i : Nat) : SectionS := env.secs.getD i default

def teacherOf (env : Env) (i : Nat) : Teacher := env.teachers.getD i default

def roomOf (env : Env) (i : Nat) : Classroom := env.classrooms.getD i default

/-- `ctx.valid_teachers.get(section.section_id, [])`. -/
def validTs (env : Env) (i : Nat) : List Nat := aGetD env.validTeachers (secOf env i).sectionId []

/-- `ctx.valid_rooms.get(section.section_id, [])`. -/
def validRs (env : Env) (i : Nat) : List Nat := aGetD env.validRooms (secOf env i).sectionId []

def pidOf (env : Env) (pIdx : Nat) : String := env.periodIds.getD pIdx ""

/-- The scoreboard part produced by `build_scheduling_context`. -/
structure Ctx0 where
  validTeachers : List (String × List Nat)
  validRooms : List (String × List Nat)
  teacherSchedule : List (String × List (String × Option Nat))
  teacherLoad : List (String × Int)
  roomSchedule : List (String × List (String × Option Nat))
deriving DecidableEq

/-- `{p.period_id: None for p in periods}`. -/
def freshRow (periodIds : List String) : List (String × Option Nat) :=
  periodIds.foldl (fun m pid => aIns m pid none) []

/-- The teacher domain of one section (scheduler.py 101-103): qualified
teachers, in source list order, restricted to `max_sections > 0`. -/
def teacherDomain (teachers : List Teacher) (s : SectionS) : List Nat :=
  ((teachers.enum).filter
    (fun it => it.snd.subjects.contains s.className && decide (0 < it.snd.maxSections))).map Prod.fst

/-- The room domain of one section (scheduler.py 105-107). -/
def roomDomain (classrooms : List Classroom) (s : SectionS) : List Nat :=
  ((classrooms.enum).filter
    (fun ir => ir.snd.purposes.contains s.requiredClassroomType)).map Prod.fst

/-- Domain-building loop of `build_scheduling_context` (100-113): writes
both domains for the section, then fails fast on an empty teacher domain,
then on an empty room domain. -/
def buildDomains (teachers : List Teacher) (classrooms : List Classroom) :
    List SectionS → List (String × List Nat) × List (String × List Nat) →
    Except String (List (String × List Nat) × List (String × List Nat))
  | [], acc => .ok acc
  | s :: rest, acc =>
    let ts := teacherDomain teachers s
    let rs := roomDomain classrooms s
    let vT := aIns acc.fst s.sectionId ts
    let vR := aIns acc.snd s.sectionId rs
    if ts.isEmpty then
      .error ("CRITICAL: Section " ++ s.sectionId ++ " has NO qualified teachers.")
    else if rs.isEmpty then
      .error ("CRITICAL: Section " ++ s.sectionId ++ " has NO compatible rooms.")
    else
      buildDomains teachers classrooms rest (vT, vR)

/-- Scoreboard initialization of `build_scheduling_context` (116-121). -/
def initMatrices (teachers : List Teacher) (classrooms : List Classroom)
    (periodIds : List String) :
    List (String × List (String × Option Nat)) × List (String × Int) ×
      List (String × List (String × Option Nat)) :=
  (teachers.foldl (fun m t => aIns m t.name (freshRow periodIds)) [],
   teachers.foldl (fun m t => aIns m t.name 0) [],
   classrooms.foldl (fun m r => aIns m r.name (freshRow periodIds)) [])

/-- `build_scheduling_context` (scheduler.py 90-123). -/
def buildContext (sections : List SectionS) (teachers : List Teacher)
    (classrooms : List Classroom) (periodIds : List String) : Except String Ctx0 :=
  match buildDomains teachers classrooms sections ([], []) with
  | .error e => .error e
  | .ok (vT, vR) =>
    let ms := initMatrices teachers classrooms periodIds
    .ok { validTeachers := vT, validRooms := vR,
          teacherSchedule := ms.fst, teacherLoad := ms.snd.fst, roomSchedule := ms.snd.snd }

/-! ### Prioritization (`prioritize_sections`, scheduler.py 126-138)

Python's `list.sort` is a stable sort by a total key; stable sorting by a
total key has a unique result, realized here by stable insertion sort. -/

/-- The difficulty key of a section index. -/
def diffKey (secs : List SectionS) (vT vR : List (String × List Nat)) (i : Nat) : Nat × Nat :=
  ((aGetD vT (secs.getD i default).sectionId []).length,
   (aGetD vR (secs.getD i default).sectionId []).length)

/-- Strict lexicographic order on difficulty keys. -/
def keyLt (a b : Nat × Nat) : Bool :=
  a.fst < b.fst || (a.fst == b.fst && a.snd < b.snd)

/-- Insert `x` before the first strictly greater element (stable). -/
def insStable {α : Type} (lt : α → α → Bool) (x : α) : List α → List α
  | [] => [x]
  | y :: ys => if lt x y then x :: y :: ys else y :: insStable lt x ys

/-- Stable insertion sort. -/
def sortStable {α : Type} (lt : α → α → Bool) (xs : List α) : List α :=
  xs.foldl (fun acc x => insStable lt x acc) []

/-- `prioritize_sections`: `ctx.all_sections` sorted by difficulty. -/
def prioritized (secs : List SectionS) (vT vR : List (String × List Nat)) : List Nat :=
  sortStable (fun i j => keyLt (diffKey secs vT vR i) (diffKey secs vT vR j))
    (List.range secs.length)

/-! ### The exhaustive solver (`solve_recursive_full`, scheduler.py 280-336) -/

/-- CHOOSE (309-316): commit the (period, room, teacher) triple. -/
def choosePlace (env : Env) (st : St) (sIdx pIdx ri ti : Nat) : St :=
  let pid := pidOf env pIdx
  let rn := (roomOf env ri).name
  let tn := (teacherOf env ti).name
  { st with
    assignedRoom := st.assignedRoom.set sIdx (some ri)
    assignedTeacher := st.assignedTeacher.set sIdx (some ti)
    periodSections := st.periodSections.set pIdx (st.periodSections.getD pIdx [] ++ [sIdx])
    roomSchedule := a2Set st.roomSchedule rn pid (some sIdx)
    teacherSchedule := a2Set st.teacherSchedule tn pid (some sIdx)
    teacherLoad := aSet st.teacherLoad tn (aGetD st.teacherLoad tn 0 + 1) }

/-- The full dataclass value of a section object; Python's `list.remove`
compares entries with dataclass `==`, i.e. this value. -/
structure SecVal where
  s : SectionS
  t : Option Teacher
  r : Option Classroom
deriving DecidableEq

def secVal (env : Env) (st : St) (i : Nat) : SecVal :=
  ⟨secOf env i, (st.assignedTeacher.getD i none).map (teacherOf env),
    (st.assignedRoom.getD i none).map (roomOf env)⟩

/-- BACKTRACK (322-333), in source order: load, occupancy entries,
`assigned_sections.remove(section)` (first `==`-equal entry, no-op when
absent), then clear the two section fields. -/
def backtrackPlace (env : Env) (st : St) (sIdx pIdx ri ti : Nat) : St :=
  let pid := pidOf env pIdx
  let rn := (roomOf env ri).name
  let tn := (teacherOf env ti).name
  let st1 := { st with
    teacherLoad := aSet st.teacherLoad tn (aGetD st.teacherLoad tn 0 - 1)
    teacherSchedule := a2Set st.teacherSchedule tn pid none
    roomSchedule := a2Set st.roomSchedule rn pid none }
  let st2 := { st1 with
    periodSections := st1.periodSections.set pIdx
      (List.eraseP (fun j => secVal env st1 j == secVal env st1 sIdx)
        (st1.periodSections.getD pIdx [])) }
  { st2 with
    assignedTeacher := st2.assignedTeacher.set sIdx none
    assignedRoom := st2.assignedRoom.set sIdx none }

/-- Teacher loop of the solver (302-333); `k` is the recursive call on the
next section index. -/
def tryTeachers (env : Env) (sIdx pIdx ri : Nat) (k : St → Bool × St) :
    List Nat → St → Bool × St
  | [], st => (false, st)
  | ti :: rest, st =>
    let t := teacherOf env ti
    let pid := pidOf env pIdx
    if a2Get st.teacherSchedule t.name pid ≠ none then
      tryTeachers env sIdx pIdx ri k rest st
    else if ¬ aGetD st.teacherLoad t.name 0 < t.maxSections then
      tryTeachers env sIdx pIdx ri k rest st
    else
      match k (choosePlace env st sIdx pIdx ri ti) with
      | (true, st2) => (true, st2)
      | (false, st2) => tryTeachers env sIdx pIdx ri k rest (backtrackPlace env st2 sIdx pIdx ri ti)

/-- Room loop of the solver (296-333). -/
def tryRooms (env : Env) (sIdx pIdx : Nat) (k : St → Bool × St) :
    List Nat → St → Bool × St
  | [], st => (false, st)
  | ri :: rest, st =>
    if a2Get st.roomSchedule (roomOf env ri).name (pidOf env pIdx) ≠ none then
      tryRooms env sIdx pIdx k rest st
    else
      match tryTeachers env sIdx pIdx ri k (validTs env sIdx) st with
      | (true, st2) => (true, st2)
      | (false, st2) => tryRooms env sIdx pIdx k rest st2

/-- Period loop of the solver (292-333). -/
def tryPeriods (env : Env) (sIdx : Nat) (k : St → Bool × St) :
    List Nat → St → Bool × St
  | [], st => (false, st)
  | pIdx :: rest, st =>
    match tryRooms env sIdx pIdx k (validRs env sIdx) st with
    | (true, st2) => (true, st2)
    | (false, st2) => tryPeriods env sIdx k rest st2

/-- `solve_recursive_full` with fuel `|all_sections| - i`; the fuel reaches
0 exactly when the base case `section_index >= len(all_sections)` fires, so
both return `True` there. -/
def solveFullAux (env : Env) : Nat → Nat → St → Bool × St
  | 0, _, st => (true, st)
  | Nat.succ n, i, st =>
    if i < env.allSections.length then
      tryPeriods env (env.allSections.getD i 0)
        (fun st2 => solveFullAux env n (i + 1) st2)
        (List.range env.periodIds.length) st
    else (true, st)

/-- `solve_recursive_full(ctx)` from section index `i`. -/
def solveFull (env : Env) (st : St) (i : Nat) : Bool × St :=
  solveFullAux env (env.allSections.length - i) i st

/-! ### Greedy fallback (scheduler.py 141-237) -/

/-- Inner loop of `assign_sections_to_periods` (145-149) for one label,
carrying the shared `period_idx`. `periods[period_idx % len(periods)]` is a
ZeroDivisionError when no periods were supplied. -/
def placeLoop (env : Env) (cType : String) :
    List Nat → Nat → St → Except String (Nat × St)
  | [], pCur, st => .ok (pCur, st)
  | sIdx :: rest, pCur, st =>
    if (secOf env sIdx).requiredClassroomType ≠ cType then
      placeLoop env cType rest pCur st
    else if env.periodIds.length = 0 then
      .error "ZeroDivisionError: integer modulo by zero"
    else
      let j := pCur % env.periodIds.length
      placeLoop env cType rest (pCur + 1)
        { st with periodSections := st.periodSections.set j (st.periodSections.getD j [] ++ [sIdx]) }

/-- Outer loop of `assign_sections_to_periods` (144-149). -/
def typesLoop (env : Env) : List String → Nat → St → Except String (Nat × St)
  | [], pCur, st => .ok (pCur, st)
  | c :: rest, pCur, st =>
    match placeLoop env c env.allSections pCur st with
    | .error e => .error e
    | .ok (pCur2, st2) => typesLoop env rest pCur2 st2

/-- `assign_sections_to_periods(ctx.all_sections, periods, classroom_types)`
(141-149). -/
def assignSecsToPeriods (env : Env) (classroomTypes : List String) (st : St) :
    Except String St :=
  match typesLoop env classroomTypes 0 st with
  | .error e => .error e
  | .ok (_, st2) => .ok st2

/-- Room loop of `assign_classrooms_to_sections` (161-173) for one section;
carries the per-period `used_room_names`. -/
def roomLoop (env : Env) (pid : String) (sIdx : Nat) :
    List Nat → List String → St → List String × St
  | [], used, st => (used, st)
  | ri :: rest, used, st =>
    let rn := (roomOf env ri).name
    if used.contains rn then roomLoop env pid sIdx rest used st
    else if a2Get st.roomSchedule rn pid ≠ none then
      roomLoop env pid sIdx rest (used ++ [rn]) st
    else
      (used ++ [rn],
        { st with
          assignedRoom := st.assignedRoom.set sIdx (some ri)
          roomSchedule := a2Set st.roomSchedule rn pid (some sIdx) })

/-- Section loop of `assign_classrooms_to_sections` (159-173). -/
def roomSecsLoop (env : Env) (pid : String) :
    List Nat → List String → St → List String × St
  | [], used, st => (used, st)
  | sIdx :: rest, used, st =>
    let r := roomLoop env pid sIdx (validRs env sIdx) used st
    roomSecsLoop env pid rest r.fst r.snd

/-- `assign_classrooms_to_sections(periods, classrooms, classroom_types, ctx)`
(152-173). The `classroomTypes` argument is accepted as in the source
signature. -/
def assignClassrooms (env : Env) (classroomTypes : List String) (st : St) : St :=
  (List.range env.periodIds.length).foldl
    (fun acc pIdx => (roomSecsLoop env (pidOf env pIdx) (acc.periodSections.getD pIdx []) [] acc).snd)
    st

/-- The assignment step of the room loop (scheduler.py 169-172): set the
section's classroom and book the room for the period. -/
def roomAssign (env : Env) (pid : String) (sIdx ri : Nat) (st : St) : St :=
  { st with
    assignedRoom := st.assignedRoom.set sIdx (some ri)
    roomSchedule := a2Set st.roomSchedule (roomOf env ri).name pid (some sIdx) }

/-- The direct assignment step of the teacher loop (scheduler.py 191-195):
set the section's teacher, book the teacher for the period, bump the load. -/
def directAssign (env : Env) (pid : String) (sIdx ti : Nat) (st : St) : St :=
  { st with
    assignedTeacher := st.assignedTeacher.set sIdx (some ti)
    teacherSchedule := a2Set st.teacherSchedule (teacherOf env ti).name pid (some sIdx)
    teacherLoad := aSet st.teacherLoad (teacherOf env ti).name
      (aGetD st.teacherLoad (teacherOf env ti).name 0 + 1) }

/-- The swap body (scheduler.py 214-227): assign `alt` to the conflicting
section, free `qt` for this period, assign `qt` to the blocked section. -/
def performSwap (env : Env) (pid : String) (sIdx csIdx qi ai : Nat) (st : St) : St :=
  let qn := (teacherOf env qi).name
  let an := (teacherOf env ai).name
  let st1 := { st with
    assignedTeacher := st.assignedTeacher.set csIdx (some ai)
    teacherSchedule := a2Set st.teacherSchedule an pid (some csIdx)
    teacherLoad := aSet st.teacherLoad an (aGetD st.teacherLoad an 0 + 1) }
  let st2 := { st1 with
    teacherSchedule := a2Set st1.teacherSchedule qn pid none
    teacherLoad := aSet st1.teacherLoad qn (aGetD st1.teacherLoad qn 0 - 1) }
  { st2 with
    assignedTeacher := st2.assignedTeacher.set sIdx (some qi)
    teacherSchedule := a2Set st2.teacherSchedule qn pid (some sIdx)
    teacherLoad := aSet st2.teacherLoad qn (aGetD st2.teacherLoad qn 0 + 1) }

/-- Alternate-teacher loop (209-230); stops at the first successful swap. -/
def altLoop (env : Env) (pid : String) (sIdx csIdx qi : Nat) :
    List Nat → St → St
  | [], st => st
  | ai :: rest, st =>
    let alt := teacherOf env ai
    if alt.name = (teacherOf env qi).name then altLoop env pid sIdx csIdx qi rest st
    else if a2Get st.teacherSchedule alt.name pid = none ∧
        aGetD st.teacherLoad alt.name 0 < alt.maxSections then
      performSwap env pid sIdx csIdx qi ai st
    else altLoop env pid sIdx csIdx qi rest st

/-- Qualified-but-busy loop of the swap logic (202-233). -/
def swapLoop (env : Env) (pid : String) (sIdx : Nat) :
    List Nat → St → St
  | [], st => st
  | qi :: rest, st =>
    match a2Get st.teacherSchedule (teacherOf env qi).name pid with
    | none => swapLoop env pid sIdx rest st
    | some csIdx =>
      let st2 := altLoop env pid sIdx csIdx qi (validTs env csIdx) st
      if st2.assignedTeacher.getD sIdx none ≠ none then st2
      else swapLoop env pid sIdx rest st2

/-- Direct teacher loop (190-195). -/
def directLoop (env : Env) (pid : String) (sIdx : Nat) :
    List Nat → St → St
  | [], st => st
  | ti :: rest, st =>
    let t := teacherOf env ti
    if a2Get st.teacherSchedule t.name pid = none ∧
        aGetD st.teacherLoad t.name 0 < t.maxSections then
      { st with
        assignedTeacher := st.assignedTeacher.set sIdx (some ti)
        teacherSchedule := a2Set st.teacherSchedule t.name pid (some sIdx)
        teacherLoad := aSet st.teacherLoad t.name (aGetD st.teacherLoad t.name 0 + 1) }
    else directLoop env pid sIdx rest st

/-- Per-section body of `assign_teachers_to_sections` (179-237): the
pre-assignment branch, the direct pass, then the swap pass. -/
def teacherForSection (env : Env) (pid : String) (sIdx : Nat) (st : St) : St :=
  match st.assignedTeacher.getD sIdx none with
  | some ti =>
    let tn := (teacherOf env ti).name
    { st with
      teacherSchedule := a2Set st.teacherSchedule tn pid (some sIdx)
      teacherLoad := aSet st.teacherLoad tn (aGetD st.teacherLoad tn 0 + 1) }
  | none =>
    let st1 := directLoop env pid sIdx (validTs env sIdx) st
    if st1.assignedTeacher.getD sIdx none ≠ none then st1
    else swapLoop env pid sIdx (validTs env sIdx) st1

/-- `assign_teachers_to_sections(ctx)` (176-237). -/
def assignTeachers (env : Env) (st : St) : St :=
  (List.range env.periodIds.length).foldl
    (fun acc pIdx =>
      (acc.periodSections.getD pIdx []).foldl
        (fun acc2 sIdx => teacherForSection env (pidOf env pIdx) sIdx acc2) acc)
    st

/-! ### Validator (`check`, scheduler.py 400-443) -/

/-- Per-period loop of `check`, carrying the three used-sets. Error
messages are abbreviated to their identifying prefix. -/
def checkPeriodLoop (env : Env) (st : St) (pid : String) :
    List Nat → List String → List String → List String → Except String Unit
  | [], _, _, _ => .ok ()
  | sIdx :: rest, usedS, usedT, usedC =>
    let s := secOf env sIdx
    if usedS.contains s.sectionId then
      .error ("CONFLICT in " ++ pid ++ ": Section '" ++ s.sectionId ++
        "' is scheduled twice in the same period.")
    else
      let tn? := (st.assignedTeacher.getD sIdx none).map (fun ti => (teacherOf env ti).name)
      match tn? with
      | some tn =>
        if usedT.contains tn then
          .error ("CONFLICT in " ++ pid ++ ": Teacher '" ++ tn ++
            "' is assigned to multiple sections simultaneously.")
        else
          let cn? := (st.assignedRoom.getD sIdx none).map (fun ri => (roomOf env ri).name)
          match cn? with
          | some cn =>
            if usedC.contains cn then
              .error ("CONFLICT in " ++ pid ++ ": Classroom '" ++ cn ++
                "' is assigned to multiple sections simultaneously.")
            else
              checkPeriodLoop env st pid rest (usedS ++ [s.sectionId]) (usedT ++ [tn]) (usedC ++ [cn])
          | none => checkPeriodLoop env st pid rest (usedS ++ [s.sectionId]) (usedT ++ [tn]) usedC
      | none =>
        let cn? := (st.assignedRoom.getD sIdx none).map (fun ri => (roomOf env ri).name)
        match cn? with
        | some cn =>
          if usedC.contains cn then
            .error ("CONFLICT in " ++ pid ++ ": Classroom '" ++ cn ++
              "' is assigned to multiple sections simultaneously.")
          else
            checkPeriodLoop env st pid rest (usedS ++ [s.sectionId]) usedT (usedC ++ [cn])
        | none => checkPeriodLoop env st pid rest (usedS ++ [s.sectionId]) usedT usedC

/-- `check(periods)` over the period list. -/
def checkAll (env : Env) (st : St) : List Nat → Except String Unit
  | [] => .ok ()
  | pIdx :: rest =>
    match checkPeriodLoop env st (pidOf env pIdx) (st.periodSections.getD pIdx []) [] [] [] with
    | .error e => .error e
    | .ok _ => checkAll env st rest

/-- `check(periods)` (scheduler.py 400-443). -/
def checkSchedule (env : Env) (st : St) : Except String Unit :=
  checkAll env st (List.range env.periodIds.length)

/-! ### `run_scheduler` (scheduler.py 339-397) -/

/-- Initial mutable state right after `build_scheduling_context` (the
supplied periods' `assigned_sections` are empty). -/
def initSt (env : Env) (c0 : Ctx0) : St :=
  { periodSections := env.periodIds.map (fun _ => [])
    teacherSchedule := c0.teacherSchedule
    roomSchedule := c0.roomSchedule
    teacherLoad := c0.teacherLoad
    assignedTeacher := env.secs.map (fun _ => none)
    assignedRoom := env.secs.map (fun _ => none) }

/-- The fallback reset (run_scheduler 357-368): clear the period lists and
the sections' fields, re-initialize the scoreboard dicts. -/
def resetState (env : Env) (st : St) : St :=
  { periodSections := env.periodIds.map (fun _ => [])
    teacherSchedule := (initMatrices env.teachers env.classrooms env.periodIds).fst
    teacherLoad := (initMatrices env.teachers env.classrooms env.periodIds).snd.fst
    roomSchedule := (initMatrices env.teachers env.classrooms env.periodIds).snd.snd
    assignedTeacher := st.assignedTeacher.map (fun _ => none)
    assignedRoom := st.assignedRoom.map (fun _ => none) }

/-- The environment after `build_scheduling_context` and
`prioritize_sections`. -/
def envOf (secs : List SectionS) (teachers : List Teacher) (classrooms : List Classroom)
    (periodIds : List String) (c0 : Ctx0) : Env :=
  { secs := secs
    teachers := teachers
    classrooms := classrooms
    periodIds := periodIds
    validTeachers := c0.validTeachers
    validRooms := c0.validRooms
    allSections := prioritized secs c0.validTeachers c0.validRooms }

/-- `run_scheduler(classroom_types, classrooms, class_list, classes,
teachers, periods)` (339-397). The returned value is the environment (whose
`allSections` is the returned `ctx.all_sections` order) together with the
final mutable state. The final `check` call is wrapped in try/except in the
source and cannot affect the result. -/
def runScheduler (classroomTypes : List String) (classrooms : List Classroom)
    (classList : List String) (classes : List ClassC) (teachers : List Teacher)
    (periodIds : List String) : Except String (Env × St) :=
  let secs := generateSections classes
  match buildContext secs teachers classrooms periodIds with
  | .error e => .error e
  | .ok c0 =>
    let env : Env := envOf secs teachers classrooms periodIds c0
    match solveFull env (initSt env c0) 0 with
    | (true, st1) => .ok (env, st1)
    | (false, st1) =>
      match assignSecsToPeriods env classroomTypes (resetState env st1) with
      | .error e => .error e
      | .ok st2 => .ok (env, assignTeachers env (assignClassrooms env classroomTypes st2))

/-! ### Reference passes following the specification's wording

These two definitions deliberately follow the spec/claim text (not the
source); they exist only to be compared against the source-derived passes
above. -/

/-- Scan a period's sections for the first one matching the label and still
roomless; assign it the room (spec 4.4 step 2 wording). -/
def specRoomScan (env : Env) (cType : String) (ri : Nat) :
    List Nat → St → Option St
  | [], _ => none
  | sIdx :: rest, st =>
    if (secOf env sIdx).requiredClassroomType = cType ∧
        st.assignedRoom.getD sIdx none = none then
      some { st with assignedRoom := st.assignedRoom.set sIdx (some ri) }
    else specRoomScan env cType ri rest st

/-- For one label: each room (in classroom-list order) not yet used in the
period and supporting the label goes to the first matching roomless
section. -/
def specRoomsLoop (env : Env) (cType : String) (secL : List Nat) :
    List Nat → List String → St → List String × St
  | [], used, st => (used, st)
  | ri :: rest, used, st =>
    let rn := (roomOf env ri).name
    if used.contains rn then specRoomsLoop env cType secL rest used st
    else if (roomOf env ri).purposes.contains cType then
      match specRoomScan env cType ri secL st with
      | some st2 => specRoomsLoop env cType secL rest (used ++ [rn]) st2
      | none => specRoomsLoop env cType secL rest used st
    else specRoomsLoop env cType secL rest used st

def specTypesLoop (env : Env) (secL : List Nat) :
    List String → List String → St → List String × St
  | [], used, st => (used, st)
  | c :: rest, used, st =>
    let r := specRoomsLoop env c secL (List.range env.classrooms.length) used st
    specTypesLoop env secL rest r.fst r.snd

/-- Room-assignment pass as claim C6 describes it: per period
independently, in room-type-label priority order. -/
def assignClassroomsLabelOrdered (env : Env) (classroomTypes : List String) (st : St) : St :=
  (List.range env.periodIds.length).foldl
    (fun acc pIdx =>
      (specTypesLoop env (acc.periodSections.getD pIdx []) classroomTypes [] acc).snd)
    st

/-- Teacher pass as claim C8 describes it: per period, sections processed
according to the TeachingUnit-name priority labels, each getting the first
qualified teacher free in the period and under load. -/
def assignTeachersLabelOrdered (env : Env) (classList : List String) (st : St) : St :=
  (List.range env.periodIds.length).foldl
    (fun acc pIdx =>
      classList.foldl (fun acc2 c =>
        (acc2.periodSections.getD pIdx []).foldl (fun acc3 sIdx =>
          if (secOf env sIdx).className = c ∧
              acc3.assignedTeacher.getD sIdx none = none then
            directLoop env (pidOf env pIdx) sIdx (validTs env sIdx) acc3
          else acc3) acc2) acc)
    st

/-! ### Observations on final schedules -/

/-- Section ids of the sections in a period, in order. -/
def periodSecIds (env : Env) (st : St) (pIdx : Nat) : List String :=
  (st.periodSections.getD pIdx []).map (fun i => (secOf env i).sectionId)

/-- Names of the non-null assigned teachers of a period's sections. -/
def periodTeacherNames (env : Env) (st : St) (pIdx : Nat) : List String :=
  (st.periodSections.getD pIdx []).filterMap
    (fun i => (st.assignedTeacher.getD i none).map (fun ti => (teacherOf env ti).name))

/-- Names of the non-null assigned classrooms of a period's sections. -/
def periodRoomNames (env : Env) (st : St) (pIdx : Nat) : List String :=
  (st.periodSections.getD pIdx []).filterMap
    (fun i => (st.assignedRoom.getD i none).map (fun ri => (roomOf env ri).name))

/-- Whether an assigned-teacher cell names the given teacher by name. -/
def cellNames (env : Env) (n : String) : Option Nat → Bool
  | none => false
  | some ti => (teacherOf env ti).name == n

/-- Number of sections currently assigned to a teacher of the given name. -/
def countName (env : Env) (st : St) (n : String) : Nat :=
  (st.assignedTeacher.filter (cellNames env n)).length

/-- Number of sections currently assigned to the teacher at index `ti`
(this is the count "sections whose assigned_teacher is t" of claim C4). -/
def countIdx (st : St) (ti : Nat) : Nat :=
  (st.assignedTeacher.filter (fun o => o == some ti)).length

/-! ### Well-formedness and the scoreboard-consistency invariant -/

/-- Key present in an association list. -/
def hasKey {α : Type} (m : List (String × α)) (k : String) : Prop :=
  (aGet m k).isSome = true

/-- Key pair present in a two-level dict. -/
def hasKey2 (m : List (String × List (String × Option Nat))) (k1 k2 : String) : Prop :=
  (aGet (aGetD m k1 []) k2).isSome = true

instance {α : Type} (m : List (String × α)) (k : String) : Decidable (hasKey m k) := by
  unfold hasKey; infer_instance

instance (m : List (String × List (String × Option Nat))) (k1 k2 : String) :
    Decidable (hasKey2 m k1 k2) := by
  unfold hasKey2; infer_instance

/-- Facts about `Env` established by `build_scheduling_context` and
`prioritize_sections`: domain entries are in-range (and teacher domains
only contain positive-capacity teachers), and `all_sections` is a
duplicate-free list of in-range section indices. -/
def EnvWf (env : Env) : Prop :=
  (∀ kl ∈ env.validTeachers, ∀ ti ∈ kl.snd,
      ti < env.teachers.length ∧ 0 < (teacherOf env ti).maxSections) ∧
  (∀ kl ∈ env.validRooms, ∀ ri ∈ kl.snd, ri < env.classrooms.length) ∧
  env.allSections.Nodup ∧
  (∀ i ∈ env.allSections, i < env.secs.length)

/-- A section index sits in some period whose id is `pid`. -/
def locatedAt (env : Env) (st : St) (sIdx : Nat) (pid : String) : Prop :=
  ∃ pIdx ∈ List.range env.periodIds.length,
    pidOf env pIdx = pid ∧ sIdx ∈ st.periodSections.getD pIdx []

/-- Keys of a dict are duplicate-free. -/
def keysNodup {α : Type} (m : List (String × α)) : Prop :=
  (m.map Prod.fst).Nodup

/-- Keys of every row of a two-level dict are duplicate-free. -/
def innerKeysNodup (m : List (String × List (String × Option Nat))) : Prop :=
  ∀ row ∈ m, (row.snd.map Prod.fst).Nodup

/-- Shape: the mutable lists have the right lengths, the scoreboard dicts
have all their keys, and dict keys are duplicate-free (as Python dicts'
are). -/
def ShapeOk (env : Env) (st : St) : Prop :=
  st.periodSections.length = env.periodIds.length ∧
  st.assignedTeacher.length = env.secs.length ∧
  st.assignedRoom.length = env.secs.length ∧
  (∀ t ∈ env.teachers, ∀ pid ∈ env.periodIds, hasKey2 st.teacherSchedule t.name pid) ∧
  (∀ t ∈ env.teachers, hasKey st.teacherLoad t.name) ∧
  (∀ r ∈ env.classrooms, ∀ pid ∈ env.periodIds, hasKey2 st.roomSchedule r.name pid) ∧
  keysNodup st.teacherSchedule ∧ innerKeysNodup st.teacherSchedule ∧
  keysNodup st.roomSchedule ∧ innerKeysNodup st.roomSchedule ∧
  keysNodup st.teacherLoad

/-- Every section index appearing in a period is in range, and no index
appears twice across the period lists. -/
def PlacedOk (env : Env) (st : St) : Prop :=
  (∀ l ∈ st.periodSections, ∀ i ∈ l, i < env.secs.length) ∧
  st.periodSections.flatten.Nodup

/-- Occupied `teacher_schedule` cells point at sections that carry a
same-named teacher and sit in a period with that id. -/
def TSchedOk (env : Env) (st : St) : Prop :=
  ∀ t ∈ env.teachers, ∀ pid ∈ env.periodIds,
    ∀ sIdx ∈ a2Get st.teacherSchedule t.name pid,
      sIdx < env.secs.length ∧
      (st.assignedTeacher.getD sIdx none).isSome = true ∧
      (∀ ti ∈ st.assignedTeacher.getD sIdx none,
        ti < env.teachers.length ∧ (teacherOf env ti).name = t.name) ∧
      locatedAt env st sIdx pid

/-- Placed sections with a teacher occupy their `teacher_schedule` cell. -/
def TFieldOk (env : Env) (st : St) : Prop :=
  ∀ pIdx ∈ List.range env.periodIds.length,
    ∀ sIdx ∈ st.periodSections.getD pIdx [],
      ∀ ti ∈ st.assignedTeacher.getD sIdx none,
        a2Get st.teacherSchedule (teacherOf env ti).name (pidOf env pIdx) = some sIdx

/-- Occupied `room_schedule` cells point at sections that carry a
same-named room and sit in a period with that id. -/
def RSchedOk (env : Env) (st : St) : Prop :=
  ∀ r ∈ env.classrooms, ∀ pid ∈ env.periodIds,
    ∀ sIdx ∈ a2Get st.roomSchedule r.name pid,
      sIdx < env.secs.length ∧
      (st.assignedRoom.getD sIdx none).isSome = true ∧
      (∀ ri ∈ st.assignedRoom.getD sIdx none,
        ri < env.classrooms.length ∧ (roomOf env ri).name = r.name) ∧
      locatedAt env st sIdx pid

/-- Placed sections with a room occupy their `room_schedule` cell. -/
def RFieldOk (env : Env) (st : St) : Prop :=
  ∀ pIdx ∈ List.range env.periodIds.length,
    ∀ sIdx ∈ st.periodSections.getD pIdx [],
      ∀ ri ∈ st.assignedRoom.getD sIdx none,
        a2Get st.roomSchedule (roomOf env ri).name (pidOf env pIdx) = some sIdx

/-- Teacher fields point into the teacher list. -/
def TBoundOk (env : Env) (st : St) : Prop :=
  ∀ o ∈ st.assignedTeacher, ∀ ti ∈ o, ti < env.teachers.length

/-- Per-name load dominates the per-name section count. -/
def LoadOk (env : Env) (st : St) : Prop :=
  ∀ t ∈ env.teachers, (countName env st t.name : Int) ≤ aGetD st.teacherLoad t.name 0

/-- Per-object section count never exceeds the object's (nonnegative part
of) max load. -/
def MaxOk (env : Env) (st : St) : Prop :=
  ∀ ti ∈ List.range env.teachers.length,
    (countIdx st ti : Int) ≤ max (teacherOf env ti).maxSections 0

/-- The scoreboard-consistency core invariant carried through the solver
and the fallback passes. -/
def Core (env : Env) (st : St) : Prop :=
  ShapeOk env st ∧ PlacedOk env st ∧ TSchedOk env st ∧ TFieldOk env st ∧
  RSchedOk env st ∧ RFieldOk env st ∧ TBoundOk env st ∧ LoadOk env st

/-- The full invariant: core plus the per-teacher load bound. -/
def Inv (env : Env) (st : St) : Prop :=
  Core env st ∧ MaxOk env st

/-- A freshly initialized (or reset) assignment state: every scoreboard
cell free, every load zero, every section unassigned. -/
def FreshAssign (env : Env) (st : St) : Prop :=
  (∀ t ∈ env.teachers, ∀ pid ∈ env.periodIds, a2Get st.teacherSchedule t.name pid = none) ∧
  (∀ r ∈ env.classrooms, ∀ pid ∈ env.periodIds, a2Get st.roomSchedule r.name pid = none) ∧
  (∀ o ∈ st.assignedTeacher, o = none) ∧
  (∀ o ∈ st.assignedRoom, o = none) ∧
  (∀ t ∈ env.teachers, aGetD st.teacherLoad t.name 0 = 0)

/-- Sections still to be processed by the solver (indices `i` onward of
`all_sections`) are completely unassigned. -/
def UnplacedFrom (env : Env) (st : St) (i : Nat) : Prop :=
  ∀ j ∈ env.allSections.drop i,
    st.assignedTeacher.getD j none = none ∧
    st.assignedRoom.getD j none = none ∧
    ∀ l ∈ st.periodSections, j ∉ l

/-- Section `j` is invisible to the fallback passes: it sits in no period,
carries no assignments, and no `teacher_schedule` entry points at it. -/
def Untouched (st : St) (j : Nat) : Prop :=
  (∀ l ∈ st.periodSections, j ∉ l) ∧
  st.assignedTeacher.getD j none = none ∧
  st.assignedRoom.getD j none = none ∧
  (∀ row ∈ st.teacherSchedule, ∀ c ∈ row.snd, c.snd ≠ some j)

instance (env : Env) (st : St) (sIdx : Nat) (pid : String) :
    Decidable (locatedAt env st sIdx pid) := by
  unfold locatedAt; infer_instance

instance (env : Env) : Decidable (EnvWf env) := by
  unfold EnvWf; infer_instance

instance {α : Type} (m : List (String × α)) : Decidable (keysNodup m) := by
  unfold keysNodup; infer_instance

instance (m : List (String × List (String × Option Nat))) :
    Decidable (innerKeysNodup m) := by
  unfold innerKeysNodup; infer_instance

instance (env : Env) (st : St) : Decidable (ShapeOk env st) := by
  unfold ShapeOk; infer_instance

instance (env : Env) (st : St) : Decidable (PlacedOk env st) := by
  unfold PlacedOk; infer_instance

instance (env : Env) (st : St) : Decidable (TSchedOk env st) := by
  unfold TSchedOk; infer_instance

instance (env : Env) (st : St) : Decidable (TFieldOk env st) := by
  unfold TFieldOk; infer_instance

instance (env : Env) (st : St) : Decidable (RSchedOk env st) := by
  unfold RSchedOk; infer_instance

instance (env : Env) (st : St) : Decidable (RFieldOk env st) := by
  unfold RFieldOk; infer_instance

instance (env : Env) (st : St) : Decidable (TBoundOk env st) := by
  unfold TBoundOk; infer_instance

instance (env : Env) (st : St) : Decidable (LoadOk env st) := by
  unfold LoadOk; infer_instance

instance (env : Env) (st : St) : Decidable (MaxOk env st) := by
  unfold MaxOk; infer_instance

instance (env : Env) (st : St) : Decidable (Core env st) := by
  unfold Core; infer_instance

instance (env : Env) (st : St) : Decidable (Inv env st) := by
  unfold Inv; infer_instance

instance (env : Env) (st : St) (i : Nat) : Decidable (UnplacedFrom env st i) := by
  unfold UnplacedFrom; infer_instance

instance (st : St) (j : Nat) : Decidable (Untouched st j) := by
  unfold Untouched; infer_instance

/-! ### Concrete scenarios -/

/-- The demo scenario of `demo_run.py` (also the scenario of claim C3). -/
def demoClassrooms : List Classroom := [⟨"R1", 30, ["r"]⟩]

def demoClasses : List ClassC := [⟨"A", 1, "r"⟩, ⟨"B", 1, "r"⟩, ⟨"C", 1, "r"⟩]

def demoTeachers : List Teacher :=
  [⟨"T1", ["A", "C"], 1, 0⟩, ⟨"T2", ["B", "C"], 1, 0⟩, ⟨"T3", ["A"], 1, 0⟩]

def demoRun : Except String (Env × St) :=
  runScheduler ["r"] demoClassrooms [] demoClasses demoTeachers ["P1"]

/-- Input with two equal labels in `classroom_types` (claim C1). -/
def dupLabelRun : Except String (Env × St) :=
  runScheduler ["r", "r"] [⟨"R", 30, ["r"]⟩] []
    [⟨"c1", 1, "r"⟩, ⟨"c2", 1, "r"⟩] [⟨"T", ["c1", "c2"], 2, 0⟩] ["P1"]

/-- Teachers for the duplicate-teacher-name input of claim C4: two distinct
teacher objects named "T". -/
def dupNameTeachers : List Teacher :=
  [⟨"T", ["c1", "c4"], 1, 0⟩, ⟨"T", ["c2"], 5, 0⟩, ⟨"C", ["c2"], 5, 0⟩,
   ⟨"D", ["c3"], 5, 0⟩, ⟨"E", ["c3"], 5, 0⟩, ⟨"G", ["cx", "c4"], 5, 0⟩,
   ⟨"H", ["cx"], 5, 0⟩, ⟨"I", ["c5"], 5, 0⟩, ⟨"J", ["c5"], 5, 0⟩]

def dupNameClasses : List ClassC :=
  [⟨"c1", 1, "r"⟩, ⟨"c2", 1, "r"⟩, ⟨"c3", 1, "r"⟩, ⟨"cx", 1, "r"⟩,
   ⟨"c5", 1, "r"⟩, ⟨"c4", 1, "r"⟩]

def dupNameRun : Except String (Env × St) :=
  runScheduler ["r"] [⟨"R", 30, ["r"]⟩] [] dupNameClasses dupNameTeachers ["P1", "P2"]

/-- Three-room input on which the fallback room pass reassigns a section
(claim C6). -/
def threeRoomRun : Except String (Env × St) :=
  runScheduler ["r", "r"]
    [⟨"r1", 30, ["r"]⟩, ⟨"r2", 30, ["r"]⟩, ⟨"r3", 30, ["r"]⟩] []
    [⟨"c1", 1, "r"⟩, ⟨"c2", 1, "r"⟩] [⟨"T", ["c1", "c2"], 2, 0⟩] ["P1"]

/-- Zero-period input (claim C9). -/
def zeroPeriodRun : Except String (Env × St) :=
  runScheduler ["r"] [⟨"R", 30, ["r"]⟩] [] [⟨"c1", 1, "r"⟩] [⟨"T", ["c1"], 1, 0⟩] []

/-- The first section with an empty teacher domain or (failing that) an
empty room domain, tagged `true` for the teacher case — the section whose
name `build_scheduling_context`'s error message carries. -/
def firstOffender (teachers : List Teacher) (classrooms : List Classroom) :
    List SectionS → Option (SectionS × Bool)
  | [] => none
  | s :: rest =>
    if (teacherDomain teachers s).isEmpty then some (s, true)
    else if (roomDomain classrooms s).isEmpty then some (s, false)
    else firstOffender teachers classrooms rest

/-- Environment produced by `run_scheduler` for a given input (junk when
the context builder fails). -/
def envFor (classes : List ClassC) (teachers : List Teacher)
    (classrooms : List Classroom) (periodIds : List String) : Env :=
  match buildContext (generateSections classes) teachers classrooms periodIds with
  | .ok c0 => envOf (generateSections classes) teachers classrooms periodIds c0
  | .error _ => ⟨[], [], [], [], [], [], []⟩

/-- Initial mutable state of `run_scheduler` for a given input. -/
def st0For (classes : List ClassC) (teachers : List Teacher)
    (classrooms : List Classroom) (periodIds : List String) : St :=
  match buildContext (generateSections classes) teachers classrooms periodIds with
  | .ok c0 => initSt (envFor classes teachers classrooms periodIds) c0
  | .error _ => ⟨[], [], [], [], [], []⟩

def demoEnv : Env := envFor demoClasses demoTeachers demoClassrooms ["P1"]

def demoSt0 : St := st0For demoClasses demoTeachers demoClassrooms ["P1"]

/-- Input whose fallback teacher pass distinguishes period order from
class-name-priority order (claim C8): class B's section precedes class A's
in the single period, and one teacher qualified for both. -/
def c8Classes : List ClassC := [⟨"B", 1, "r"⟩, ⟨"A", 1, "r"⟩]

def c8Teachers : List Teacher := [⟨"T", ["A", "B"], 1, 0⟩]

def c8Env : Env := envFor c8Classes c8Teachers [⟨"R", 30, ["r"]⟩] ["P1"]

/-- The fallback state right after the period-assignment pass on the C8
input. -/
def c8St : St :=
  match assignSecsToPeriods c8Env ["r"] (st0For c8Classes c8Teachers [⟨"R", 30, ["r"]⟩] ["P1"]) with
  | .ok st => st
  | .error _ => ⟨[], [], [], [], [], []⟩

/-- Three-room input environment and fallback state after period
assignment with the duplicated label list (claim C6). -/
def c6Classes : List ClassC := [⟨"c1", 1, "r"⟩, ⟨"c2", 1, "r"⟩]

def c6Rooms : List Classroom := [⟨"r1", 30, ["r"]⟩, ⟨"r2", 30, ["r"]⟩, ⟨"r3", 30, ["r"]⟩]

def c6Env : Env := envFor c6Classes [⟨"T", ["c1", "c2"], 2, 0⟩] c6Rooms ["P1"]

def c6St : St :=
  match assignSecsToPeriods c6Env ["r", "r"] (st0For c6Classes [⟨"T", ["c1", "c2"], 2, 0⟩] c6Rooms ["P1"]) with
  | .ok st => st
  | .error _ => ⟨[], [], [], [], [], []⟩

/-- The result pair of the demo run (junk when the run fails). -/
def demoFinal : Env × St :=
  match demoRun with
  | .ok p => p
  | .error _ => (⟨[], [], [], [], [], [], []⟩, ⟨[], [], [], [], [], []⟩)

/-- Input with a section (index 1, class c2) whose required room type "x"
is missing from the label list `["r"]` (claim C10). -/
def c10Classes : List ClassC := [⟨"c1", 1, "r"⟩, ⟨"c2", 1, "x"⟩]

def c10Teachers : List Teacher := [⟨"T", ["c1", "c2"], 2, 0⟩]

def c10Rooms : List Classroom := [⟨"R", 30, ["r", "x"]⟩]

def c10Env : Env := envFor c10Classes c10Teachers c10Rooms ["P1"]

def c10St0 : St := st0For c10Classes c10Teachers c10Rooms ["P1"]

/-- The C10 fallback state after the period-assignment pass. -/
def c10St2 : St :=
  match assignSecsToPeriods c10Env ["r"] c10St0 with
  | .ok st => st
  | .error _ => ⟨[], [], [], [], [], []⟩

/-- Hand-built two-teacher state in which the swap repair fires (witness
input for claim C7): section 1 holds teacher "X" in period "P", section 0
is blocked, and "Y" is a free alternate for section 1. -/
def c7Env : Env :=
  ⟨[⟨"s0", "a", "r"⟩, ⟨"s1", "a", "r"⟩],
   [⟨"X", ["a"], 1, 0⟩, ⟨"Y", ["a"], 1, 0⟩], [], ["P"],
   [("s0", [0]), ("s1", [0, 1])], [], [0, 1]⟩

def c7St : St :=
  ⟨[[1, 0]],
   [("X", [("P", some 1)]), ("Y", [("P", none)])], [],
   [("X", 1), ("Y", 0)],
   [none, some 0], [none, none]⟩

/-! ## Theorems -/

/-! ### Association-list lemmas -/

theorem aSet_cons_hit {α : Type} {m : List (String × α)} (k : String) (b v : α) :
    aSet ((k, b) :: m) k v = (k, v) :: aSet m k v := by
  unfold aSet; simp

theorem aSet_cons_miss {α : Type} {m : List (String × α)} {a k : String} (h : a ≠ k)
    (b : α) (v : α) : aSet ((a, b) :: m) k v = (a, b) :: aSet m k v := by
  unfold aSet; simp [h]

theorem aGet_cons_hit {α : Type} {m : List (String × α)} (k : String) (b : α) :
    aGet ((k, b) :: m) k = some b := by
  unfold aGet
  rw [List.find?_cons_of_pos _ (by simp)]
  rfl

theorem aGet_cons_miss {α : Type} {m : List (String × α)} {a k : String} (h : a ≠ k)
    (b : α) : aGet ((a, b) :: m) k = aGet m k := by
  unfold aGet
  rw [List.find?_cons_of_neg _ (by simp [h])]

theorem aGet_aSet {α : Type} (m : List (String × α)) (k k' : String) (v : α) :
    aGet (aSet m k v) k' = if k' = k then (aGet m k).map (fun _ => v) else aGet m k' := by
  induction m with
  | nil => by_cases h : k' = k <;> simp [aGet, aSet, h]
  | cons e m ih =>
    obtain ⟨a, b⟩ := e
    by_cases hak : a = k
    · subst hak
      rw [aSet_cons_hit]
      by_cases hk : k' = a
      · subst hk
        rw [aGet_cons_hit, aGet_cons_hit, if_pos rfl]; rfl
      · rw [aGet_cons_miss (fun h => hk h.symm), aGet_cons_miss (fun h => hk h.symm), ih,
          if_neg hk, if_neg hk]
    · rw [aSet_cons_miss hak]
      by_cases hk : k' = a
      · subst hk
        rw [aGet_cons_hit, if_neg hak, aGet_cons_hit]
      · simp only [aGet_cons_miss hak, aGet_cons_miss (fun h => hk h.symm)]
        exact ih

theorem aGet_aSet_self {α : Type} {m : List (String × α)} {k : String} (v : α)
    (h : (aGet m k).isSome = true) : aGet (aSet m k v) k = some v := by
  rw [aGet_aSet, if_pos rfl]
  obtain ⟨w, hw⟩ := Option.isSome_iff_exists.mp h
  rw [hw]; rfl

theorem aGet_aSet_ne {α : Type} {m : List (String × α)} {k k' : String} (v : α)
    (h : k' ≠ k) : aGet (aSet m k v) k' = aGet m k' := by
  rw [aGet_aSet, if_neg h]

theorem aSet_aSet {α : Type} (m : List (String × α)) (k : String) (v w : α) :
    aSet (aSet m k v) k w = aSet m k w := by
  unfold aSet
  rw [List.map_map]
  apply List.map_congr_left
  intro e _
  obtain ⟨a, b⟩ := e
  by_cases h : (a == k) = true <;> simp [Function.comp, h]

theorem aSet_id {α : Type} {m : List (String × α)} {k : String} {v : α}
    (h : ∀ e ∈ m, e.fst = k → e.snd = v) : aSet m k v = m := by
  unfold aSet
  conv_rhs => rw [← List.map_id m]
  apply List.map_congr_left
  intro e he
  obtain ⟨a, b⟩ := e
  by_cases hk : a = k
  · have hv := h (a, b) he hk
    simp only at hv
    simp [hk, hv]
  · simp [hk]

theorem keys_aSet {α : Type} (m : List (String × α)) (k : String) (v : α) :
    (aSet m k v).map Prod.fst = m.map Prod.fst := by
  unfold aSet
  rw [List.map_map]
  apply List.map_congr_left
  intro e _
  by_cases h : e.fst = k <;> simp [h, Function.comp]

theorem aGet_mem {α : Type} {m : List (String × α)} {k : String} {v : α}
    (h : aGet m k = some v) : (k, v) ∈ m := by
  induction m with
  | nil => simp [aGet] at h
  | cons e m ih =>
    obtain ⟨a, b⟩ := e
    by_cases hak : a = k
    · subst hak
      rw [aGet_cons_hit] at h
      simp only [Option.some.injEq] at h
      simp [h]
    · rw [aGet_cons_miss hak] at h
      exact List.mem_cons_of_mem _ (ih h)

theorem aGet_isSome_iff {α : Type} (m : List (String × α)) (k : String) :
    (aGet m k).isSome = true ↔ k ∈ m.map Prod.fst := by
  induction m with
  | nil => simp [aGet]
  | cons e m ih =>
    obtain ⟨a, b⟩ := e
    by_cases hak : a = k
    · subst hak; simp [aGet_cons_hit]
    · rw [aGet_cons_miss hak, ih]
      simp only [List.map_cons, List.mem_cons]
      constructor
      · intro h; exact Or.inr h
      · rintro (h | h)
        · exact absurd h.symm hak
        · exact h

theorem entry_unique {α : Type} {m : List (String × α)} (hn : keysNodup m)
    {k : String} {v w : α} (hv : (k, v) ∈ m) (hw : (k, w) ∈ m) : v = w := by
  induction m with
  | nil => simp at hv
  | cons e m ih =>
    obtain ⟨a, b⟩ := e
    unfold keysNodup at hn
    simp only [List.map_cons, List.nodup_cons] at hn
    rcases List.mem_cons.mp hv with h1 | h1 <;> rcases List.mem_cons.mp hw with h2 | h2
    · rw [Prod.mk.injEq] at h1 h2
      rw [h1.2, h2.2]
    · exfalso
      apply hn.1
      rw [Prod.mk.injEq] at h1
      rw [← h1.1]
      exact List.mem_map_of_mem Prod.fst h2
    · exfalso
      apply hn.1
      rw [Prod.mk.injEq] at h2
      rw [← h2.1]
      exact List.mem_map_of_mem Prod.fst h1
    · exact ih hn.2 h1 h2

theorem aGet_entries {α : Type} {m : List (String × α)} {k : String} {v : α}
    (hn : keysNodup m) (h : aGet m k = some v) :
    ∀ e ∈ m, e.fst = k → e.snd = v := by
  intro e he hk
  have hmem : (k, e.snd) ∈ m := by
    obtain ⟨a, b⟩ := e
    simp only at hk
    rw [hk] at he
    exact he
  exact entry_unique hn hmem (aGet_mem h)

theorem aGet_aIns {α : Type} (m : List (String × α)) (k k' : String) (v : α) :
    aGet (aIns m k v) k' = if k' = k then some v else aGet m k' := by
  unfold aIns
  by_cases hp : (m.find? (fun kv => kv.fst == k)).isSome
  · rw [if_pos hp, aGet_aSet]
    by_cases hk : k' = k
    · subst hk
      rw [if_pos rfl, if_pos rfl]
      obtain ⟨w, hw⟩ := Option.isSome_iff_exists.mp hp
      have hg : aGet m k' = some w.snd := by unfold aGet; rw [hw]; rfl
      rw [hg]; rfl
    · rw [if_neg hk, if_neg hk]
  · rw [if_neg hp]
    have habs : aGet m k = none := by
      unfold aGet
      rcases hf : m.find? (fun kv => kv.fst == k) with _ | w
      · rw [hf]; rfl
      · exact absurd (by rw [hf]; rfl) hp
    induction m with
    | nil =>
      by_cases hk : k' = k
      · subst hk; simp [aGet_cons_hit]
      · rw [if_neg hk]
        show aGet [(k, v)] k' = aGet [] k'
        rw [aGet_cons_miss (fun h => hk h.symm)]
    | cons e m ih =>
      obtain ⟨a, b⟩ := e
      by_cases hak : a = k
      · exfalso
        subst hak
        rw [aGet_cons_hit] at habs
        exact Option.noConfusion habs
      · rw [aGet_cons_miss hak] at habs
        have hp2 : ¬ (m.find? (fun kv => kv.fst == k)).isSome := by
          intro hs
          obtain ⟨w, hw⟩ := Option.isSome_iff_exists.mp hs
          unfold aGet at habs
          rw [hw] at habs
          exact Option.noConfusion habs
        by_cases hak' : a = k'
        · subst hak'
          show aGet ((a, b) :: (m ++ [(k, v)])) a = if a = k then some v else aGet ((a, b) :: m) a
          rw [aGet_cons_hit, if_neg (fun h => hak h), aGet_cons_hit]
        · show aGet ((a, b) :: (m ++ [(k, v)])) k' = if k' = k then some v else aGet ((a, b) :: m) k'
          rw [aGet_cons_miss hak']
          have := ih hp2 habs
          rw [this]
          by_cases hk : k' = k
          · rw [if_pos hk, if_pos hk]
          · rw [if_neg hk, if_neg hk, aGet_cons_miss hak']

theorem aGet_isSome_aIns {α : Type} (m : List (String × α)) (k k' : String) (v : α) :
    (aGet (aIns m k v) k').isSome = true ↔ (k' = k ∨ (aGet m k').isSome = true) := by
  rw [aGet_aIns]
  by_cases hk : k' = k <;> simp [hk]

theorem keys_aIns {α : Type} (m : List (String × α)) (k : String) (v : α) :
    (aIns m k v).map Prod.fst = m.map Prod.fst ∨
      ((aIns m k v).map Prod.fst = m.map Prod.fst ++ [k] ∧ k ∉ m.map Prod.fst) := by
  unfold aIns
  by_cases hp : (m.find? (fun kv => kv.fst == k)).isSome
  · left; rw [if_pos hp]; exact keys_aSet m k v
  · right
    rw [if_neg hp]
    refine ⟨by simp, ?_⟩
    intro hk
    apply hp
    rw [← aGet_isSome_iff] at hk
    unfold aGet at hk
    rcases hf : m.find? (fun kv => kv.fst == k) with _ | w
    · rw [hf] at hk
      simp at hk
    · rw [hf]; rfl

theorem keysNodup_aIns {α : Type} {m : List (String × α)} (hn : keysNodup m)
    (k : String) (v : α) : keysNodup (aIns m k v) := by
  unfold keysNodup
  rcases keys_aIns m k v with h | ⟨h, hk⟩
  · rw [h]; exact hn
  · rw [h, List.nodup_append]
    exact ⟨hn, List.nodup_singleton k, by simpa using hk⟩

theorem hasKey_aIns_self {α : Type} (m : List (String × α)) (k : String) (v : α) :
    hasKey (aIns m k v) k := by
  unfold hasKey
  rw [aGet_aIns, if_pos rfl]; rfl

theorem hasKey_aIns_mono {α : Type} {m : List (String × α)} {k' : String}
    (h : hasKey m k') (k : String) (v : α) : hasKey (aIns m k v) k' := by
  unfold hasKey at *
  rw [aGet_isSome_aIns]
  exact Or.inr h

/-! ### Two-level dict lemmas -/

theorem aGetD_aSet_self {α : Type} {m : List (String × α)} {k : String}
    (h : hasKey m k) (v d : α) : aGetD (aSet m k v) k d = v := by
  unfold aGetD
  rw [aGet_aSet_self v h]
  rfl

theorem aGetD_aSet_ne {α : Type} {m : List (String × α)} {k k' : String}
    (h : k' ≠ k) (v d : α) : aGetD (aSet m k v) k' d = aGetD m k' d := by
  unfold aGetD
  rw [aGet_aSet_ne v h]

theorem hasKey_aSet {α : Type} (m : List (String × α)) (k k' : String) (v : α) :
    hasKey (aSet m k v) k' ↔ hasKey m k' := by
  unfold hasKey
  rw [aGet_isSome_iff, aGet_isSome_iff, keys_aSet]

theorem mem_aSet_elim {α : Type} {m : List (String × α)} {k : String} {v : α}
    {e : String × α} (he : e ∈ aSet m k v) : e = (k, v) ∨ e ∈ m := by
  unfold aSet at he
  obtain ⟨x, hx, hmap⟩ := List.mem_map.mp he
  by_cases h : (x.fst == k) = true
  · rw [if_pos h] at hmap
    left
    exact hmap.symm
  · rw [if_neg h] at hmap
    right
    rw [← hmap]
    exact hx

theorem hasKey2_elim {m : List (String × List (String × Option Nat))} {k1 k2 : String}
    (h : hasKey2 m k1 k2) :
    ∃ row, aGet m k1 = some row ∧ (aGet row k2).isSome = true := by
  unfold hasKey2 at h
  rcases hg : aGet m k1 with _ | row
  · exfalso
    unfold aGetD at h
    rw [hg] at h
    simp [aGet] at h
  · refine ⟨row, rfl, ?_⟩
    unfold aGetD at h
    rw [hg] at h
    exact h

theorem hasKey2_outer {m : List (String × List (String × Option Nat))} {k1 k2 : String}
    (h : hasKey2 m k1 k2) : (aGet m k1).isSome = true := by
  obtain ⟨row, hr, _⟩ := hasKey2_elim h
  rw [hr]; rfl

theorem a2Set_outer_absent {m : List (String × List (String × Option Nat))}
    {k1 : String} (h : ¬ (aGet m k1).isSome = true) (k2 : String) (v : Option Nat) :
    a2Set m k1 k2 v = m := by
  unfold a2Set
  apply aSet_id
  intro e he hk
  exfalso
  apply h
  rw [aGet_isSome_iff]
  rw [← hk]
  exact List.mem_map_of_mem Prod.fst he

theorem aGetD_a2Set_self {m : List (String × List (String × Option Nat))}
    {k1 : String} (h : (aGet m k1).isSome = true) (k2 : String) (v : Option Nat) :
    aGetD (a2Set m k1 k2 v) k1 [] = aSet (aGetD m k1 []) k2 v := by
  unfold a2Set
  rw [aGetD_aSet_self]
  exact h

theorem a2Get_a2Set_self {m : List (String × List (String × Option Nat))}
    {k1 k2 : String} (h : hasKey2 m k1 k2) (v : Option Nat) :
    a2Get (a2Set m k1 k2 v) k1 k2 = v := by
  obtain ⟨row, hr, hin⟩ := hasKey2_elim h
  have hrow : aGetD m k1 [] = row := by unfold aGetD; rw [hr]; rfl
  unfold a2Get
  rw [aGetD_a2Set_self (hasKey2_outer h), hrow]
  have : aGet (aSet row k2 v) k2 = some v := aGet_aSet_self v hin
  unfold aGet at this
  rw [this]
  rfl

theorem a2Get_a2Set_ne {m : List (String × List (String × Option Nat))}
    {k1 k2 k1' k2' : String} (h : k1' ≠ k1 ∨ k2' ≠ k2) (v : Option Nat) :
    a2Get (a2Set m k1 k2 v) k1' k2' = a2Get m k1' k2' := by
  by_cases hout : (aGet m k1).isSome = true
  · rcases h with h | h
    · unfold a2Get a2Set aGetD
      rw [aGet_aSet_ne _ h]
    · by_cases h1 : k1' = k1
      · subst h1
        unfold a2Get
        rw [aGetD_a2Set_self hout]
        have : aGet (aSet (aGetD m k1' []) k2 v) k2' = aGet (aGetD m k1' []) k2' :=
          aGet_aSet_ne v h
        unfold aGet at this
        rw [this]
      · unfold a2Get a2Set aGetD
        rw [aGet_aSet_ne _ h1]
  · rw [a2Set_outer_absent hout]

theorem hasKey2_a2Set (m : List (String × List (String × Option Nat)))
    (k1 k2 x y : String) (v : Option Nat) :
    hasKey2 (a2Set m k1 k2 v) x y ↔ hasKey2 m x y := by
  by_cases hout : (aGet m k1).isSome = true
  · by_cases h1 : x = k1
    · subst h1
      unfold hasKey2
      rw [aGetD_a2Set_self hout]
      rw [aGet_isSome_iff, aGet_isSome_iff, keys_aSet]
    · unfold hasKey2 aGetD
      unfold a2Set
      rw [aGet_aSet_ne _ h1]
  · rw [a2Set_outer_absent hout]

theorem keysNodup_a2Set {m : List (String × List (String × Option Nat))}
    (hn : keysNodup m) (k1 k2 : String) (v : Option Nat) :
    keysNodup (a2Set m k1 k2 v) := by
  unfold keysNodup at *
  unfold a2Set
  rw [keys_aSet]
  exact hn

theorem innerKeysNodup_a2Set {m : List (String × List (String × Option Nat))}
    (hn : innerKeysNodup m) (k1 k2 : String) (v : Option Nat) :
    innerKeysNodup (a2Set m k1 k2 v) := by
  unfold innerKeysNodup at *
  intro row hrow
  unfold a2Set at hrow
  rcases mem_aSet_elim hrow with h | h
  · rw [h]
    simp only
    rw [keys_aSet]
    rcases hg : aGet m k1 with _ | row0
    · unfold aGetD
      rw [hg]
      simp
    · unfold aGetD
      rw [hg]
      simp only [Option.getD_some]
      exact hn (k1, row0) (aGet_mem hg)
  · exact hn row h

theorem a2Set_a2Set (m : List (String × List (String × Option Nat)))
    (k1 k2 : String) (v w : Option Nat) :
    a2Set (a2Set m k1 k2 v) k1 k2 w = a2Set m k1 k2 w := by
  by_cases hout : (aGet m k1).isSome = true
  · unfold a2Set
    rw [aGetD_aSet_self hout, aSet_aSet, aSet_aSet]
  · rw [a2Set_outer_absent hout, a2Set_outer_absent hout]

theorem a2Set_id {m : List (String × List (String × Option Nat))} {k1 k2 : String}
    (h2 : hasKey2 m k1 k2) (hkn : keysNodup m) (hin : innerKeysNodup m)
    (hv : a2Get m k1 k2 = none) : a2Set m k1 k2 none = m := by
  obtain ⟨row, hr, hins⟩ := hasKey2_elim h2
  have hrow : aGetD m k1 [] = row := by unfold aGetD; rw [hr]; rfl
  obtain ⟨cell, hcell⟩ := Option.isSome_iff_exists.mp hins
  have hcnone : cell = none := by
    unfold a2Get at hv
    rw [hrow] at hv
    unfold aGet at hcell
    rcases hf : row.find? (fun kv => kv.fst == k2) with _ | e
    · rw [hf] at hcell; simp at hcell
    · rw [hf] at hv hcell
      simp only [Option.map_some'] at hv hcell
      have he : e.snd = cell := by injection hcell
      rw [he] at hv
      simpa using hv
  subst hcnone
  unfold a2Set
  rw [hrow]
  have hrowid : aSet row k2 none = row := by
    apply aSet_id
    intro e he hk
    have : aGet row k2 = some none := hcell
    exact aGet_entries (hin (k1, row) (aGet_mem hr)) this e he hk
  rw [hrowid]
  apply aSet_id
  intro e he hk
  exact aGet_entries hkn hr e he hk

/-! ### List lemmas -/

theorem getD_eq_getElem {α : Type} (l : List α) (i : Nat) (d : α) (h : i < l.length) :
    l.getD i d = l[i] := List.getD_eq_getElem l d h

theorem getD_of_ge {α : Type} {l : List α} {i : Nat} (h : ¬ i < l.length) (d : α) :
    l.getD i d = d := by
  rw [List.getD_eq_getElem?_getD, List.getElem?_eq_none (by omega), Option.getD_none]

theorem getD_mem {α : Type} {l : List α} {i : Nat} (h : i < l.length) (d : α) :
    l.getD i d ∈ l := by
  rw [getD_eq_getElem l i d h]
  exact List.getElem_mem h

theorem getD_set_self {α : Type} {l : List α} {i : Nat} (h : i < l.length) (v d : α) :
    (l.set i v).getD i d = v := by
  rw [List.getD_eq_getElem?_getD, List.getElem?_set_self', List.getElem?_eq_getElem h]
  rfl

theorem getD_set_ne {α : Type} (l : List α) {i j : Nat} (h : j ≠ i) (v d : α) :
    (l.set i v).getD j d = l.getD j d := by
  rw [List.getD_eq_getElem?_getD, List.getD_eq_getElem?_getD,
    List.getElem?_set_ne (fun hh => h hh.symm)]

theorem set_getD_self {α : Type} {l : List α} {i : Nat} (h : i < l.length) (d : α) :
    l.set i (l.getD i d) = l := by
  rw [getD_eq_getElem l i d h]
  apply List.ext_getElem
  · simp
  · intro n h1 h2
    rw [List.getElem_set]
    by_cases hn : i = n
    · subst hn; rw [if_pos rfl]
    · rw [if_neg hn]

theorem filter_length_set {α : Type} (p : α → Bool) :
    ∀ (l : List α) (i : Nat), i < l.length → ∀ v : α,
      ((l.set i v).filter p).length + (if p (l.getD i v) then 1 else 0) =
        (l.filter p).length + (if p v then 1 else 0)
  | [], i, h, v => by simp at h
  | a :: l, 0, h, v => by
    simp only [List.set_cons_zero, List.getD_cons_zero, List.filter_cons]
    by_cases hv : p v <;> by_cases ha : p a <;> simp [hv, ha] <;> omega
  | a :: l, i + 1, h, v => by
    have ih := filter_length_set p l i (by simpa using h) v
    have h1 : (a :: l).set (i + 1) v = a :: l.set i v := rfl
    have h2 : (a :: l).getD (i + 1) v = l.getD i v := rfl
    rw [h1, h2, List.filter_cons, List.filter_cons]
    by_cases ha : p a <;> simp only [ha, if_pos, if_neg, Bool.false_eq_true,
      not_false_iff, List.length_cons] <;> omega

theorem flatten_set_perm {α : Type} :
    ∀ (ps : List (List α)) (i : Nat), i < ps.length → ∀ x : α,
      (ps.set i (ps.getD i [] ++ [x])).flatten.Perm (ps.flatten ++ [x])
  | [], i, h, x => by simp at h
  | l :: ps, 0, h, x => by
    simp only [List.set_cons_zero, List.getD_cons_zero, List.flatten_cons]
    simp only [List.append_assoc]
    exact (List.perm_append_left_iff l).mpr List.perm_append_comm
  | l :: ps, i + 1, h, x => by
    have ih := flatten_set_perm ps i (by simpa using h) x
    have h1 : (l :: ps).set (i + 1) ((l :: ps).getD (i + 1) [] ++ [x]) =
        l :: ps.set i (ps.getD i [] ++ [x]) := rfl
    rw [h1, List.flatten_cons, List.flatten_cons, List.append_assoc]
    exact (List.perm_append_left_iff l).mpr ih

theorem nodup_of_mem_flatten {α : Type} :
    ∀ {ps : List (List α)}, ps.flatten.Nodup → ∀ {l : List α}, l ∈ ps → l.Nodup := by
  intro ps
  induction ps with
  | nil => intro _ l hl; simp at hl
  | cons q ps ih =>
    intro hn l hl
    rw [List.flatten_cons, List.nodup_append] at hn
    rcases List.mem_cons.mp hl with h | h
    · rw [h]; exact hn.1
    · exact ih hn.2.1 h

theorem mem_flatten_getD {α : Type} {ps : List (List α)} {i : Nat} (h : i < ps.length)
    {x : α} (hx : x ∈ ps.getD i []) : x ∈ ps.flatten := by
  rw [List.mem_flatten]
  exact ⟨ps.getD i [], getD_mem h [], hx⟩

theorem flatten_nodup_unique {α : Type} :
    ∀ {ps : List (List α)}, ps.flatten.Nodup →
      ∀ {i j : Nat}, i < ps.length → j < ps.length →
        ∀ {x : α}, x ∈ ps.getD i [] → x ∈ ps.getD j [] → i = j := by
  intro ps
  induction ps with
  | nil => intro _ i j hi _ _ _ _; simp at hi
  | cons q ps ih =>
    intro hn i j hi hj x hxi hxj
    rw [List.flatten_cons, List.nodup_append] at hn
    match i, j with
    | 0, 0 => rfl
    | 0, j + 1 =>
      exfalso
      simp only [List.getD_cons_zero] at hxi
      simp only [List.getD_cons_succ] at hxj
      exact hn.2.2 hxi (mem_flatten_getD (by simpa using hj) hxj)
    | i + 1, 0 =>
      exfalso
      simp only [List.getD_cons_zero] at hxj
      simp only [List.getD_cons_succ] at hxi
      exact hn.2.2 hxj (mem_flatten_getD (by simpa using hi) hxi)
    | i + 1, j + 1 =>
      simp only [List.getD_cons_succ] at hxi hxj
      rw [ih hn.2.1 (by simpa using hi) (by simpa using hj) hxi hxj]

theorem eraseP_append_singleton {α : Type} (p : α → Bool) :
    ∀ (l : List α), (∀ y ∈ l, p y = false) → ∀ x : α, p x = true →
      List.eraseP p (l ++ [x]) = l
  | [], _, x, hx => by simp [List.eraseP_cons, hx]
  | a :: l, h, x, hx => by
    have ha : p a = false := h a (List.mem_cons_self a l)
    simp only [List.cons_append, List.eraseP_cons, ha, cond_false]
    rw [eraseP_append_singleton p l (fun y hy => h y (List.mem_cons_of_mem a hy)) x hx]

theorem nodup_filterMap_of {α β : Type} (f : α → Option β) :
    ∀ (l : List α), l.Nodup →
      (∀ i ∈ l, ∀ j ∈ l, ∀ b : β, f i = some b → f j = some b → i = j) →
      (l.filterMap f).Nodup
  | [], _, _ => by simp
  | a :: l, hn, hinj => by
    rw [List.nodup_cons] at hn
    rw [List.filterMap_cons]
    rcases hf : f a with _ | b
    · exact nodup_filterMap_of f l hn.2
        (fun i hi j hj c h1 h2 =>
          hinj i (List.mem_cons_of_mem a hi) j (List.mem_cons_of_mem a hj) c h1 h2)
    · rw [List.nodup_cons]
      constructor
      · intro hb
        obtain ⟨j, hj, hjb⟩ := List.mem_filterMap.mp hb
        have : a = j := hinj a (List.mem_cons_self a l) j (List.mem_cons_of_mem a hj) b hf hjb
        rw [← this] at hj
        exact hn.1 hj
      · exact nodup_filterMap_of f l hn.2
          (fun i hi j hj c h1 h2 =>
            hinj i (List.mem_cons_of_mem a hi) j (List.mem_cons_of_mem a hj) c h1 h2)

theorem nodup_map_of_inj_on {α β : Type} (f : α → β) :
    ∀ (l : List α), l.Nodup →
      (∀ i ∈ l, ∀ j ∈ l, f i = f j → i = j) → (l.map f).Nodup
  | [], _, _ => by simp
  | a :: l, hn, hinj => by
    rw [List.nodup_cons] at hn
    rw [List.map_cons, List.nodup_cons]
    constructor
    · intro hb
      obtain ⟨j, hj, hjb⟩ := List.mem_map.mp hb
      have : j = a := hinj j (List.mem_cons_of_mem a hj) a (List.mem_cons_self a l) hjb
      rw [this] at hj
      exact hn.1 hj
    · exact nodup_map_of_inj_on f l hn.2
        (fun i hi j hj h => hinj i (List.mem_cons_of_mem a hi) j (List.mem_cons_of_mem a hj) h)

/-! ### Environment and state access lemmas -/

theorem teacherOf_mem {env : Env} {ti : Nat} (h : ti < env.teachers.length) :
    teacherOf env ti ∈ env.teachers := getD_mem h default

theorem roomOf_mem {env : Env} {ri : Nat} (h : ri < env.classrooms.length) :
    roomOf env ri ∈ env.classrooms := getD_mem h default

theorem pidOf_mem {env : Env} {pIdx : Nat} (h : pIdx < env.periodIds.length) :
    pidOf env pIdx ∈ env.periodIds := getD_mem h ""

theorem countIdx_le_countName (env : Env) (st : St) {ti : Nat}
    (h : ti < env.teachers.length) :
    countIdx st ti ≤ countName env st ((teacherOf env ti).name) := by
  unfold countIdx countName
  apply List.Sublist.length_le
  apply List.monotone_filter_right
  intro o ho
  rcases o with _ | tj
  · simp at ho
  · have : tj = ti := by simpa using ho
    subst this
    simp [cellNames]

theorem cellNames_none (env : Env) (n : String) : cellNames env n none = false := rfl

theorem cellNames_some (env : Env) (n : String) (ti : Nat) :
    cellNames env n (some ti) = ((teacherOf env ti).name == n) := rfl

theorem locatedAt_mono {env : Env} {st st' : St} {pIdx0 : Nat} {l : List Nat}
    (hps : st'.periodSections = st.periodSections.set pIdx0 l)
    (hsub : ∀ x ∈ st.periodSections.getD pIdx0 [], x ∈ l)
    {j : Nat} {pid : String} (h : locatedAt env st j pid) : locatedAt env st' j pid := by
  obtain ⟨pIdx, hmem, hpid, hj⟩ := h
  refine ⟨pIdx, hmem, hpid, ?_⟩
  rw [hps]
  by_cases he : pIdx = pIdx0
  · subst he
    by_cases hlen : pIdx < st.periodSections.length
    · rw [getD_set_self (by simpa using hlen)]
      exact hsub j hj
    · rw [getD_of_ge (by simpa using hlen)] at hj
      simp at hj
  · rw [getD_set_ne _ he]
    exact hj

theorem locatedAt_of_mem {env : Env} {st : St} {pIdx : Nat}
    (hp : pIdx < env.periodIds.length) {j : Nat}
    (hj : j ∈ st.periodSections.getD pIdx []) : locatedAt env st j (pidOf env pIdx) :=
  ⟨pIdx, by simpa using hp, rfl, hj⟩

theorem not_mem_flatten_of_each {ps : List (List Nat)} {x : Nat}
    (h : ∀ l ∈ ps, x ∉ l) : x ∉ ps.flatten := by
  intro hx
  obtain ⟨l, hl, hxl⟩ := List.mem_flatten.mp hx
  exact h l hl hxl

/-! ### CHOOSE preserves the invariant -/

theorem choose_core (env : Env) (st : St) (sIdx pIdx ri ti : Nat)
    (hC : Core env st)
    (hsb : sIdx < env.secs.length)
    (hsT : st.assignedTeacher.getD sIdx none = none)
    (hsR : st.assignedRoom.getD sIdx none = none)
    (hsP : ∀ l ∈ st.periodSections, sIdx ∉ l)
    (hp : pIdx < env.periodIds.length)
    (hti : ti < env.teachers.length)
    (hri : ri < env.classrooms.length)
    (hTFree : a2Get st.teacherSchedule (teacherOf env ti).name (pidOf env pIdx) = none)
    (hRFree : a2Get st.roomSchedule (roomOf env ri).name (pidOf env pIdx) = none)
    (hLoad : aGetD st.teacherLoad (teacherOf env ti).name 0 < (teacherOf env ti).maxSections) :
    Core env (choosePlace env st sIdx pIdx ri ti) := by
  obtain ⟨hSh, hPl, hTS, hTF, hRS, hRF, hTB, hLd⟩ := hC
  obtain ⟨hL1, hL2, hL3, hK1, hK2, hK3, hN1, hN2, hN3, hN4, hN5⟩ := hSh
  have hpl : pIdx < st.periodSections.length := by rw [hL1]; exact hp
  have hsl : sIdx < st.assignedTeacher.length := by rw [hL2]; exact hsb
  have hsl' : sIdx < st.assignedRoom.length := by rw [hL3]; exact hsb
  set tn := (teacherOf env ti).name with htn
  set rn := (roomOf env ri).name with hrn
  set pid0 := pidOf env pIdx with hpid0
  have hHK2 : hasKey2 st.teacherSchedule tn pid0 := hK1 _ (teacherOf_mem hti) _ (pidOf_mem hp)
  have hHKR : hasKey2 st.roomSchedule rn pid0 := hK3 _ (roomOf_mem hri) _ (pidOf_mem hp)
  have hHKL : hasKey st.teacherLoad tn := hK2 _ (teacherOf_mem hti)
  have hps' : (choosePlace env st sIdx pIdx ri ti).periodSections =
      st.periodSections.set pIdx (st.periodSections.getD pIdx [] ++ [sIdx]) := rfl
  have haT' : (choosePlace env st sIdx pIdx ri ti).assignedTeacher =
      st.assignedTeacher.set sIdx (some ti) := rfl
  have haR' : (choosePlace env st sIdx pIdx ri ti).assignedRoom =
      st.assignedRoom.set sIdx (some ri) := rfl
  have hTS' : (choosePlace env st sIdx pIdx ri ti).teacherSchedule =
      a2Set st.teacherSchedule tn pid0 (some sIdx) := rfl
  have hRS' : (choosePlace env st sIdx pIdx ri ti).roomSchedule =
      a2Set st.roomSchedule rn pid0 (some sIdx) := rfl
  have hTL' : (choosePlace env st sIdx pIdx ri ti).teacherLoad =
      aSet st.teacherLoad tn (aGetD st.teacherLoad tn 0 + 1) := rfl
  have hlocmono : ∀ j pid, locatedAt env st j pid →
      locatedAt env (choosePlace env st sIdx pIdx ri ti) j pid := by
    intro j pid h
    exact locatedAt_mono hps' (fun x hx => List.mem_append_left _ hx) h
  refine ⟨?_, ?_, ?_, ?_, ?_, ?_, ?_, ?_⟩
  · -- ShapeOk
    refine ⟨?_, ?_, ?_, ?_, ?_, ?_, ?_, ?_, ?_, ?_, ?_⟩
    · rw [hps', List.length_set]; exact hL1
    · rw [haT', List.length_set]; exact hL2
    · rw [haR', List.length_set]; exact hL3
    · intro t ht pid hpid
      rw [hTS', hasKey2_a2Set]
      exact hK1 t ht pid hpid
    · intro t ht
      unfold hasKey
      rw [hTL']
      rw [aGet_isSome_iff, keys_aSet, ← aGet_isSome_iff]
      exact hK2 t ht
    · intro r hr pid hpid
      rw [hRS', hasKey2_a2Set]
      exact hK3 r hr pid hpid
    · rw [hTS']; exact keysNodup_a2Set hN1 _ _ _
    · rw [hTS']; exact innerKeysNodup_a2Set hN2 _ _ _
    · rw [hRS']; exact keysNodup_a2Set hN3 _ _ _
    · rw [hRS']; exact innerKeysNodup_a2Set hN4 _ _ _
    · unfold keysNodup
      rw [hTL', keys_aSet]
      exact hN5
  · -- PlacedOk
    constructor
    · intro l hl i hi
      rw [hps'] at hl
      rcases List.mem_or_eq_of_mem_set hl with h | h
      · exact hPl.1 l h i hi
      · subst h
        rcases List.mem_append.mp hi with h | h
        · exact hPl.1 _ (getD_mem hpl []) i h
        · have : i = sIdx := by simpa using h
          rw [this]; exact hsb
    · rw [hps']
      apply ((flatten_set_perm st.periodSections pIdx hpl sIdx).nodup_iff).mpr
      rw [List.nodup_append]
      refine ⟨hPl.2, List.nodup_singleton _, ?_⟩
      intro x hx hxs
      have : x = sIdx := by simpa using hxs
      subst this
      exact not_mem_flatten_of_each hsP hx
  · -- TSchedOk
    intro t ht pid hpid sIdx' hmem
    rw [hTS'] at hmem
    by_cases hcase : t.name = tn ∧ pid = pid0
    · obtain ⟨he1, he2⟩ := hcase
      rw [he1, he2, a2Get_a2Set_self hHK2] at hmem
      have hs' : sIdx' = sIdx := (by simpa using hmem : sIdx = sIdx').symm
      subst hs'
      refine ⟨hsb, ?_, ?_, ?_⟩
      · rw [haT', getD_set_self hsl]; rfl
      · intro ti' hti'
        rw [haT', getD_set_self hsl] at hti'
        have hee : ti' = ti := (by simpa using hti' : ti = ti').symm
        subst hee
        exact ⟨hti, he1.symm⟩
      · rw [he2]
        refine ⟨pIdx, by simpa using hp, rfl, ?_⟩
        rw [hps', getD_set_self hpl]
        exact List.mem_append_right _ (by simp)
    · have hne : t.name ≠ tn ∨ pid ≠ pid0 := by
        by_cases h1 : t.name = tn
        · right; intro h2; exact hcase ⟨h1, h2⟩
        · left; exact h1
      rw [a2Get_a2Set_ne hne] at hmem
      obtain ⟨hb, hsome, hname, hloc⟩ := hTS t ht pid hpid sIdx' hmem
      have hss : sIdx' ≠ sIdx := by
        intro h
        rw [h, hsT] at hsome
        simp at hsome
      refine ⟨hb, ?_, ?_, hlocmono _ _ hloc⟩
      · rw [haT', getD_set_ne _ hss]
        exact hsome
      · intro ti' hti'
        rw [haT', getD_set_ne _ hss] at hti'
        exact hname ti' hti'
  · -- TFieldOk
    intro pIdx' hpIdx' sIdx' hmem ti' hti'
    rw [hps'] at hmem
    have hpIdx'len : pIdx' < env.periodIds.length := by simpa using hpIdx'
    by_cases hss : sIdx' = sIdx
    · subst hss
      rw [haT', getD_set_self hsl] at hti'
      have hti'' : ti' = ti := (by simpa using hti' : ti = ti').symm
      subst hti''
      have hpe : pIdx' = pIdx := by
        by_cases h : pIdx' = pIdx
        · exact h
        · exfalso
          rw [getD_set_ne _ h] at hmem
          by_cases hlt : pIdx' < st.periodSections.length
          · exact hsP _ (getD_mem hlt []) hmem
          · rw [getD_of_ge hlt] at hmem
            simp at hmem
      subst hpe
      rw [hTS', a2Get_a2Set_self hHK2]
    · rw [haT', getD_set_ne _ hss] at hti'
      have hmem' : sIdx' ∈ st.periodSections.getD pIdx' [] := by
        by_cases h : pIdx' = pIdx
        · subst h
          rw [getD_set_self hpl] at hmem
          rcases List.mem_append.mp hmem with h | h
          · exact h
          · exact absurd (by simpa using h) hss
        · rw [getD_set_ne _ h] at hmem
          exact hmem
      have hold := hTF pIdx' hpIdx' sIdx' hmem' ti' hti'
      rw [hTS']
      have hne : (teacherOf env ti').name ≠ tn ∨ pidOf env pIdx' ≠ pid0 := by
        by_cases h1 : (teacherOf env ti').name = tn
        · by_cases h2 : pidOf env pIdx' = pid0
          · exfalso
            rw [h1, h2] at hold
            rw [hTFree] at hold
            exact Option.noConfusion hold
          · right; exact h2
        · left; exact h1
      rw [a2Get_a2Set_ne hne]
      exact hold
  · -- RSchedOk
    intro r hr pid hpid sIdx' hmem
    rw [hRS'] at hmem
    by_cases hcase : r.name = rn ∧ pid = pid0
    · obtain ⟨he1, he2⟩ := hcase
      rw [he1, he2, a2Get_a2Set_self hHKR] at hmem
      have hs' : sIdx' = sIdx := (by simpa using hmem : sIdx = sIdx').symm
      subst hs'
      refine ⟨hsb, ?_, ?_, ?_⟩
      · rw [haR', getD_set_self hsl']; rfl
      · intro ri' hri'
        rw [haR', getD_set_self hsl'] at hri'
        have hee : ri' = ri := (by simpa using hri' : ri = ri').symm
        subst hee
        exact ⟨hri, he1.symm⟩
      · rw [he2]
        refine ⟨pIdx, by simpa using hp, rfl, ?_⟩
        rw [hps', getD_set_self hpl]
        exact List.mem_append_right _ (by simp)
    · have hne : r.name ≠ rn ∨ pid ≠ pid0 := by
        by_cases h1 : r.name = rn
        · right; intro h2; exact hcase ⟨h1, h2⟩
        · left; exact h1
      rw [a2Get_a2Set_ne hne] at hmem
      obtain ⟨hb, hsome, hname, hloc⟩ := hRS r hr pid hpid sIdx' hmem
      have hss : sIdx' ≠ sIdx := by
        intro h
        rw [h, hsR] at hsome
        simp at hsome
      refine ⟨hb, ?_, ?_, hlocmono _ _ hloc⟩
      · rw [haR', getD_set_ne _ hss]
        exact hsome
      · intro ri' hri'
        rw [haR', getD_set_ne _ hss] at hri'
        exact hname ri' hri'
  · -- RFieldOk
    intro pIdx' hpIdx' sIdx' hmem ri' hri'
    rw [hps'] at hmem
    by_cases hss : sIdx' = sIdx
    · subst hss
      rw [haR', getD_set_self hsl'] at hri'
      have hri'' : ri' = ri := (by simpa using hri' : ri = ri').symm
      subst hri''
      have hpe : pIdx' = pIdx := by
        by_cases h : pIdx' = pIdx
        · exact h
        · exfalso
          rw [getD_set_ne _ h] at hmem
          by_cases hlt : pIdx' < st.periodSections.length
          · exact hsP _ (getD_mem hlt []) hmem
          · rw [getD_of_ge hlt] at hmem
            simp at hmem
      subst hpe
      rw [hRS', a2Get_a2Set_self hHKR]
    · rw [haR', getD_set_ne _ hss] at hri'
      have hmem' : sIdx' ∈ st.periodSections.getD pIdx' [] := by
        by_cases h : pIdx' = pIdx
        · subst h
          rw [getD_set_self hpl] at hmem
          rcases List.mem_append.mp hmem with h | h
          · exact h
          · exact absurd (by simpa using h) hss
        · rw [getD_set_ne _ h] at hmem
          exact hmem
      have hold := hRF pIdx' hpIdx' sIdx' hmem' ri' hri'
      rw [hRS']
      have hne : (roomOf env ri').name ≠ rn ∨ pidOf env pIdx' ≠ pid0 := by
        by_cases h1 : (roomOf env ri').name = rn
        · by_cases h2 : pidOf env pIdx' = pid0
          · exfalso
            rw [h1, h2] at hold
            rw [hRFree] at hold
            exact Option.noConfusion hold
          · right; exact h2
        · left; exact h1
      rw [a2Get_a2Set_ne hne]
      exact hold
  · -- TBoundOk
    intro o ho ti' hti'
    rw [haT'] at ho
    rcases List.mem_or_eq_of_mem_set ho with h | h
    · exact hTB o h ti' hti'
    · subst h
      have hee : ti' = ti := (by simpa using hti' : ti = ti').symm
      rw [hee]
      exact hti
  · -- LoadOk
    intro t ht
    have hcnt := filter_length_set (cellNames env t.name) st.assignedTeacher sIdx hsl (some ti)
    rw [getD_eq_getElem _ _ _ hsl] at hcnt
    have hold : st.assignedTeacher[sIdx] = none := by
      rw [← getD_eq_getElem _ _ none hsl]
      exact hsT
    rw [hold, cellNames_none, cellNames_some] at hcnt
    simp only [Bool.false_eq_true, if_false, Nat.add_zero] at hcnt
    unfold countName
    rw [haT', hTL', htn]
    rw [htn] at hHKL
    have hJ := hLd t ht
    unfold countName at hJ
    by_cases hname : t.name = (teacherOf env ti).name
    · rw [hname] at hcnt hJ ⊢
      rw [aGetD_aSet_self hHKL]
      simp only [beq_self_eq_true, if_true] at hcnt
      omega
    · rw [aGetD_aSet_ne hname]
      have hceq : ((teacherOf env ti).name == t.name) = false := by
        simp only [beq_eq_false_iff_ne, ne_eq]
        exact fun h => hname h.symm
      rw [hceq] at hcnt
      simp only [Bool.false_eq_true, if_false, Nat.add_zero] at hcnt
      omega

theorem choose_max (env : Env) (st : St) (sIdx pIdx ri ti : Nat)
    (hC : Core env st) (hM : MaxOk env st)
    (hsb : sIdx < env.secs.length)
    (hsT : st.assignedTeacher.getD sIdx none = none)
    (hti : ti < env.teachers.length)
    (hLoad : aGetD st.teacherLoad (teacherOf env ti).name 0 < (teacherOf env ti).maxSections) :
    MaxOk env (choosePlace env st sIdx pIdx ri ti) := by
  intro tj htj
  have hsl : sIdx < st.assignedTeacher.length := by rw [hC.1.2.1]; exact hsb
  have haT' : (choosePlace env st sIdx pIdx ri ti).assignedTeacher =
      st.assignedTeacher.set sIdx (some ti) := rfl
  have hcnt := filter_length_set (fun o => o == some tj) st.assignedTeacher sIdx hsl (some ti)
  rw [getD_eq_getElem _ _ _ hsl] at hcnt
  have hold : st.assignedTeacher[sIdx] = none := by
    rw [← getD_eq_getElem _ _ none hsl]
    exact hsT
  rw [hold] at hcnt
  simp only [show ((none : Option Nat) == some tj) = false from rfl, Bool.false_eq_true,
    if_false, Nat.add_zero] at hcnt
  unfold countIdx
  rw [haT']
  by_cases he : ti = tj
  · subst he
    simp only [beq_self_eq_true, if_true] at hcnt
    have h1 : countIdx st ti ≤ countName env st ((teacherOf env ti).name) :=
      countIdx_le_countName env st hti
    have h2 := hC.2.2.2.2.2.2.2 (teacherOf env ti) (teacherOf_mem hti)
    unfold countIdx at h1
    have h3 : ((teacherOf env ti).maxSections : Int) ≤ max (teacherOf env ti).maxSections 0 :=
      le_max_left _ _
    omega
  · have : ((some ti : Option Nat) == some tj) = false := by
      simp only [beq_eq_false_iff_ne, ne_eq, Option.some.injEq]
      exact he
    rw [this] at hcnt
    simp only [Bool.false_eq_true, if_false, Nat.add_zero] at hcnt
    have := hM tj htj
    unfold countIdx at this
    omega

theorem choose_unplaced (env : Env) (st : St) (i sIdx pIdx ri ti : Nat)
    (hE3 : env.allSections.Nodup) (hi : i < env.allSections.length)
    (hsIdx : sIdx = env.allSections.getD i 0)
    (hU : UnplacedFrom env st i) :
    UnplacedFrom env (choosePlace env st sIdx pIdx ri ti) (i + 1) := by
  intro j hj
  have hdrop : env.allSections.drop i = sIdx :: env.allSections.drop (i + 1) := by
    rw [hsIdx, getD_eq_getElem _ _ _ hi]
    exact List.drop_eq_getElem_cons hi
  have hji : j ∈ env.allSections.drop i := by
    rw [hdrop]
    exact List.mem_cons_of_mem _ hj
  have hjs : j ≠ sIdx := by
    intro h
    subst h
    have : (env.allSections.drop i).Nodup := hE3.sublist (List.drop_sublist i _)
    rw [hdrop] at this
    exact (List.nodup_cons.mp this).1 hj
  obtain ⟨hT, hR, hP⟩ := hU j hji
  have haT' : (choosePlace env st sIdx pIdx ri ti).assignedTeacher =
      st.assignedTeacher.set sIdx (some ti) := rfl
  have haR' : (choosePlace env st sIdx pIdx ri ti).assignedRoom =
      st.assignedRoom.set sIdx (some ri) := rfl
  have hps' : (choosePlace env st sIdx pIdx ri ti).periodSections =
      st.periodSections.set pIdx (st.periodSections.getD pIdx [] ++ [sIdx]) := rfl
  refine ⟨?_, ?_, ?_⟩
  · rw [haT', getD_set_ne _ hjs]
    exact hT
  · rw [haR', getD_set_ne _ hjs]
    exact hR
  · intro l hl
    rw [hps'] at hl
    rcases List.mem_or_eq_of_mem_set hl with h | h
    · exact hP l h
    · subst h
      intro hmem
      rcases List.mem_append.mp hmem with h | h
      · by_cases hlt : pIdx < st.periodSections.length
        · exact hP _ (getD_mem hlt []) h
        · rw [getD_of_ge hlt] at h
          simp at h
      · exact hjs (by simpa using h)

theorem StExt {a b : St} (h1 : a.periodSections = b.periodSections)
    (h2 : a.teacherSchedule = b.teacherSchedule) (h3 : a.roomSchedule = b.roomSchedule)
    (h4 : a.teacherLoad = b.teacherLoad) (h5 : a.assignedTeacher = b.assignedTeacher)
    (h6 : a.assignedRoom = b.assignedRoom) : a = b := by
  cases a
  cases b
  simp_all

theorem backtrack_choose (env : Env) (st : St) (sIdx pIdx ri ti : Nat)
    (hC : Core env st)
    (hsb : sIdx < env.secs.length)
    (hsT : st.assignedTeacher.getD sIdx none = none)
    (hsR : st.assignedRoom.getD sIdx none = none)
    (hsP : ∀ l ∈ st.periodSections, sIdx ∉ l)
    (hp : pIdx < env.periodIds.length)
    (hti : ti < env.teachers.length)
    (hri : ri < env.classrooms.length)
    (hTFree : a2Get st.teacherSchedule (teacherOf env ti).name (pidOf env pIdx) = none)
    (hRFree : a2Get st.roomSchedule (roomOf env ri).name (pidOf env pIdx) = none) :
    backtrackPlace env (choosePlace env st sIdx pIdx ri ti) sIdx pIdx ri ti = st := by
  obtain ⟨hSh, hPl, hTS, hTF, hRS, hRF, hTB, hLd⟩ := hC
  obtain ⟨hL1, hL2, hL3, hK1, hK2, hK3, hN1, hN2, hN3, hN4, hN5⟩ := hSh
  have hpl : pIdx < st.periodSections.length := by rw [hL1]; exact hp
  have hsl : sIdx < st.assignedTeacher.length := by rw [hL2]; exact hsb
  have hsl' : sIdx < st.assignedRoom.length := by rw [hL3]; exact hsb
  have hHK2 : hasKey2 st.teacherSchedule (teacherOf env ti).name (pidOf env pIdx) :=
    hK1 _ (teacherOf_mem hti) _ (pidOf_mem hp)
  have hHKR : hasKey2 st.roomSchedule (roomOf env ri).name (pidOf env pIdx) :=
    hK3 _ (roomOf_mem hri) _ (pidOf_mem hp)
  have hHKL : hasKey st.teacherLoad (teacherOf env ti).name := hK2 _ (teacherOf_mem hti)
  set cp := choosePlace env st sIdx pIdx ri ti with hcp
  apply StExt
  · -- periodSections
    have e1 : (backtrackPlace env cp sIdx pIdx ri ti).periodSections =
        cp.periodSections.set pIdx
          (List.eraseP (fun j => secVal env cp j == secVal env cp sIdx)
            (cp.periodSections.getD pIdx [])) := rfl
    have e2 : cp.periodSections =
        st.periodSections.set pIdx (st.periodSections.getD pIdx [] ++ [sIdx]) := rfl
    rw [e1, e2, List.set_set, getD_set_self (by simpa using hpl)]
    have hsv : ∀ j ∈ st.periodSections.getD pIdx [],
        (secVal env cp j == secVal env cp sIdx) = false := by
      intro j hj
      have hjs : j ≠ sIdx := fun h => hsP _ (getD_mem hpl []) (h ▸ hj)
      rw [beq_eq_false_iff_ne]
      intro heq
      have hjr : (cp.assignedRoom.getD j none).map (roomOf env) = some (roomOf env ri) := by
        have : secVal env cp j = secVal env cp sIdx := heq
        have hr := congrArg SecVal.r this
        unfold secVal at hr
        simp only at hr
        rw [hr]
        have hcr : cp.assignedRoom = st.assignedRoom.set sIdx (some ri) := rfl
        rw [hcr, getD_set_self hsl']
        rfl
      have hcr : cp.assignedRoom = st.assignedRoom.set sIdx (some ri) := rfl
      rw [hcr, getD_set_ne _ hjs] at hjr
      rcases hrj : st.assignedRoom.getD j none with _ | rj
      · rw [hrj] at hjr
        simp at hjr
      · rw [hrj] at hjr
        simp only [Option.map_some', Option.some.injEq] at hjr
        have hname : (roomOf env rj).name = (roomOf env ri).name := by rw [hjr]
        have := hRF pIdx (by simpa using hp) j hj rj (by rw [hrj]; rfl)
        rw [hname, hRFree] at this
        exact Option.noConfusion this
    rw [eraseP_append_singleton _ _ hsv _ (by simp)]
    exact set_getD_self hpl []
  · -- teacherSchedule
    have e1 : (backtrackPlace env cp sIdx pIdx ri ti).teacherSchedule =
        a2Set cp.teacherSchedule (teacherOf env ti).name (pidOf env pIdx) none := rfl
    have e2 : cp.teacherSchedule =
        a2Set st.teacherSchedule (teacherOf env ti).name (pidOf env pIdx) (some sIdx) := rfl
    rw [e1, e2, a2Set_a2Set]
    exact a2Set_id hHK2 hN1 hN2 hTFree
  · -- roomSchedule
    have e1 : (backtrackPlace env cp sIdx pIdx ri ti).roomSchedule =
        a2Set cp.roomSchedule (roomOf env ri).name (pidOf env pIdx) none := rfl
    have e2 : cp.roomSchedule =
        a2Set st.roomSchedule (roomOf env ri).name (pidOf env pIdx) (some sIdx) := rfl
    rw [e1, e2, a2Set_a2Set]
    exact a2Set_id hHKR hN3 hN4 hRFree
  · -- teacherLoad
    have e1 : (backtrackPlace env cp sIdx pIdx ri ti).teacherLoad =
        aSet cp.teacherLoad (teacherOf env ti).name
          (aGetD cp.teacherLoad (teacherOf env ti).name 0 - 1) := rfl
    have e2 : cp.teacherLoad =
        aSet st.teacherLoad (teacherOf env ti).name
          (aGetD st.teacherLoad (teacherOf env ti).name 0 + 1) := rfl
    rw [e1, e2, aGetD_aSet_self hHKL, aSet_aSet]
    have harith : aGetD st.teacherLoad (teacherOf env ti).name 0 + 1 - 1 =
        aGetD st.teacherLoad (teacherOf env ti).name 0 := by omega
    rw [harith]
    apply aSet_id
    intro e he hk
    obtain ⟨v, hv⟩ := Option.isSome_iff_exists.mp hHKL
    have : aGetD st.teacherLoad (teacherOf env ti).name 0 = v := by
      unfold aGetD
      rw [hv]
      rfl
    rw [this]
    exact aGet_entries hN5 hv e he hk
  · -- assignedTeacher
    have e1 : (backtrackPlace env cp sIdx pIdx ri ti).assignedTeacher =
        cp.assignedTeacher.set sIdx none := rfl
    have e2 : cp.assignedTeacher = st.assignedTeacher.set sIdx (some ti) := rfl
    rw [e1, e2, List.set_set, ← hsT]
    exact set_getD_self hsl none
  · -- assignedRoom
    have e1 : (backtrackPlace env cp sIdx pIdx ri ti).assignedRoom =
        cp.assignedRoom.set sIdx none := rfl
    have e2 : cp.assignedRoom = st.assignedRoom.set sIdx (some ri) := rfl
    rw [e1, e2, List.set_set, ← hsR]
    exact set_getD_self hsl' none

theorem sIdx_lt_secs {env : Env} {i : Nat} (hE : EnvWf env)
    (hi : i < env.allSections.length) : env.allSections.getD i 0 < env.secs.length :=
  hE.2.2.2 _ (getD_mem hi 0)

theorem sIdx_mem_drop {env : Env} {i : Nat} (hi : i < env.allSections.length) :
    env.allSections.getD i 0 ∈ env.allSections.drop i := by
  rw [getD_eq_getElem _ _ _ hi, List.drop_eq_getElem_cons hi]
  exact List.mem_cons_self _ _

theorem tryTeachers_spec (env : Env) (i sIdx pIdx ri : Nat) (k : St → Bool × St)
    (hE : EnvWf env)
    (hi : i < env.allSections.length)
    (hsIdx : sIdx = env.allSections.getD i 0)
    (hp : pIdx < env.periodIds.length)
    (hri : ri < env.classrooms.length)
    (hk : ∀ st2, Inv env st2 → UnplacedFrom env st2 (i + 1) →
      ((k st2).fst = false → (k st2).snd = st2) ∧
      ((k st2).fst = true → Inv env (k st2).snd)) :
    ∀ ts : List Nat, (∀ ti ∈ ts, ti < env.teachers.length) →
      ∀ st : St, Inv env st → UnplacedFrom env st i →
        a2Get st.roomSchedule (roomOf env ri).name (pidOf env pIdx) = none →
        ((tryTeachers env sIdx pIdx ri k ts st).fst = false →
          (tryTeachers env sIdx pIdx ri k ts st).snd = st) ∧
        ((tryTeachers env sIdx pIdx ri k ts st).fst = true →
          Inv env (tryTeachers env sIdx pIdx ri k ts st).snd) := by
  intro ts
  induction ts with
  | nil =>
    intro _ st hI hU hRFree
    exact ⟨fun _ => rfl, fun h => by simp [tryTeachers] at h⟩
  | cons ti rest ih =>
    intro hts st hI hU hRFree
    have hti : ti < env.teachers.length := hts ti (List.mem_cons_self _ _)
    have hrest : ∀ tj ∈ rest, tj < env.teachers.length :=
      fun tj hj => hts tj (List.mem_cons_of_mem _ hj)
    have hsb : sIdx < env.secs.length := hsIdx ▸ sIdx_lt_secs hE hi
    have hsU := hU sIdx (hsIdx ▸ sIdx_mem_drop hi)
    have hsT : st.assignedTeacher.getD sIdx none = none := hsU.1
    have hsR : st.assignedRoom.getD sIdx none = none := hsU.2.1
    have hsP : ∀ l ∈ st.periodSections, sIdx ∉ l := hsU.2.2
    have hunf : tryTeachers env sIdx pIdx ri k (ti :: rest) st =
        (if a2Get st.teacherSchedule (teacherOf env ti).name (pidOf env pIdx) ≠ none then
          tryTeachers env sIdx pIdx ri k rest st
        else if ¬ aGetD st.teacherLoad (teacherOf env ti).name 0 < (teacherOf env ti).maxSections then
          tryTeachers env sIdx pIdx ri k rest st
        else
          match k (choosePlace env st sIdx pIdx ri ti) with
          | (true, st2) => (true, st2)
          | (false, st2) =>
            tryTeachers env sIdx pIdx ri k rest (backtrackPlace env st2 sIdx pIdx ri ti)) := rfl
    rw [hunf]
    by_cases h1 : a2Get st.teacherSchedule (teacherOf env ti).name (pidOf env pIdx) ≠ none
    · rw [if_pos h1]
      exact ih hrest st hI hU hRFree
    · rw [if_neg h1]
      by_cases h2 : ¬ aGetD st.teacherLoad (teacherOf env ti).name 0 < (teacherOf env ti).maxSections
      · rw [if_pos h2]
        exact ih hrest st hI hU hRFree
      · rw [if_neg h2]
        push_neg at h1 h2
        have hIc : Inv env (choosePlace env st sIdx pIdx ri ti) :=
          ⟨choose_core env st sIdx pIdx ri ti hI.1 hsb hsT hsR hsP hp hti hri h1 hRFree h2,
           choose_max env st sIdx pIdx ri ti hI.1 hI.2 hsb hsT hti h2⟩
        have hUc : UnplacedFrom env (choosePlace env st sIdx pIdx ri ti) (i + 1) :=
          choose_unplaced env st i sIdx pIdx ri ti hE.2.2.1 hi hsIdx hU
        have hkc := hk (choosePlace env st sIdx pIdx ri ti) hIc hUc
        rcases hkk : k (choosePlace env st sIdx pIdx ri ti) with ⟨b, st2⟩
        rcases b with _ | _
        · -- k failed: st2 is the chosen state; backtrack restores st exactly
          rw [hkk] at hkc
          have hst2 : st2 = choosePlace env st sIdx pIdx ri ti := hkc.1 rfl
          have hbt : backtrackPlace env st2 sIdx pIdx ri ti = st := by
            rw [hst2]
            exact backtrack_choose env st sIdx pIdx ri ti hI.1 hsb hsT hsR hsP hp hti hri h1 hRFree
          show ((tryTeachers env sIdx pIdx ri k rest (backtrackPlace env st2 sIdx pIdx ri ti)).fst
              = false →
            (tryTeachers env sIdx pIdx ri k rest (backtrackPlace env st2 sIdx pIdx ri ti)).snd
              = st) ∧
            ((tryTeachers env sIdx pIdx ri k rest (backtrackPlace env st2 sIdx pIdx ri ti)).fst
              = true →
              Inv env (tryTeachers env sIdx pIdx ri k rest
                (backtrackPlace env st2 sIdx pIdx ri ti)).snd)
          rw [hbt]
          exact ih hrest st hI hU hRFree
        · rw [hkk] at hkc
          exact ⟨fun h => Bool.noConfusion h, fun _ => hkc.2 rfl⟩

theorem tryRooms_spec (env : Env) (i sIdx pIdx : Nat) (k : St → Bool × St)
    (hE : EnvWf env)
    (hi : i < env.allSections.length)
    (hsIdx : sIdx = env.allSections.getD i 0)
    (hp : pIdx < env.periodIds.length)
    (hk : ∀ st2, Inv env st2 → UnplacedFrom env st2 (i + 1) →
      ((k st2).fst = false → (k st2).snd = st2) ∧
      ((k st2).fst = true → Inv env (k st2).snd)) :
    ∀ rs : List Nat, (∀ ri ∈ rs, ri < env.classrooms.length) →
      ∀ st : St, Inv env st → UnplacedFrom env st i →
        ((tryRooms env sIdx pIdx k rs st).fst = false →
          (tryRooms env sIdx pIdx k rs st).snd = st) ∧
        ((tryRooms env sIdx pIdx k rs st).fst = true →
          Inv env (tryRooms env sIdx pIdx k rs st).snd) := by
  intro rs
  induction rs with
  | nil =>
    intro _ st hI hU
    exact ⟨fun _ => rfl, fun h => by simp [tryRooms] at h⟩
  | cons ri rest ih =>
    intro hrs st hI hU
    have hri : ri < env.classrooms.length := hrs ri (List.mem_cons_self _ _)
    have hrest : ∀ rj ∈ rest, rj < env.classrooms.length :=
      fun rj hj => hrs rj (List.mem_cons_of_mem _ hj)
    have hunf : tryRooms env sIdx pIdx k (ri :: rest) st =
        (if a2Get st.roomSchedule (roomOf env ri).name (pidOf env pIdx) ≠ none then
          tryRooms env sIdx pIdx k rest st
        else
          match tryTeachers env sIdx pIdx ri k (validTs env sIdx) st with
          | (true, st2) => (true, st2)
          | (false, st2) => tryRooms env sIdx pIdx k rest st2) := rfl
    rw [hunf]
    by_cases h1 : a2Get st.roomSchedule (roomOf env ri).name (pidOf env pIdx) ≠ none
    · rw [if_pos h1]
      exact ih hrest st hI hU
    · rw [if_neg h1]
      push_neg at h1
      have hts : ∀ ti ∈ validTs env sIdx, ti < env.teachers.length := by
        intro ti hmem
        unfold validTs at hmem
        unfold aGetD at hmem
        rcases hg : aGet env.validTeachers (secOf env sIdx).sectionId with _ | l
        · rw [hg] at hmem
          simp at hmem
        · rw [hg] at hmem
          simp only [Option.getD_some] at hmem
          exact (hE.1 _ (aGet_mem hg) ti hmem).1
      have htt := tryTeachers_spec env i sIdx pIdx ri k hE hi hsIdx hp hri hk
        (validTs env sIdx) hts st hI hU h1
      rcases hss : tryTeachers env sIdx pIdx ri k (validTs env sIdx) st with ⟨b, st2⟩
      rw [hss] at htt
      rcases b with _ | _
      · have hst2 : st2 = st := htt.1 rfl
        show ((tryRooms env sIdx pIdx k rest st2).fst = false →
            (tryRooms env sIdx pIdx k rest st2).snd = st) ∧
          ((tryRooms env sIdx pIdx k rest st2).fst = true →
            Inv env (tryRooms env sIdx pIdx k rest st2).snd)
        rw [hst2]
        exact ih hrest st hI hU
      · exact ⟨fun h => Bool.noConfusion h, fun _ => htt.2 rfl⟩

theorem tryPeriods_spec (env : Env) (i sIdx : Nat) (k : St → Bool × St)
    (hE : EnvWf env)
    (hi : i < env.allSections.length)
    (hsIdx : sIdx = env.allSections.getD i 0)
    (hk : ∀ st2, Inv env st2 → UnplacedFrom env st2 (i + 1) →
      ((k st2).fst = false → (k st2).snd = st2) ∧
      ((k st2).fst = true → Inv env (k st2).snd)) :
    ∀ ps : List Nat, (∀ pIdx ∈ ps, pIdx < env.periodIds.length) →
      ∀ st : St, Inv env st → UnplacedFrom env st i →
        ((tryPeriods env sIdx k ps st).fst = false →
          (tryPeriods env sIdx k ps st).snd = st) ∧
        ((tryPeriods env sIdx k ps st).fst = true →
          Inv env (tryPeriods env sIdx k ps st).snd) := by
  intro ps
  induction ps with
  | nil =>
    intro _ st hI hU
    exact ⟨fun _ => rfl, fun h => by simp [tryPeriods] at h⟩
  | cons pIdx rest ih =>
    intro hps st hI hU
    have hp : pIdx < env.periodIds.length := hps pIdx (List.mem_cons_self _ _)
    have hrest : ∀ pj ∈ rest, pj < env.periodIds.length :=
      fun pj hj => hps pj (List.mem_cons_of_mem _ hj)
    have hrb : ∀ ri ∈ validRs env sIdx, ri < env.classrooms.length := by
      intro ri hmem
      unfold validRs at hmem
      unfold aGetD at hmem
      rcases hg : aGet env.validRooms (secOf env sIdx).sectionId with _ | l
      · rw [hg] at hmem
        simp at hmem
      · rw [hg] at hmem
        simp only [Option.getD_some] at hmem
        exact hE.2.1 _ (aGet_mem hg) ri hmem
    have htr := tryRooms_spec env i sIdx pIdx k hE hi hsIdx hp hk (validRs env sIdx) hrb st hI hU
    have hunf : tryPeriods env sIdx k (pIdx :: rest) st =
        (match tryRooms env sIdx pIdx k (validRs env sIdx) st with
        | (true, st2) => (true, st2)
        | (false, st2) => tryPeriods env sIdx k rest st2) := rfl
    rw [hunf]
    rcases hss : tryRooms env sIdx pIdx k (validRs env sIdx) st with ⟨b, st2⟩
    rw [hss] at htr
    rcases b with _ | _
    · have hst2 : st2 = st := htr.1 rfl
      show ((tryPeriods env sIdx k rest st2).fst = false →
          (tryPeriods env sIdx k rest st2).snd = st) ∧
        ((tryPeriods env sIdx k rest st2).fst = true →
          Inv env (tryPeriods env sIdx k rest st2).snd)
      rw [hst2]
      exact ih hrest st hI hU
    · exact ⟨fun h => Bool.noConfusion h, fun _ => htr.2 rfl⟩

theorem solveFullAux_spec (env : Env) (hE : EnvWf env) :
    ∀ (fuel : Nat) (i : Nat) (st : St), Inv env st → UnplacedFrom env st i →
      ((solveFullAux env fuel i st).fst = false → (solveFullAux env fuel i st).snd = st) ∧
      ((solveFullAux env fuel i st).fst = true → Inv env (solveFullAux env fuel i st).snd)
  | 0, i, st => by
    intro hI _
    exact ⟨fun h => by simp [solveFullAux] at h, fun _ => hI⟩
  | Nat.succ n, i, st => by
    intro hI hU
    have hunf : solveFullAux env (Nat.succ n) i st =
        (if i < env.allSections.length then
          tryPeriods env (env.allSections.getD i 0)
            (fun st2 => solveFullAux env n (i + 1) st2)
            (List.range env.periodIds.length) st
        else (true, st)) := rfl
    rw [hunf]
    by_cases hi : i < env.allSections.length
    · rw [if_pos hi]
      have hk : ∀ st2, Inv env st2 → UnplacedFrom env st2 (i + 1) →
          ((solveFullAux env n (i + 1) st2).fst = false →
            (solveFullAux env n (i + 1) st2).snd = st2) ∧
          ((solveFullAux env n (i + 1) st2).fst = true →
            Inv env (solveFullAux env n (i + 1) st2).snd) :=
        fun st2 hI2 hU2 => solveFullAux_spec env hE n (i + 1) st2 hI2 hU2
      exact tryPeriods_spec env i (env.allSections.getD i 0)
        (fun st2 => solveFullAux env n (i + 1) st2) hE hi rfl hk
        (List.range env.periodIds.length) (fun p hp => by simpa using hp) st hI hU
    · rw [if_neg hi]
      exact ⟨fun h => by simp at h, fun _ => hI⟩

/-- C1, counterexample. The claim as stated fails on the code: with the
duplicated label list `["r", "r"]` (an input on which the context builder
succeeds and the supplied period starts empty), the fallback appends both
sections twice to the single period, so the period's assigned sections do
not have pairwise-distinct section ids. -/
theorem claim_C1_counterexample :
    (dupLabelRun.toOption.map (fun p => periodSecIds p.fst p.snd 0)) =
      some ["c1-1", "c2-1", "c1-1", "c2-1"] ∧
    ¬ (["c1-1", "c2-1", "c1-1", "c2-1"] : List String).Nodup := by
  constructor
  · decide
  · decide

/-- C2, counterexample. The claim as stated fails on the code:
`build_scheduling_context` raises the no-qualified-teachers error for a
section that does have a qualified teacher in the claim's sense (subjects
contain the class name) — the teacher is excluded only because
`max_sections = 0` — while a compatible room also exists. -/
theorem claim_C2_counterexample :
    buildContext [⟨"c1-1", "c1", "r"⟩] [⟨"T", ["c1"], 0, 0⟩] [⟨"R", 30, ["r"]⟩] ["P1"]
        = Except.error "CRITICAL: Section c1-1 has NO qualified teachers." ∧
    ([⟨"T", ["c1"], 0, 0⟩] : List Teacher).filter
        (fun t => t.subjects.contains "c1") = [⟨"T", ["c1"], 0, 0⟩] ∧
    ([⟨"R", 30, ["r"]⟩] : List Classroom).filter
        (fun r => r.purposes.contains "r") = [⟨"R", 30, ["r"]⟩] := by
  refine ⟨by decide, by decide, by decide⟩

theorem buildDomains_preserve (teachers : List Teacher) (classrooms : List Classroom)
    (k : String) :
    ∀ (sections : List SectionS) (acc : List (String × List Nat) × List (String × List Nat))
      (r : List (String × List Nat) × List (String × List Nat)),
      (∀ s ∈ sections, s.sectionId ≠ k) →
      buildDomains teachers classrooms sections acc = .ok r →
      aGet r.fst k = aGet acc.fst k ∧ aGet r.snd k = aGet acc.snd k
  | [], acc, r, _, h => by
    simp only [buildDomains, Except.ok.injEq] at h
    rw [← h]
    exact ⟨rfl, rfl⟩
  | s :: rest, acc, r, hk, h => by
    have hunf : buildDomains teachers classrooms (s :: rest) acc =
        (if (teacherDomain teachers s).isEmpty then
          .error ("CRITICAL: Section " ++ s.sectionId ++ " has NO qualified teachers.")
        else if (roomDomain classrooms s).isEmpty then
          .error ("CRITICAL: Section " ++ s.sectionId ++ " has NO compatible rooms.")
        else
          buildDomains teachers classrooms rest
            (aIns acc.fst s.sectionId (teacherDomain teachers s),
             aIns acc.snd s.sectionId (roomDomain classrooms s))) := rfl
    rw [hunf] at h
    by_cases h1 : (teacherDomain teachers s).isEmpty
    · rw [if_pos h1] at h
      exact Except.noConfusion h
    · rw [if_neg h1] at h
      by_cases h2 : (roomDomain classrooms s).isEmpty
      · rw [if_pos h2] at h
        exact Except.noConfusion h
      · rw [if_neg h2] at h
        have hne : s.sectionId ≠ k := hk s (List.mem_cons_self _ _)
        have ih := buildDomains_preserve teachers classrooms k rest _ r
          (fun s' hs' => hk s' (List.mem_cons_of_mem _ hs')) h
        rw [ih.1, ih.2]
        constructor
        · rw [aGet_aIns, if_neg (fun hh => hne hh.symm)]
        · rw [aGet_aIns, if_neg (fun hh => hne hh.symm)]

theorem buildDomains_ok_lookup (teachers : List Teacher) (classrooms : List Classroom) :
    ∀ (sections : List SectionS) (acc : List (String × List Nat) × List (String × List Nat))
      (r : List (String × List Nat) × List (String × List Nat)),
      (sections.map SectionS.sectionId).Nodup →
      buildDomains teachers classrooms sections acc = .ok r →
      ∀ s ∈ sections, aGet r.fst s.sectionId = some (teacherDomain teachers s) ∧
        aGet r.snd s.sectionId = some (roomDomain classrooms s)
  | [], acc, r, _, h, s, hs => by simp at hs
  | s0 :: rest, acc, r, hnd, h, s, hs => by
    have hunf : buildDomains teachers classrooms (s0 :: rest) acc =
        (if (teacherDomain teachers s0).isEmpty then
          .error ("CRITICAL: Section " ++ s0.sectionId ++ " has NO qualified teachers.")
        else if (roomDomain classrooms s0).isEmpty then
          .error ("CRITICAL: Section " ++ s0.sectionId ++ " has NO compatible rooms.")
        else
          buildDomains teachers classrooms rest
            (aIns acc.fst s0.sectionId (teacherDomain teachers s0),
             aIns acc.snd s0.sectionId (roomDomain classrooms s0))) := rfl
    rw [hunf] at h
    by_cases h1 : (teacherDomain teachers s0).isEmpty
    · rw [if_pos h1] at h
      exact Except.noConfusion h
    · rw [if_neg h1] at h
      by_cases h2 : (roomDomain classrooms s0).isEmpty
      · rw [if_pos h2] at h
        exact Except.noConfusion h
      · rw [if_neg h2] at h
        rw [List.map_cons, List.nodup_cons] at hnd
        rcases List.mem_cons.mp hs with he | hmem
        · subst he
          have hpres := buildDomains_preserve teachers classrooms s.sectionId rest _ r
            (fun s' hs' heq => hnd.1 (heq ▸ List.mem_map_of_mem SectionS.sectionId hs')) h
          rw [hpres.1, hpres.2]
          constructor
          · simp [aGet_aIns]
          · simp [aGet_aIns]
        · exact buildDomains_ok_lookup teachers classrooms rest _ r hnd.2 h s hmem

theorem buildDomains_offender (teachers : List Teacher) (classrooms : List Classroom) :
    ∀ (sections : List SectionS) (acc : List (String × List Nat) × List (String × List Nat))
      (s : SectionS) (off : Bool),
      firstOffender teachers classrooms sections = some (s, off) →
      buildDomains teachers classrooms sections acc =
        .error (if off then "CRITICAL: Section " ++ s.sectionId ++ " has NO qualified teachers."
                else "CRITICAL: Section " ++ s.sectionId ++ " has NO compatible rooms.")
  | [], acc, s, off, h => by simp [firstOffender] at h
  | s0 :: rest, acc, s, off, h => by
    have hunfO : firstOffender teachers classrooms (s0 :: rest) =
        (if (teacherDomain teachers s0).isEmpty then some (s0, true)
        else if (roomDomain classrooms s0).isEmpty then some (s0, false)
        else firstOffender teachers classrooms rest) := rfl
    have hunf : buildDomains teachers classrooms (s0 :: rest) acc =
        (if (teacherDomain teachers s0).isEmpty then
          .error ("CRITICAL: Section " ++ s0.sectionId ++ " has NO qualified teachers.")
        else if (roomDomain classrooms s0).isEmpty then
          .error ("CRITICAL: Section " ++ s0.sectionId ++ " has NO compatible rooms.")
        else
          buildDomains teachers classrooms rest
            (aIns acc.fst s0.sectionId (teacherDomain teachers s0),
             aIns acc.snd s0.sectionId (roomDomain classrooms s0))) := rfl
    rw [hunfO] at h
    rw [hunf]
    by_cases h1 : (teacherDomain teachers s0).isEmpty
    · rw [if_pos h1] at h
      rw [if_pos h1]
      have hs : s0 = s ∧ true = off := by
        constructor
        · exact congrArg (fun p => p.fst) (Option.some.inj h)
        · exact congrArg (fun p => p.snd) (Option.some.inj h)
      rw [← hs.1, ← hs.2, if_pos rfl]
    · rw [if_neg h1] at h
      rw [if_neg h1]
      by_cases h2 : (roomDomain classrooms s0).isEmpty
      · rw [if_pos h2] at h
        rw [if_pos h2]
        have hs : s0 = s ∧ false = off := by
          constructor
          · exact congrArg (fun p => p.fst) (Option.some.inj h)
          · exact congrArg (fun p => p.snd) (Option.some.inj h)
        rw [← hs.1, ← hs.2, if_neg (by simp)]
      · rw [if_neg h2] at h
        rw [if_neg h2]
        exact buildDomains_offender teachers classrooms rest _ s off h

theorem buildDomains_error_iff (teachers : List Teacher) (classrooms : List Classroom) :
    ∀ (sections : List SectionS) (acc : List (String × List Nat) × List (String × List Nat)),
      (∀ r, buildDomains teachers classrooms sections acc ≠ .ok r) ↔
      ∃ s ∈ sections, teacherDomain teachers s = [] ∨ roomDomain classrooms s = []
  | [], acc => by
    simp only [buildDomains]
    constructor
    · intro h
      exact absurd rfl (h acc)
    · intro ⟨s, hs, _⟩
      simp at hs
  | s0 :: rest, acc => by
    have hunf : buildDomains teachers classrooms (s0 :: rest) acc =
        (if (teacherDomain teachers s0).isEmpty then
          .error ("CRITICAL: Section " ++ s0.sectionId ++ " has NO qualified teachers.")
        else if (roomDomain classrooms s0).isEmpty then
          .error ("CRITICAL: Section " ++ s0.sectionId ++ " has NO compatible rooms.")
        else
          buildDomains teachers classrooms rest
            (aIns acc.fst s0.sectionId (teacherDomain teachers s0),
             aIns acc.snd s0.sectionId (roomDomain classrooms s0))) := rfl
    rw [hunf]
    by_cases h1 : (teacherDomain teachers s0).isEmpty
    · rw [if_pos h1]
      constructor
      · intro _
        exact ⟨s0, List.mem_cons_self _ _, Or.inl (List.isEmpty_iff.mp h1)⟩
      · intro _ r h
        exact Except.noConfusion h
    · rw [if_neg h1]
      by_cases h2 : (roomDomain classrooms s0).isEmpty
      · rw [if_pos h2]
        constructor
        · intro _
          exact ⟨s0, List.mem_cons_self _ _, Or.inr (List.isEmpty_iff.mp h2)⟩
        · intro _ r h
          exact Except.noConfusion h
      · rw [if_neg h2]
        rw [buildDomains_error_iff teachers classrooms rest _]
        constructor
        · intro ⟨s, hs, hd⟩
          exact ⟨s, List.mem_cons_of_mem _ hs, hd⟩
        · intro ⟨s, hs, hd⟩
          rcases List.mem_cons.mp hs with he | hmem
          · exfalso
            subst he
            rcases hd with hd | hd
            · exact h1 (List.isEmpty_iff.mpr hd)
            · exact h2 (List.isEmpty_iff.mpr hd)
          · exact ⟨s, hmem, hd⟩

/-- C2, amended. `build_scheduling_context` fails if and only if some
section has zero qualified teachers in the code's sense (subjects contain
the class name AND `max_sections > 0` — the code's extra capacity filter is
the correction) or zero compatible rooms; the error raised names the first
such section; and on success, provided section ids are pairwise distinct
(domains are keyed by id, so a duplicate id would be overwritten), each
section's `valid_teachers`/`valid_rooms` entry is exactly its qualified
teacher list / compatible room list in source list order. -/
theorem claim_C2_amended_thm (sections : List SectionS) (teachers : List Teacher)
    (classrooms : List Classroom) (periodIds : List String) :
    ((buildContext sections teachers classrooms periodIds).toOption = none ↔
      ∃ s ∈ sections, teacherDomain teachers s = [] ∨ roomDomain classrooms s = []) ∧
    (∀ s off, firstOffender teachers classrooms sections = some (s, off) →
      buildContext sections teachers classrooms periodIds =
        .error (if off then "CRITICAL: Section " ++ s.sectionId ++ " has NO qualified teachers."
                else "CRITICAL: Section " ++ s.sectionId ++ " has NO compatible rooms.")) ∧
    (∀ c0, buildContext sections teachers classrooms periodIds = .ok c0 →
      (sections.map SectionS.sectionId).Nodup →
      ∀ s ∈ sections, aGet c0.validTeachers s.sectionId = some (teacherDomain teachers s) ∧
        aGet c0.validRooms s.sectionId = some (roomDomain classrooms s)) := by
  refine ⟨?_, ?_, ?_⟩
  · rw [← buildDomains_error_iff teachers classrooms sections ([], [])]
    unfold buildContext
    rcases hb : buildDomains teachers classrooms sections ([], []) with e | ⟨vT, vR⟩
    · simp only [Except.toOption]
      constructor
      · intro _ r h
        exact Except.noConfusion h
      · intro _
        trivial
    · simp only [Except.toOption]
      constructor
      · intro h
        simp at h
      · intro h
        exact absurd rfl (h (vT, vR))
  · intro s off hoff
    unfold buildContext
    rw [buildDomains_offender teachers classrooms sections ([], []) s off hoff]
  · intro c0 hok hnd s hs
    unfold buildContext at hok
    rcases hb : buildDomains teachers classrooms sections ([], []) with e | ⟨vT, vR⟩
    · rw [hb] at hok
      exact Except.noConfusion hok
    · rw [hb] at hok
      simp only [Except.ok.injEq] at hok
      have h1 : c0.validTeachers = vT := by rw [← hok]
      have h2 : c0.validRooms = vR := by rw [← hok]
      rw [h1, h2]
      exact buildDomains_ok_lookup teachers classrooms sections ([], []) (vT, vR) hnd hb s hs

/-- C2, amended, witness: a section whose required room type matches no
room makes the builder fail with the message naming that section (applying
the amended theorem at a concrete input). -/
theorem claim_C2_witness :
    buildContext [⟨"c1-1", "c1", "x"⟩] [⟨"T", ["c1"], 1, 0⟩] [⟨"R", 30, ["r"]⟩] ["P1"]
      = Except.error "CRITICAL: Section c1-1 has NO compatible rooms." := by
  have h := (claim_C2_amended_thm [⟨"c1-1", "c1", "x"⟩] [⟨"T", ["c1"], 1, 0⟩]
    [⟨"R", 30, ["r"]⟩] ["P1"]).2.1 ⟨"c1-1", "c1", "x"⟩ false (by decide)
  simpa using h

/-- C3, counterexample. On the demo scenario (1 period, 1 room, sections
A, B, C), the exhaustive solver does not succeed: a single period with a
single room can host only one section, so `solve_recursive_full` returns
`False`, contrary to the claim. -/
theorem claim_C3_counterexample : (solveFull demoEnv demoSt0 0).fst = false := by
  decide

/-- C3, amended. On the demo scenario the exhaustive solver fails and the
greedy fallback produces the schedule: all three sections are in the single
period, teachers are T2 on B, T3 on A (after the swap repair), T1 on C —
no teacher repeats — only section B receives the room, and the validator
passes. -/
theorem claim_C3_amended_thm :
    (demoRun.toOption.map (fun p =>
      (periodSecIds p.fst p.snd 0, periodTeacherNames p.fst p.snd 0,
       periodRoomNames p.fst p.snd 0, (checkSchedule p.fst p.snd).toOption.isSome))) =
    some (["B-1", "A-1", "C-1"], ["T2", "T3", "T1"], ["R1"], true) := by
  decide

/-- C4, counterexample. The claim as stated fails on the code: with two
distinct teacher objects both named "T" (the scoreboard is keyed by name),
the swap repair assigns the max-load-1 teacher (index 0) a second section,
so it ends with 2 > 1 sections. The context builder succeeds and the
supplied periods start empty on this input. -/
theorem claim_C4_counterexample :
    (dupNameRun.toOption.map (fun p => (countIdx p.snd 0, (teacherOf p.fst 0).maxSections))) =
      some (2, 1) := by
  decide

/-- C6, counterexample. The claim as stated fails on the code: on a
reachable fallback state (label list `["r", "r"]`, so section 0 occurs
twice in the period), the source room pass reassigns section 0 to room r3,
whereas the claimed label-priority-ordered pass leaves it on r1: the pass
does not work label-by-label as claimed. -/
theorem claim_C6_counterexample :
    (assignClassrooms c6Env ["r", "r"] c6St).assignedRoom = [some 2, some 1] ∧
    (assignClassroomsLabelOrdered c6Env ["r", "r"] c6St).assignedRoom = [some 0, some 1] ∧
    (some 2 : Option Nat) ≠ some 0 := by
  refine ⟨by decide, by decide, by decide⟩

theorem altLoop_cases (env : Env) (pid : String) (sIdx csIdx qi : Nat) :
    ∀ (alts : List Nat) (st : St),
      altLoop env pid sIdx csIdx qi alts st = st ∨
      ∃ ai ∈ alts,
        (teacherOf env ai).name ≠ (teacherOf env qi).name ∧
        a2Get st.teacherSchedule (teacherOf env ai).name pid = none ∧
        aGetD st.teacherLoad (teacherOf env ai).name 0 < (teacherOf env ai).maxSections ∧
        altLoop env pid sIdx csIdx qi alts st = performSwap env pid sIdx csIdx qi ai st
  | [], st => Or.inl rfl
  | ai :: rest, st => by
    have hunf : altLoop env pid sIdx csIdx qi (ai :: rest) st =
        (if (teacherOf env ai).name = (teacherOf env qi).name then
          altLoop env pid sIdx csIdx qi rest st
        else if a2Get st.teacherSchedule (teacherOf env ai).name pid = none ∧
            aGetD st.teacherLoad (teacherOf env ai).name 0 < (teacherOf env ai).maxSections then
          performSwap env pid sIdx csIdx qi ai st
        else altLoop env pid sIdx csIdx qi rest st) := rfl
    rw [hunf]
    by_cases h1 : (teacherOf env ai).name = (teacherOf env qi).name
    · rw [if_pos h1]
      rcases altLoop_cases env pid sIdx csIdx qi rest st with h | ⟨aj, hj, hcond⟩
      · exact Or.inl h
      · exact Or.inr ⟨aj, List.mem_cons_of_mem _ hj, hcond⟩
    · rw [if_neg h1]
      by_cases h2 : a2Get st.teacherSchedule (teacherOf env ai).name pid = none ∧
          aGetD st.teacherLoad (teacherOf env ai).name 0 < (teacherOf env ai).maxSections
      · rw [if_pos h2]
        exact Or.inr ⟨ai, List.mem_cons_self _ _, h1, h2.1, h2.2, rfl⟩
      · rw [if_neg h2]
        rcases altLoop_cases env pid sIdx csIdx qi rest st with h | ⟨aj, hj, hcond⟩
        · exact Or.inl h
        · exact Or.inr ⟨aj, List.mem_cons_of_mem _ hj, hcond⟩

theorem performSwap_sIdx (env : Env) (pid : String) (sIdx csIdx qi ai : Nat) (st : St)
    (hsl : sIdx < st.assignedTeacher.length) :
    (performSwap env pid sIdx csIdx qi ai st).assignedTeacher.getD sIdx none = some qi := by
  have e1 : (performSwap env pid sIdx csIdx qi ai st).assignedTeacher =
      (st.assignedTeacher.set csIdx (some ai)).set sIdx (some qi) := rfl
  rw [e1, getD_set_self (by simpa using hsl)]

theorem performSwap_csIdx (env : Env) (pid : String) (sIdx csIdx qi ai : Nat) (st : St)
    (hcs : csIdx ≠ sIdx) (hcl : csIdx < st.assignedTeacher.length) :
    (performSwap env pid sIdx csIdx qi ai st).assignedTeacher.getD csIdx none = some ai := by
  have e1 : (performSwap env pid sIdx csIdx qi ai st).assignedTeacher =
      (st.assignedTeacher.set csIdx (some ai)).set sIdx (some qi) := rfl
  rw [e1, getD_set_ne _ hcs, getD_set_self hcl]

theorem performSwap_load (env : Env) (pid : String) (sIdx csIdx qi ai : Nat) (st : St)
    (hnm : (teacherOf env ai).name ≠ (teacherOf env qi).name) :
    aGetD (performSwap env pid sIdx csIdx qi ai st).teacherLoad (teacherOf env qi).name 0 =
      aGetD st.teacherLoad (teacherOf env qi).name 0 := by
  set qn := (teacherOf env qi).name with hqn
  set an := (teacherOf env ai).name with han
  have e1 : (performSwap env pid sIdx csIdx qi ai st).teacherLoad =
      aSet (aSet (aSet st.teacherLoad an (aGetD st.teacherLoad an 0 + 1)) qn
          (aGetD (aSet st.teacherLoad an (aGetD st.teacherLoad an 0 + 1)) qn 0 - 1)) qn
        (aGetD (aSet (aSet st.teacherLoad an (aGetD st.teacherLoad an 0 + 1)) qn
          (aGetD (aSet st.teacherLoad an (aGetD st.teacherLoad an 0 + 1)) qn 0 - 1)) qn 0 + 1) := rfl
  rw [e1]
  set m1 := aSet st.teacherLoad an (aGetD st.teacherLoad an 0 + 1) with hm1
  have hq1 : aGetD m1 qn 0 = aGetD st.teacherLoad qn 0 := by
    rw [hm1, aGetD_aSet_ne (fun h => hnm h.symm)]
  by_cases hk : hasKey m1 qn
  · rw [aGetD_aSet_self (by rwa [hasKey_aSet] : hasKey (aSet m1 qn (aGetD m1 qn 0 - 1)) qn)]
    rw [aGetD_aSet_self hk, hq1]
    omega
  · have hnop1 : aSet m1 qn (aGetD m1 qn 0 - 1) = m1 := by
      apply aSet_id
      intro e he hkk
      exfalso
      apply hk
      unfold hasKey
      rw [aGet_isSome_iff, ← hkk]
      exact List.mem_map_of_mem Prod.fst he
    rw [hnop1]
    have hnop2 : aSet m1 qn (aGetD m1 qn 0 + 1) = m1 := by
      apply aSet_id
      intro e he hkk
      exfalso
      apply hk
      unfold hasKey
      rw [aGet_isSome_iff, ← hkk]
      exact List.mem_map_of_mem Prod.fst he
    rw [hnop2, hq1]

theorem swapLoop_cases (env : Env) (pid : String) (sIdx : Nat) :
    ∀ (qts : List Nat) (st : St),
      st.assignedTeacher.getD sIdx none = none →
      sIdx < st.assignedTeacher.length →
      swapLoop env pid sIdx qts st = st ∨
      ∃ qi ∈ qts, ∃ csIdx ai,
        a2Get st.teacherSchedule (teacherOf env qi).name pid = some csIdx ∧
        ai ∈ validTs env csIdx ∧
        (teacherOf env ai).name ≠ (teacherOf env qi).name ∧
        a2Get st.teacherSchedule (teacherOf env ai).name pid = none ∧
        aGetD st.teacherLoad (teacherOf env ai).name 0 < (teacherOf env ai).maxSections ∧
        swapLoop env pid sIdx qts st = performSwap env pid sIdx csIdx qi ai st
  | [], st, _, _ => Or.inl rfl
  | qi :: rest, st, hB, hsl => by
    rcases hcell : a2Get st.teacherSchedule (teacherOf env qi).name pid with _ | csIdx
    · have heq : swapLoop env pid sIdx (qi :: rest) st = swapLoop env pid sIdx rest st := by
        have hunf : swapLoop env pid sIdx (qi :: rest) st =
            (match a2Get st.teacherSchedule (teacherOf env qi).name pid with
            | none => swapLoop env pid sIdx rest st
            | some csIdx =>
              let st2 := altLoop env pid sIdx csIdx qi (validTs env csIdx) st
              if st2.assignedTeacher.getD sIdx none ≠ none then st2
              else swapLoop env pid sIdx rest st2) := rfl
        rw [hunf, hcell]
      rw [heq]
      rcases swapLoop_cases env pid sIdx rest st hB hsl with h | ⟨qj, hqj, rest'⟩
      · exact Or.inl h
      · exact Or.inr ⟨qj, List.mem_cons_of_mem _ hqj, rest'⟩
    · have heq : swapLoop env pid sIdx (qi :: rest) st =
          (if (altLoop env pid sIdx csIdx qi (validTs env csIdx) st).assignedTeacher.getD
              sIdx none ≠ none then
            altLoop env pid sIdx csIdx qi (validTs env csIdx) st
          else swapLoop env pid sIdx rest
            (altLoop env pid sIdx csIdx qi (validTs env csIdx) st)) := by
        have hunf : swapLoop env pid sIdx (qi :: rest) st =
            (match a2Get st.teacherSchedule (teacherOf env qi).name pid with
            | none => swapLoop env pid sIdx rest st
            | some csIdx =>
              let st2 := altLoop env pid sIdx csIdx qi (validTs env csIdx) st
              if st2.assignedTeacher.getD sIdx none ≠ none then st2
              else swapLoop env pid sIdx rest st2) := rfl
        rw [hunf, hcell]
      rw [heq]
      rcases altLoop_cases env pid sIdx csIdx qi (validTs env csIdx) st with hid | ⟨ai, hai, hn, hf, hl, hsw⟩
      · rw [hid, if_neg (by rw [hB]; exact fun h => h rfl)]
        rcases swapLoop_cases env pid sIdx rest st hB hsl with h | ⟨qj, hqj, rest'⟩
        · exact Or.inl h
        · exact Or.inr ⟨qj, List.mem_cons_of_mem _ hqj, rest'⟩
      · rw [hsw, if_pos (by rw [performSwap_sIdx env pid sIdx csIdx qi ai st hsl]; simp)]
        exact Or.inr ⟨qi, List.mem_cons_self _ _, csIdx, ai, hcell, hai, hn, hf, hl, rfl⟩

/-- C7. Whenever the swap pass of `assign_teachers_to_sections` assigns the
blocked section a teacher (in any state whose `teacher_schedule` cells are
consistent, `TSchedOk`): the displaced teacher `qt` was busy in the period
with a conflicting section `cs`; `cs` ends the swap step with a qualified
alternate teacher assigned (never a null teacher) whose name differs from
`qt`'s and who was free in the period and under load at swap time; the
blocked section is assigned `qt`; and `qt`'s `teacher_load` is unchanged
net by the swap. -/
theorem claim_C7_thm (env : Env) (pid : String) (sIdx : Nat) (qts : List Nat) (st : St)
    (hB : st.assignedTeacher.getD sIdx none = none)
    (hsl : sIdx < st.assignedTeacher.length)
    (hT : TSchedOk env st)
    (hqts : ∀ qi ∈ qts, qi < env.teachers.length)
    (hpid : pid ∈ env.periodIds)
    (hres : (swapLoop env pid sIdx qts st).assignedTeacher.getD sIdx none ≠ none) :
    ∃ qi ∈ qts, ∃ csIdx ai,
      (swapLoop env pid sIdx qts st).assignedTeacher.getD sIdx none = some qi ∧
      a2Get st.teacherSchedule (teacherOf env qi).name pid = some csIdx ∧
      csIdx ≠ sIdx ∧
      (swapLoop env pid sIdx qts st).assignedTeacher.getD csIdx none = some ai ∧
      ai ∈ validTs env csIdx ∧
      (teacherOf env ai).name ≠ (teacherOf env qi).name ∧
      a2Get st.teacherSchedule (teacherOf env ai).name pid = none ∧
      aGetD st.teacherLoad (teacherOf env ai).name 0 < (teacherOf env ai).maxSections ∧
      aGetD (swapLoop env pid sIdx qts st).teacherLoad (teacherOf env qi).name 0 =
        aGetD st.teacherLoad (teacherOf env qi).name 0 := by
  rcases swapLoop_cases env pid sIdx qts st hB hsl with hid | ⟨qi, hqi, csIdx, ai, hcell, hai, hn, hf, hl, hsw⟩
  · exfalso
    rw [hid, hB] at hres
    exact hres rfl
  · have hTc := hT (teacherOf env qi) (teacherOf_mem (hqts qi hqi)) pid hpid csIdx
      (by rw [hcell]; rfl)
    have hcsome : (st.assignedTeacher.getD csIdx none).isSome = true := hTc.2.1
    have hcs : csIdx ≠ sIdx := by
      intro h
      rw [h, hB] at hcsome
      simp at hcsome
    have hcl : csIdx < st.assignedTeacher.length := by
      by_contra hge
      rw [getD_of_ge hge] at hcsome
      simp at hcsome
    refine ⟨qi, hqi, csIdx, ai, ?_, hcell, hcs, ?_, hai, hn, hf, hl, ?_⟩
    · rw [hsw]
      exact performSwap_sIdx env pid sIdx csIdx qi ai st hsl
    · rw [hsw]
      exact performSwap_csIdx env pid sIdx csIdx qi ai st hcs hcl
    · rw [hsw]
      exact performSwap_load env pid sIdx csIdx qi ai st hn

/-- C7, witness: in the hand-built two-teacher state the swap fires, and
the theorem applies with all hypotheses discharged concretely. -/
theorem claim_C7_witness :
    ∃ qi ∈ [0], ∃ csIdx ai,
      (swapLoop c7Env "P" 0 [0] c7St).assignedTeacher.getD 0 none = some qi ∧
      a2Get c7St.teacherSchedule (teacherOf c7Env qi).name "P" = some csIdx ∧
      csIdx ≠ 0 ∧
      (swapLoop c7Env "P" 0 [0] c7St).assignedTeacher.getD csIdx none = some ai ∧
      ai ∈ validTs c7Env csIdx ∧
      (teacherOf c7Env ai).name ≠ (teacherOf c7Env qi).name ∧
      a2Get c7St.teacherSchedule (teacherOf c7Env ai).name "P" = none ∧
      aGetD c7St.teacherLoad (teacherOf c7Env ai).name 0 < (teacherOf c7Env ai).maxSections ∧
      aGetD (swapLoop c7Env "P" 0 [0] c7St).teacherLoad (teacherOf c7Env qi).name 0 =
        aGetD c7St.teacherLoad (teacherOf c7Env qi).name 0 :=
  claim_C7_thm c7Env "P" 0 [0] c7St (by decide) (by decide) (by decide) (by decide)
    (by decide) (by decide)

/-- C8, counterexample. The claim as stated fails on the code: the
fallback teacher pass does not process sections according to the
TeachingUnit-name priority labels. On a period holding class B's section
before class A's with one teacher qualified for both, the source pass
assigns the teacher to B's section, while the claimed label-ordered pass
(labels `["A", "B"]`) assigns it to A's section. -/
theorem claim_C8_counterexample :
    (assignTeachers c8Env c8St).assignedTeacher = [some 0, none] ∧
    (assignTeachersLabelOrdered c8Env ["A", "B"] c8St).assignedTeacher = [none, some 0] := by
  refine ⟨by decide, by decide⟩

/-- C8, amended. The `class_list` argument of `run_scheduler` is not used
at all: the entire result is identical for any two values of it (the
fallback teacher pass processes sections in period-list order instead). -/
theorem claim_C8_amended_thm (classroomTypes : List String) (classrooms : List Classroom)
    (cl1 cl2 : List String) (classes : List ClassC) (teachers : List Teacher)
    (periodIds : List String) :
    runScheduler classroomTypes classrooms cl1 classes teachers periodIds =
      runScheduler classroomTypes classrooms cl2 classes teachers periodIds := rfl

/-- C5. On every state reachable by `run_scheduler`'s solver (characterized
by the scoreboard-consistency invariant `Inv`, the well-formed environment
`EnvWf`, and sections from index `i` on being unassigned — all of which
hold at the initial call and are re-established at every recursive call),
if `solve_recursive_full(ctx, i)` returns `False` it has undone exactly the
mutations it made: the whole mutable state (`teacher_schedule`,
`room_schedule`, `teacher_load`, every period's `assigned_sections`, every
section's two assignment fields) equals its value at the moment of the
call. -/
theorem claim_C5_thm (env : Env) (st : St) (i : Nat)
    (hE : EnvWf env) (hI : Inv env st) (hU : UnplacedFrom env st i) :
    (solveFull env st i).fst = false → (solveFull env st i).snd = st :=
  fun hfail =>
    (solveFullAux_spec env hE (env.allSections.length - i) i st hI hU).1 hfail

/-- C5, witness: on the demo scenario's initial solver state the solver
fails and returns the state unchanged. -/
theorem claim_C5_witness :
    (solveFull demoEnv demoSt0 0).fst = false ∧
      (solveFull demoEnv demoSt0 0).snd = demoSt0 :=
  ⟨by decide,
   claim_C5_thm demoEnv demoSt0 0 (by decide) (by decide) (by decide) (by decide)⟩

/-- C9, counterexample. The claim as stated fails on the code: with zero
supplied periods (and a section whose type occurs in the labels), the
context builder succeeds, yet `run_scheduler` neither returns a schedule
nor raises the builder's constraint error — the fallback's
`periods[period_idx % len(periods)]` divides by zero. -/
theorem claim_C9_counterexample :
    zeroPeriodRun = Except.error "ZeroDivisionError: integer modulo by zero" ∧
    (buildContext (generateSections [⟨"c1", 1, "r"⟩]) [⟨"T", ["c1"], 1, 0⟩]
        [⟨"R", 30, ["r"]⟩] []).toOption.isSome = true := by
  refine ⟨by decide, by decide⟩

/-! ### Distinct names give injective lookups -/

theorem map_nodup_getD_inj {α β : Type} [Inhabited α] {l : List α} {f : α → β}
    (hn : (l.map f).Nodup) {a b : Nat} (ha : a < l.length) (hb : b < l.length)
    (h : f (l.getD a default) = f (l.getD b default)) : a = b := by
  have ha' : a < (l.map f).length := by simpa using ha
  have hb' : b < (l.map f).length := by simpa using hb
  have hga : (l.map f).get ⟨a, ha'⟩ = f (l.getD a default) := by
    simp only [List.get_eq_getElem, List.getElem_map]
    rw [getD_eq_getElem _ _ _ ha]
  have hgb : (l.map f).get ⟨b, hb'⟩ = f (l.getD b default) := by
    simp only [List.get_eq_getElem, List.getElem_map]
    rw [getD_eq_getElem _ _ _ hb]
  have heq : (l.map f).get ⟨a, ha'⟩ = (l.map f).get ⟨b, hb'⟩ := by
    rw [hga, hgb]; exact h
  have := (List.Nodup.get_inj_iff hn).mp heq
  simpa using this

theorem names_inj {env : Env} (hn : (env.teachers.map Teacher.name).Nodup)
    {a b : Nat} (ha : a < env.teachers.length) (hb : b < env.teachers.length)
    (h : (teacherOf env a).name = (teacherOf env b).name) : a = b :=
  map_nodup_getD_inj hn ha hb h

theorem ids_inj {env : Env} (hn : (env.secs.map SectionS.sectionId).Nodup)
    {a b : Nat} (ha : a < env.secs.length) (hb : b < env.secs.length)
    (h : (secOf env a).sectionId = (secOf env b).sectionId) : a = b :=
  map_nodup_getD_inj hn ha hb h

/-! ### Folded dict initialization -/

theorem mem_aIns_elim {α : Type} {m : List (String × α)} {k : String} {v : α}
    {e : String × α} (he : e ∈ aIns m k v) : e = (k, v) ∨ e ∈ m := by
  unfold aIns at he
  by_cases hp : (m.find? (fun kv => kv.fst == k)).isSome
  · rw [if_pos hp] at he
    exact mem_aSet_elim he
  · rw [if_neg hp] at he
    rcases List.mem_append.mp he with h | h
    · exact Or.inr h
    · exact Or.inl (by simpa using h)

theorem foldIns_keysNodup {α β : Type} (key : β → String) (v : β → α) :
    ∀ (l : List β) (m : List (String × α)), keysNodup m →
      keysNodup (l.foldl (fun acc x => aIns acc (key x) (v x)) m)
  | [], _, h => h
  | x :: l, m, h => foldIns_keysNodup key v l _ (keysNodup_aIns h _ _)

theorem foldIns_hasKey_mono {α β : Type} (key : β → String) (v : β → α) :
    ∀ (l : List β) (m : List (String × α)) {k : String}, hasKey m k →
      hasKey (l.foldl (fun acc x => aIns acc (key x) (v x)) m) k
  | [], _, _, h => h
  | _ :: l, m, _, h => foldIns_hasKey_mono key v l _ (hasKey_aIns_mono h _ _)

theorem foldIns_hasKey {α β : Type} (key : β → String) (v : β → α) :
    ∀ (l : List β) (m : List (String × α)) {x : β}, x ∈ l →
      hasKey (l.foldl (fun acc x => aIns acc (key x) (v x)) m) (key x)
  | [], _, x, hx => absurd hx (List.not_mem_nil x)
  | y :: l, m, x, hx => by
    rcases List.mem_cons.mp hx with h | h
    · subst h
      exact foldIns_hasKey_mono key v l _ (hasKey_aIns_self m (key x) (v x))
    · exact foldIns_hasKey key v l _ h

theorem foldIns_values {α β : Type} (key : β → String) (v : β → α) (P : α → Prop) :
    ∀ (l : List β) (m : List (String × α)),
      (∀ x ∈ l, P (v x)) → (∀ e ∈ m, P e.snd) →
      ∀ e ∈ l.foldl (fun acc x => aIns acc (key x) (v x)) m, P e.snd
  | [], _, _, hm, e, he => hm e he
  | x :: l, m, hl, hm, e, he =>
    foldIns_values key v P l _ (fun y hy => hl y (List.mem_cons_of_mem _ hy))
      (fun e' he' => by
        rcases mem_aIns_elim he' with h | h
        · rw [h]; exact hl x (List.mem_cons_self _ _)
        · exact hm e' h) e he

theorem aGetD_of_values {α : Type} {m : List (String × α)} {P : α → Prop}
    (h : ∀ e ∈ m, P e.snd) {k : String} {d : α} (hd : P d) : P (aGetD m k d) := by
  unfold aGetD
  rcases hg : aGet m k with _ | w
  · exact hd
  · exact h _ (aGet_mem hg)

theorem a2Get_none_of_rows {m : List (String × List (String × Option Nat))}
    (h : ∀ row ∈ m, ∀ c ∈ row.snd, c.snd = none) (k1 k2 : String) :
    a2Get m k1 k2 = none := by
  unfold a2Get aGetD
  rcases hg : aGet m k1 with _ | row
  · rfl
  · simp only [Option.getD_some]
    rcases hf : row.find? (fun kv => kv.fst == k2) with _ | c
    · rw [hf]; rfl
    · have hc : c ∈ row := List.mem_of_find?_eq_some hf
      have hcn := h (k1, row) (aGet_mem hg) c hc
      rw [hf]
      simp [hcn]

theorem freshRow_values (periodIds : List String) :
    ∀ c ∈ freshRow periodIds, c.snd = (none : Option Nat) := by
  unfold freshRow
  exact foldIns_values (fun pid => pid) (fun _ => none) (fun o => o = none) periodIds []
    (fun _ _ => rfl) (fun e he => absurd he (List.not_mem_nil e))

theorem freshRow_keysNodup (periodIds : List String) : keysNodup (freshRow periodIds) := by
  unfold freshRow
  exact foldIns_keysNodup (fun pid => pid) (fun _ => none) periodIds []
    (by unfold keysNodup; simp)

theorem freshRow_hasKey (periodIds : List String) {pid : String} (h : pid ∈ periodIds) :
    hasKey (freshRow periodIds) pid := by
  unfold freshRow
  exact foldIns_hasKey (fun pid => pid) (fun _ => none) periodIds [] h

/-! ### The initial matrices -/

theorem initM_tsched_values (teachers : List Teacher) (classrooms : List Classroom)
    (periodIds : List String) :
    ∀ e ∈ (initMatrices teachers classrooms periodIds).fst, e.snd = freshRow periodIds := by
  unfold initMatrices
  exact foldIns_values Teacher.name (fun _ => freshRow periodIds)
    (fun r => r = freshRow periodIds) teachers []
    (fun _ _ => rfl) (fun e he => absurd he (List.not_mem_nil e))

theorem initM_rsched_values (teachers : List Teacher) (classrooms : List Classroom)
    (periodIds : List String) :
    ∀ e ∈ (initMatrices teachers classrooms periodIds).snd.snd, e.snd = freshRow periodIds := by
  unfold initMatrices
  exact foldIns_values Classroom.name (fun _ => freshRow periodIds)
    (fun r => r = freshRow periodIds) classrooms []
    (fun _ _ => rfl) (fun e he => absurd he (List.not_mem_nil e))

theorem initM_load_values (teachers : List Teacher) (classrooms : List Classroom)
    (periodIds : List String) :
    ∀ e ∈ (initMatrices teachers classrooms periodIds).snd.fst, e.snd = (0 : Int) := by
  unfold initMatrices
  exact foldIns_values Teacher.name (fun _ => (0 : Int)) (fun r => r = 0) teachers []
    (fun _ _ => rfl) (fun e he => absurd he (List.not_mem_nil e))

theorem initM_tsched_hasKey2 (teachers : List Teacher) (classrooms : List Classroom)
    (periodIds : List String) {t : Teacher} (ht : t ∈ teachers) {pid : String}
    (hpid : pid ∈ periodIds) :
    hasKey2 (initMatrices teachers classrooms periodIds).fst t.name pid := by
  have hkey : hasKey (initMatrices teachers classrooms periodIds).fst t.name := by
    unfold initMatrices
    exact foldIns_hasKey Teacher.name (fun _ => freshRow periodIds) teachers [] ht
  unfold hasKey at hkey
  obtain ⟨row, hrow⟩ := Option.isSome_iff_exists.mp hkey
  have hval : row = freshRow periodIds :=
    initM_tsched_values teachers classrooms periodIds _ (aGet_mem hrow)
  unfold hasKey2 aGetD
  rw [hrow]
  simp only [Option.getD_some]
  rw [hval]
  exact freshRow_hasKey periodIds hpid

theorem initM_rsched_hasKey2 (teachers : List Teacher) (classrooms : List Classroom)
    (periodIds : List String) {r : Classroom} (hr : r ∈ classrooms) {pid : String}
    (hpid : pid ∈ periodIds) :
    hasKey2 (initMatrices teachers classrooms periodIds).snd.snd r.name pid := by
  have hkey : hasKey (initMatrices teachers classrooms periodIds).snd.snd r.name := by
    unfold initMatrices
    exact foldIns_hasKey Classroom.name (fun _ => freshRow periodIds) classrooms [] hr
  unfold hasKey at hkey
  obtain ⟨row, hrow⟩ := Option.isSome_iff_exists.mp hkey
  have hval : row = freshRow periodIds :=
    initM_rsched_values teachers classrooms periodIds _ (aGet_mem hrow)
  unfold hasKey2 aGetD
  rw [hrow]
  simp only [Option.getD_some]
  rw [hval]
  exact freshRow_hasKey periodIds hpid

theorem initM_load_hasKey (teachers : List Teacher) (classrooms : List Classroom)
    (periodIds : List String) {t : Teacher} (ht : t ∈ teachers) :
    hasKey (initMatrices teachers classrooms periodIds).snd.fst t.name := by
  unfold initMatrices
  exact foldIns_hasKey Teacher.name (fun _ => (0 : Int)) teachers [] ht

theorem initM_tsched_keysNodup (teachers : List Teacher) (classrooms : List Classroom)
    (periodIds : List String) :
    keysNodup (initMatrices teachers classrooms periodIds).fst := by
  unfold initMatrices
  exact foldIns_keysNodup Teacher.name (fun _ => freshRow periodIds) teachers []
    (by unfold keysNodup; simp)

theorem initM_rsched_keysNodup (teachers : List Teacher) (classrooms : List Classroom)
    (periodIds : List String) :
    keysNodup (initMatrices teachers classrooms periodIds).snd.snd := by
  unfold initMatrices
  exact foldIns_keysNodup Classroom.name (fun _ => freshRow periodIds) classrooms []
    (by unfold keysNodup; simp)

theorem initM_load_keysNodup (teachers : List Teacher) (classrooms : List Classroom)
    (periodIds : List String) :
    keysNodup (initMatrices teachers classrooms periodIds).snd.fst := by
  unfold initMatrices
  exact foldIns_keysNodup Teacher.name (fun _ => (0 : Int)) teachers []
    (by unfold keysNodup; simp)

theorem initM_tsched_innerNodup (teachers : List Teacher) (classrooms : List Classroom)
    (periodIds : List String) :
    innerKeysNodup (initMatrices teachers classrooms periodIds).fst := by
  intro row hrow
  rw [initM_tsched_values teachers classrooms periodIds row hrow]
  exact freshRow_keysNodup periodIds

theorem initM_rsched_innerNodup (teachers : List Teacher) (classrooms : List Classroom)
    (periodIds : List String) :
    innerKeysNodup (initMatrices teachers classrooms periodIds).snd.snd := by
  intro row hrow
  rw [initM_rsched_values teachers classrooms periodIds row hrow]
  exact freshRow_keysNodup periodIds

theorem initM_tsched_none (teachers : List Teacher) (classrooms : List Classroom)
    (periodIds : List String) (k1 k2 : String) :
    a2Get (initMatrices teachers classrooms periodIds).fst k1 k2 = none := by
  apply a2Get_none_of_rows
  intro row hrow c hc
  rw [initM_tsched_values teachers classrooms periodIds row hrow] at hc
  exact freshRow_values periodIds c hc

theorem initM_rsched_none (teachers : List Teacher) (classrooms : List Classroom)
    (periodIds : List String) (k1 k2 : String) :
    a2Get (initMatrices teachers classrooms periodIds).snd.snd k1 k2 = none := by
  apply a2Get_none_of_rows
  intro row hrow c hc
  rw [initM_rsched_values teachers classrooms periodIds row hrow] at hc
  exact freshRow_values periodIds c hc

theorem initM_load_zero (teachers : List Teacher) (classrooms : List Classroom)
    (periodIds : List String) (k : String) :
    aGetD (initMatrices teachers classrooms periodIds).snd.fst k 0 = 0 :=
  aGetD_of_values (P := fun x => x = 0)
    (initM_load_values teachers classrooms periodIds) rfl

/-! ### Fresh mutable states satisfy the invariant -/

theorem getD_none_of_all {l : List (Option Nat)} (h : ∀ o ∈ l, o = none) (i : Nat) :
    l.getD i none = none := by
  by_cases hi : i < l.length
  · exact h _ (getD_mem hi none)
  · exact getD_of_ge hi none

theorem countName_zero_of_none {env : Env} {st : St}
    (h : ∀ o ∈ st.assignedTeacher, o = none) (n : String) : countName env st n = 0 := by
  unfold countName
  have hf : st.assignedTeacher.filter (cellNames env n) = [] := by
    rw [List.filter_eq_nil_iff]
    intro o ho
    rw [h o ho, cellNames_none]
    simp
  rw [hf]
  rfl

theorem countIdx_zero_of_none {st : St}
    (h : ∀ o ∈ st.assignedTeacher, o = none) (ti : Nat) : countIdx st ti = 0 := by
  unfold countIdx
  have hf : st.assignedTeacher.filter (fun o => o == some ti) = [] := by
    rw [List.filter_eq_nil_iff]
    intro o ho
    rw [h o ho]
    simp
  rw [hf]
  rfl

theorem maxOk_of_none {env : Env} {st : St}
    (h : ∀ o ∈ st.assignedTeacher, o = none) : MaxOk env st := by
  intro ti hti
  rw [countIdx_zero_of_none h ti]
  have : (0 : Int) ≤ max (teacherOf env ti).maxSections 0 := le_max_right _ _
  simpa using this

theorem inv_of_fresh (env : Env) (st : St)
    (hSh : ShapeOk env st) (hF : FreshAssign env st) (hPl : PlacedOk env st) :
    Inv env st := by
  obtain ⟨hTS0, hRS0, hAT0, hAR0, hTL0⟩ := hF
  refine ⟨⟨hSh, hPl, ?_, ?_, ?_, ?_, ?_, ?_⟩, maxOk_of_none hAT0⟩
  · intro t ht pid hpid sIdx hmem
    rw [hTS0 t ht pid hpid] at hmem
    simp at hmem
  · intro pIdx hpIdx sIdx hmem ti hti
    rw [getD_none_of_all hAT0] at hti
    simp at hti
  · intro r hr pid hpid sIdx hmem
    rw [hRS0 r hr pid hpid] at hmem
    simp at hmem
  · intro pIdx hpIdx sIdx hmem ri hri
    rw [getD_none_of_all hAR0] at hri
    simp at hri
  · intro o ho ti hti
    rw [hAT0 o ho] at hti
    simp at hti
  · intro t ht
    rw [countName_zero_of_none hAT0, hTL0 t ht]
    simp

theorem buildContext_matrices {sections : List SectionS} {teachers : List Teacher}
    {classrooms : List Classroom} {periodIds : List String} {c0 : Ctx0}
    (h : buildContext sections teachers classrooms periodIds = .ok c0) :
    c0.teacherSchedule = (initMatrices teachers classrooms periodIds).fst ∧
    c0.teacherLoad = (initMatrices teachers classrooms periodIds).snd.fst ∧
    c0.roomSchedule = (initMatrices teachers classrooms periodIds).snd.snd := by
  unfold buildContext at h
  rcases hb : buildDomains teachers classrooms sections ([], []) with e | ⟨vT, vR⟩ <;>
    rw [hb] at h
  · exact Except.noConfusion h
  · simp only [Except.ok.injEq] at h
    rw [← h]
    exact ⟨rfl, rfl, rfl⟩

theorem flatten_map_nil {α β : Type} (l : List α) :
    ((l.map (fun _ => ([] : List β))).flatten) = [] := by
  induction l with
  | nil => rfl
  | cons x l ih => simpa using ih

/-- The common shape of `initSt` and `resetState`: freshly initialized
matrices, empty period lists, all-`none` assignment fields of the right
lengths. Such a state satisfies the full invariant. -/
theorem fresh_state_inv (env : Env) (st : St)
    (hPS : st.periodSections = env.periodIds.map (fun _ => []))
    (hTS : st.teacherSchedule = (initMatrices env.teachers env.classrooms env.periodIds).fst)
    (hTL : st.teacherLoad = (initMatrices env.teachers env.classrooms env.periodIds).snd.fst)
    (hRS : st.roomSchedule = (initMatrices env.teachers env.classrooms env.periodIds).snd.snd)
    (hATl : st.assignedTeacher.length = env.secs.length)
    (hARl : st.assignedRoom.length = env.secs.length)
    (hATn : ∀ o ∈ st.assignedTeacher, o = none)
    (hARn : ∀ o ∈ st.assignedRoom, o = none) :
    Inv env st ∧ FreshAssign env st := by
  have hF : FreshAssign env st := by
    refine ⟨?_, ?_, hATn, hARn, ?_⟩
    · intro t ht pid hpid
      rw [hTS]
      exact initM_tsched_none _ _ _ _ _
    · intro r hr pid hpid
      rw [hRS]
      exact initM_rsched_none _ _ _ _ _
    · intro t ht
      rw [hTL]
      exact initM_load_zero _ _ _ _
  have hSh : ShapeOk env st := by
    refine ⟨?_, hATl, hARl, ?_, ?_, ?_, ?_, ?_, ?_, ?_, ?_⟩
    · rw [hPS]; simp
    · intro t ht pid hpid
      rw [hTS]
      exact initM_tsched_hasKey2 _ _ _ ht hpid
    · intro t ht
      rw [hTL]
      exact initM_load_hasKey _ _ _ ht
    · intro r hr pid hpid
      rw [hRS]
      exact initM_rsched_hasKey2 _ _ _ hr hpid
    · rw [hTS]; exact initM_tsched_keysNodup _ _ _
    · rw [hTS]; exact initM_tsched_innerNodup _ _ _
    · rw [hRS]; exact initM_rsched_keysNodup _ _ _
    · rw [hRS]; exact initM_rsched_innerNodup _ _ _
    · rw [hTL]; exact initM_load_keysNodup _ _ _
  have hPl : PlacedOk env st := by
    constructor
    · intro l hl i hi
      rw [hPS] at hl
      obtain ⟨_, _, hl⟩ := List.mem_map.mp hl
      rw [← hl] at hi
      simp at hi
    · rw [hPS, flatten_map_nil]
      exact List.nodup_nil
  exact ⟨inv_of_fresh env st hSh hF hPl, hF⟩

/-! ### The built environment is well-formed -/

theorem enum_mem_bound {α : Type} [Inhabited α] {l : List α} {p : Nat × α}
    (hp : p ∈ l.enum) : p.fst < l.length ∧ l.getD p.fst default = p.snd := by
  have h := List.mem_enum_iff_get?.mp hp
  obtain ⟨hl, hget⟩ := List.get?_eq_some.mp h
  refine ⟨hl, ?_⟩
  rw [getD_eq_getElem _ _ _ hl]
  simpa using hget

theorem teacherDomain_bound (teachers : List Teacher) (s : SectionS) :
    ∀ ti ∈ teacherDomain teachers s,
      ti < teachers.length ∧ 0 < (teachers.getD ti default).maxSections := by
  intro ti hti
  unfold teacherDomain at hti
  obtain ⟨p, hp, hpf⟩ := List.mem_map.mp hti
  obtain ⟨hmem, hpred⟩ := List.mem_filter.mp hp
  obtain ⟨hlt, hval⟩ := enum_mem_bound hmem
  have h2 : 0 < p.snd.maxSections := by
    simp only [Bool.and_eq_true, decide_eq_true_eq] at hpred
    exact hpred.2
  subst hpf
  exact ⟨hlt, by rw [hval]; exact h2⟩

theorem roomDomain_bound (classrooms : List Classroom) (s : SectionS) :
    ∀ ri ∈ roomDomain classrooms s, ri < classrooms.length := by
  intro ri hri
  unfold roomDomain at hri
  obtain ⟨p, hp, hpf⟩ := List.mem_map.mp hri
  obtain ⟨hmem, _⟩ := List.mem_filter.mp hp
  obtain ⟨hlt, _⟩ := enum_mem_bound hmem
  subst hpf
  exact hlt

theorem buildDomains_entries (teachers : List Teacher) (classrooms : List Classroom) :
    ∀ (sections : List SectionS) (acc : List (String × List Nat) × List (String × List Nat))
      (r : List (String × List Nat) × List (String × List Nat)),
      buildDomains teachers classrooms sections acc = .ok r →
      (∀ e ∈ acc.fst, ∃ s, e.snd = teacherDomain teachers s) →
      (∀ e ∈ acc.snd, ∃ s, e.snd = roomDomain classrooms s) →
      (∀ e ∈ r.fst, ∃ s, e.snd = teacherDomain teachers s) ∧
      (∀ e ∈ r.snd, ∃ s, e.snd = roomDomain classrooms s)
  | [], acc, r, h, hT, hR => by
    simp only [buildDomains, Except.ok.injEq] at h
    rw [← h]
    exact ⟨hT, hR⟩
  | s :: rest, acc, r, h, hT, hR => by
    have hunf : buildDomains teachers classrooms (s :: rest) acc =
        (if (teacherDomain teachers s).isEmpty then
          .error ("CRITICAL: Section " ++ s.sectionId ++ " has NO qualified teachers.")
        else if (roomDomain classrooms s).isEmpty then
          .error ("CRITICAL: Section " ++ s.sectionId ++ " has NO compatible rooms.")
        else
          buildDomains teachers classrooms rest
            (aIns acc.fst s.sectionId (teacherDomain teachers s),
             aIns acc.snd s.sectionId (roomDomain classrooms s))) := rfl
    rw [hunf] at h
    by_cases h1 : (teacherDomain teachers s).isEmpty
    · rw [if_pos h1] at h
      exact Except.noConfusion h
    · rw [if_neg h1] at h
      by_cases h2 : (roomDomain classrooms s).isEmpty
      · rw [if_pos h2] at h
        exact Except.noConfusion h
      · rw [if_neg h2] at h
        apply buildDomains_entries teachers classrooms rest _ r h
        · intro e he
          rcases mem_aIns_elim he with he' | he'
          · exact ⟨s, by rw [he']⟩
          · exact hT e he'
        · intro e he
          rcases mem_aIns_elim he with he' | he'
          · exact ⟨s, by rw [he']⟩
          · exact hR e he'

theorem insStable_perm {α : Type} (lt : α → α → Bool) (x : α) :
    ∀ l : List α, (insStable lt x l).Perm (x :: l)
  | [] => List.Perm.refl _
  | y :: ys => by
    unfold insStable
    by_cases h : lt x y
    · rw [if_pos h]
    · rw [if_neg h]
      exact ((insStable_perm lt x ys).cons y).trans (List.Perm.swap x y ys)

theorem foldl_insStable_perm {α : Type} (lt : α → α → Bool) :
    ∀ (xs acc : List α), (xs.foldl (fun acc x => insStable lt x acc) acc).Perm (acc ++ xs)
  | [], acc => by simp
  | x :: xs, acc => by
    have ih := foldl_insStable_perm lt xs (insStable lt x acc)
    have h1 : (insStable lt x acc ++ xs).Perm ((x :: acc) ++ xs) :=
      (insStable_perm lt x acc).append_right xs
    exact ih.trans (h1.trans List.perm_middle.symm)

theorem sortStable_perm {α : Type} (lt : α → α → Bool) (xs : List α) :
    (sortStable lt xs).Perm xs := by
  unfold sortStable
  simpa using foldl_insStable_perm lt xs []

theorem prioritized_perm (secs : List SectionS) (vT vR : List (String × List Nat)) :
    (prioritized secs vT vR).Perm (List.range secs.length) := by
  unfold prioritized
  exact sortStable_perm _ _

theorem envOf_wf {secs : List SectionS} {teachers : List Teacher}
    {classrooms : List Classroom} {periodIds : List String} {c0 : Ctx0}
    (h : buildContext secs teachers classrooms periodIds = .ok c0) :
    EnvWf (envOf secs teachers classrooms periodIds c0) := by
  unfold buildContext at h
  rcases hb : buildDomains teachers classrooms secs ([], []) with e | ⟨vT, vR⟩ <;>
    rw [hb] at h
  · exact Except.noConfusion h
  · simp only [Except.ok.injEq] at h
    have hvT : c0.validTeachers = vT := by rw [← h]
    have hvR : c0.validRooms = vR := by rw [← h]
    have hent := buildDomains_entries teachers classrooms secs ([], []) (vT, vR) hb
      (fun e he => absurd he (List.not_mem_nil e))
      (fun e he => absurd he (List.not_mem_nil e))
    have hperm : (prioritized secs c0.validTeachers c0.validRooms).Perm
        (List.range secs.length) := prioritized_perm secs _ _
    refine ⟨?_, ?_, ?_, ?_⟩
    · intro kl hkl ti hti
      have hkl' : kl ∈ vT := by rw [← hvT]; exact hkl
      obtain ⟨s, hs⟩ := hent.1 kl hkl'
      rw [hs] at hti
      exact teacherDomain_bound teachers s ti hti
    · intro kl hkl ri hri
      have hkl' : kl ∈ vR := by rw [← hvR]; exact hkl
      obtain ⟨s, hs⟩ := hent.2 kl hkl'
      rw [hs] at hri
      exact roomDomain_bound classrooms s ri hri
    · exact (hperm.nodup_iff).mpr (List.nodup_range _)
    · intro i hi
      exact List.mem_range.mp (hperm.subset hi)

/-! ### The initial and reset states are fresh -/

theorem initSt_fresh {secs : List SectionS} {teachers : List Teacher}
    {classrooms : List Classroom} {periodIds : List String} {c0 : Ctx0}
    (h : buildContext secs teachers classrooms periodIds = .ok c0) :
    Inv (envOf secs teachers classrooms periodIds c0)
        (initSt (envOf secs teachers classrooms periodIds c0) c0) ∧
      FreshAssign (envOf secs teachers classrooms periodIds c0)
        (initSt (envOf secs teachers classrooms periodIds c0) c0) := by
  obtain ⟨h1, h2, h3⟩ := buildContext_matrices h
  apply fresh_state_inv
  · rfl
  · exact h1
  · exact h2
  · exact h3
  · simp [initSt, envOf]
  · simp [initSt, envOf]
  · intro o ho
    obtain ⟨a, _, hao⟩ := List.mem_map.mp ho
    exact hao.symm
  · intro o ho
    obtain ⟨a, _, hao⟩ := List.mem_map.mp ho
    exact hao.symm

theorem resetState_fresh (env : Env) (st : St)
    (hATl : st.assignedTeacher.length = env.secs.length)
    (hARl : st.assignedRoom.length = env.secs.length) :
    Inv env (resetState env st) ∧ FreshAssign env (resetState env st) := by
  apply fresh_state_inv
  · rfl
  · rfl
  · rfl
  · rfl
  · simp [resetState, hATl]
  · simp [resetState, hARl]
  · intro o ho
    obtain ⟨a, _, hao⟩ := List.mem_map.mp ho
    exact hao.symm
  · intro o ho
    obtain ⟨a, _, hao⟩ := List.mem_map.mp ho
    exact hao.symm

theorem initSt_unplaced (env : Env) (c0 : Ctx0) (i : Nat) :
    UnplacedFrom env (initSt env c0) i := by
  intro j hj
  refine ⟨?_, ?_, ?_⟩
  · apply getD_none_of_all
    intro o ho
    obtain ⟨a, _, hao⟩ := List.mem_map.mp ho
    exact hao.symm
  · apply getD_none_of_all
    intro o ho
    obtain ⟨a, _, hao⟩ := List.mem_map.mp ho
    exact hao.symm
  · intro l hl
    obtain ⟨a, _, hal⟩ := List.mem_map.mp hl
    rw [← hal]
    simp

/-! ### The fallback's period pass is total when periods exist -/

theorem placeLoop_total (env : Env) (c : String) (hnp : env.periodIds.length ≠ 0) :
    ∀ (secL : List Nat) (pCur : Nat) (st : St),
      ∃ r, placeLoop env c secL pCur st = .ok r
  | [], pCur, st => ⟨(pCur, st), rfl⟩
  | sIdx :: rest, pCur, st => by
    have hunf : placeLoop env c (sIdx :: rest) pCur st =
        (if (secOf env sIdx).requiredClassroomType ≠ c then
          placeLoop env c rest pCur st
        else if env.periodIds.length = 0 then
          .error "ZeroDivisionError: integer modulo by zero"
        else
          placeLoop env c rest (pCur + 1)
            { st with periodSections := st.periodSections.set (pCur % env.periodIds.length) (st.periodSections.getD (pCur % env.periodIds.length) [] ++ [sIdx]) }) := rfl
    rw [hunf]
    by_cases h1 : (secOf env sIdx).requiredClassroomType ≠ c
    · rw [if_pos h1]
      exact placeLoop_total env c hnp rest pCur st
    · rw [if_neg h1, if_neg hnp]
      exact placeLoop_total env c hnp rest (pCur + 1) _

theorem typesLoop_total (env : Env) (hnp : env.periodIds.length ≠ 0) :
    ∀ (cts : List String) (pCur : Nat) (st : St),
      ∃ r, typesLoop env cts pCur st = .ok r
  | [], pCur, st => ⟨(pCur, st), rfl⟩
  | c :: rest, pCur, st => by
    have hunf : typesLoop env (c :: rest) pCur st =
        (match placeLoop env c env.allSections pCur st with
        | .error e => .error e
        | .ok (pCur2, st2) => typesLoop env rest pCur2 st2) := rfl
    rw [hunf]
    obtain ⟨⟨p2, st2⟩, hp⟩ := placeLoop_total env c hnp env.allSections pCur st
    rw [hp]
    exact typesLoop_total env hnp rest p2 st2

theorem assignSecs_total (env : Env) (hnp : env.periodIds.length ≠ 0)
    (cts : List String) (st : St) :
    ∃ st2, assignSecsToPeriods env cts st = .ok st2 := by
  obtain ⟨⟨p2, st2⟩, h⟩ := typesLoop_total env hnp cts 0 st
  refine ⟨st2, ?_⟩
  unfold assignSecsToPeriods
  rw [h]

/-! ### The period pass: frame and flatten characterization -/

theorem placeLoop_frame (env : Env) (c : String) :
    ∀ (secL : List Nat) (pCur : Nat) (st : St) (p2 : Nat) (st2 : St),
      placeLoop env c secL pCur st = .ok (p2, st2) →
      st2.teacherSchedule = st.teacherSchedule ∧ st2.roomSchedule = st.roomSchedule ∧
      st2.teacherLoad = st.teacherLoad ∧ st2.assignedTeacher = st.assignedTeacher ∧
      st2.assignedRoom = st.assignedRoom ∧
      st2.periodSections.length = st.periodSections.length
  | [], pCur, st, p2, st2, h => by
    simp only [placeLoop, Except.ok.injEq, Prod.mk.injEq] at h
    rw [← h.2]
    exact ⟨rfl, rfl, rfl, rfl, rfl, rfl⟩
  | sIdx :: rest, pCur, st, p2, st2, h => by
    have hunf : placeLoop env c (sIdx :: rest) pCur st =
        (if (secOf env sIdx).requiredClassroomType ≠ c then
          placeLoop env c rest pCur st
        else if env.periodIds.length = 0 then
          .error "ZeroDivisionError: integer modulo by zero"
        else
          placeLoop env c rest (pCur + 1)
            { st with periodSections := st.periodSections.set (pCur % env.periodIds.length) (st.periodSections.getD (pCur % env.periodIds.length) [] ++ [sIdx]) }) := rfl
    rw [hunf] at h
    by_cases h1 : (secOf env sIdx).requiredClassroomType ≠ c
    · rw [if_pos h1] at h
      exact placeLoop_frame env c rest pCur st p2 st2 h
    · rw [if_neg h1] at h
      by_cases h2 : env.periodIds.length = 0
      · rw [if_pos h2] at h
        exact Except.noConfusion h
      · rw [if_neg h2] at h
        have ih := placeLoop_frame env c rest (pCur + 1) _ p2 st2 h
        simpa using ih

theorem placeLoop_flatten (env : Env) (c : String) :
    ∀ (secL : List Nat) (pCur : Nat) (st : St) (p2 : Nat) (st2 : St),
      st.periodSections.length = env.periodIds.length →
      placeLoop env c secL pCur st = .ok (p2, st2) →
      st2.periodSections.flatten.Perm
        (st.periodSections.flatten ++
          secL.filter (fun j => (secOf env j).requiredClassroomType == c))
  | [], pCur, st, p2, st2, _, h => by
    simp only [placeLoop, Except.ok.injEq, Prod.mk.injEq] at h
    rw [← h.2]
    simp
  | sIdx :: rest, pCur, st, p2, st2, hlen, h => by
    have hunf : placeLoop env c (sIdx :: rest) pCur st =
        (if (secOf env sIdx).requiredClassroomType ≠ c then
          placeLoop env c rest pCur st
        else if env.periodIds.length = 0 then
          .error "ZeroDivisionError: integer modulo by zero"
        else
          placeLoop env c rest (pCur + 1)
            { st with periodSections := st.periodSections.set (pCur % env.periodIds.length) (st.periodSections.getD (pCur % env.periodIds.length) [] ++ [sIdx]) }) := rfl
    rw [hunf] at h
    by_cases h1 : (secOf env sIdx).requiredClassroomType ≠ c
    · rw [if_pos h1] at h
      have hfc : ((secOf env sIdx).requiredClassroomType == c) = false := by
        simpa using h1
      rw [List.filter_cons, hfc]
      simp only [Bool.false_eq_true, if_false]
      exact placeLoop_flatten env c rest pCur st p2 st2 hlen h
    · rw [if_neg h1] at h
      by_cases h2 : env.periodIds.length = 0
      · rw [if_pos h2] at h
        exact Except.noConfusion h
      · rw [if_neg h2] at h
        have heq : (secOf env sIdx).requiredClassroomType = c := by
          by_contra hne
          exact h1 hne
        have hfc : ((secOf env sIdx).requiredClassroomType == c) = true := by
          simpa using heq
        have hjlt : pCur % env.periodIds.length < st.periodSections.length := by
          rw [hlen]
          exact Nat.mod_lt _ (Nat.pos_of_ne_zero h2)
        have ih := placeLoop_flatten env c rest (pCur + 1) _ p2 st2
          (by simpa using hlen) h
        have hstep := flatten_set_perm st.periodSections
          (pCur % env.periodIds.length) hjlt sIdx
        rw [List.filter_cons, hfc]
        simp only [if_true]
        apply ih.trans
        apply List.Perm.trans (hstep.append_right _)
        rw [List.append_assoc]
        exact List.Perm.refl _

theorem typesLoop_frame (env : Env) :
    ∀ (cts : List String) (pCur : Nat) (st : St) (p2 : Nat) (st2 : St),
      typesLoop env cts pCur st = .ok (p2, st2) →
      st2.teacherSchedule = st.teacherSchedule ∧ st2.roomSchedule = st.roomSchedule ∧
      st2.teacherLoad = st.teacherLoad ∧ st2.assignedTeacher = st.assignedTeacher ∧
      st2.assignedRoom = st.assignedRoom ∧
      st2.periodSections.length = st.periodSections.length
  | [], pCur, st, p2, st2, h => by
    simp only [typesLoop, Except.ok.injEq, Prod.mk.injEq] at h
    rw [← h.2]
    exact ⟨rfl, rfl, rfl, rfl, rfl, rfl⟩
  | c :: rest, pCur, st, p2, st2, h => by
    have hunf : typesLoop env (c :: rest) pCur st =
        (match placeLoop env c env.allSections pCur st with
        | .error e => .error e
        | .ok (pCur2, st2) => typesLoop env rest pCur2 st2) := rfl
    rw [hunf] at h
    rcases hp : placeLoop env c env.allSections pCur st with e | ⟨pm, stm⟩ <;> rw [hp] at h
    · exact Except.noConfusion h
    · have h1 := placeLoop_frame env c env.allSections pCur st pm stm hp
      have h2 := typesLoop_frame env rest pm stm p2 st2 h
      exact ⟨h2.1.trans h1.1, h2.2.1.trans h1.2.1, h2.2.2.1.trans h1.2.2.1,
        h2.2.2.2.1.trans h1.2.2.2.1, h2.2.2.2.2.1.trans h1.2.2.2.2.1,
        h2.2.2.2.2.2.trans h1.2.2.2.2.2⟩

theorem typesLoop_flatten (env : Env) :
    ∀ (cts : List String) (pCur : Nat) (st : St) (p2 : Nat) (st2 : St),
      st.periodSections.length = env.periodIds.length →
      typesLoop env cts pCur st = .ok (p2, st2) →
      st2.periodSections.flatten.Perm
        (st.periodSections.flatten ++
          (cts.map (fun c =>
            env.allSections.filter
              (fun j => (secOf env j).requiredClassroomType == c))).flatten)
  | [], pCur, st, p2, st2, _, h => by
    simp only [typesLoop, Except.ok.injEq, Prod.mk.injEq] at h
    rw [← h.2]
    simp
  | c :: rest, pCur, st, p2, st2, hlen, h => by
    have hunf : typesLoop env (c :: rest) pCur st =
        (match placeLoop env c env.allSections pCur st with
        | .error e => .error e
        | .ok (pCur2, st2) => typesLoop env rest pCur2 st2) := rfl
    rw [hunf] at h
    rcases hp : placeLoop env c env.allSections pCur st with e | ⟨pm, stm⟩ <;> rw [hp] at h
    · exact Except.noConfusion h
    · have hlen2 : stm.periodSections.length = env.periodIds.length :=
        (placeLoop_frame env c env.allSections pCur st pm stm hp).2.2.2.2.2.trans hlen
      have h1 := placeLoop_flatten env c env.allSections pCur st pm stm hlen hp
      have h2 := typesLoop_flatten env rest pm stm p2 st2 hlen2 h
      apply h2.trans
      rw [List.map_cons, List.flatten_cons, ← List.append_assoc]
      exact h1.append_right _

/-! ### The per-label filter lists are disjoint and duplicate-free -/

theorem filters_nodup (env : Env) (hA : env.allSections.Nodup) :
    ∀ (cts : List String), cts.Nodup →
      ((cts.map (fun c =>
        env.allSections.filter
          (fun j => (secOf env j).requiredClassroomType == c))).flatten).Nodup
  | [], _ => by simp
  | c :: rest, hnd => by
    rw [List.nodup_cons] at hnd
    rw [List.map_cons, List.flatten_cons, List.nodup_append]
    refine ⟨hA.filter _, filters_nodup env hA rest hnd.2, ?_⟩
    intro x hx hx2
    obtain ⟨hxa, hxc⟩ := List.mem_filter.mp hx
    obtain ⟨l2, hl2, hxl2⟩ := List.mem_flatten.mp hx2
    obtain ⟨c', hc', hlc'⟩ := List.mem_map.mp hl2
    rw [← hlc'] at hxl2
    obtain ⟨_, hxc'⟩ := List.mem_filter.mp hxl2
    have h1 : (secOf env x).requiredClassroomType = c := by simpa using hxc
    have h2 : (secOf env x).requiredClassroomType = c' := by simpa using hxc'
    rw [h1] at h2
    rw [h2] at hnd
    exact hnd.1 hc'

/-- The whole period-assignment pass, from a fresh state: the invariant
holds afterwards when the labels are duplicate-free, all assignment fields
and scoreboard entries are untouched, and the period lists' contents are
exactly the per-label filters of `all_sections`. -/
theorem assignSecs_inv (env : Env) (cts : List String) (st st2 : St)
    (hE : EnvWf env)
    (hPS : st.periodSections = env.periodIds.map (fun _ => []))
    (hInv : Inv env st) (hF : FreshAssign env st)
    (hcts : cts.Nodup)
    (h : assignSecsToPeriods env cts st = .ok st2) :
    Inv env st2 ∧ FreshAssign env st2 ∧
    st2.assignedTeacher = st.assignedTeacher ∧ st2.assignedRoom = st.assignedRoom := by
  unfold assignSecsToPeriods at h
  rcases ht : typesLoop env cts 0 st with e | ⟨p2, stm⟩ <;> rw [ht] at h
  · exact Except.noConfusion h
  · simp only [Except.ok.injEq] at h
    rw [← h]
    have hlen : st.periodSections.length = env.periodIds.length := hInv.1.1.1
    obtain ⟨f1, f2, f3, f4, f5, f6⟩ := typesLoop_frame env cts 0 st p2 stm ht
    have hflat := typesLoop_flatten env cts 0 st p2 stm hlen ht
    rw [hPS, flatten_map_nil] at hflat
    simp only [List.nil_append] at hflat
    have hSh2 : ShapeOk env stm := by
      obtain ⟨s1, s2, s3, s4, s5, s6, s7, s8, s9, s10, s11⟩ := hInv.1.1
      refine ⟨f6.trans s1, by rw [f4]; exact s2, by rw [f5]; exact s3, ?_, ?_, ?_, ?_, ?_, ?_, ?_, ?_⟩
      · intro t ht' pid hpid
        rw [f1]
        exact s4 t ht' pid hpid
      · intro t ht'
        rw [f3]
        exact s5 t ht'
      · intro r hr pid hpid
        rw [f2]
        exact s6 r hr pid hpid
      · rw [f1]; exact s7
      · rw [f1]; exact s8
      · rw [f2]; exact s9
      · rw [f2]; exact s10
      · rw [f3]; exact s11
    have hF2 : FreshAssign env stm := by
      obtain ⟨g1, g2, g3, g4, g5⟩ := hF
      refine ⟨?_, ?_, ?_, ?_, ?_⟩
      · intro t ht' pid hpid
        rw [f1]
        exact g1 t ht' pid hpid
      · intro r hr pid hpid
        rw [f2]
        exact g2 r hr pid hpid
      · intro o ho
        rw [f4] at ho
        exact g3 o ho
      · intro o ho
        rw [f5] at ho
        exact g4 o ho
      · intro t ht'
        rw [f3]
        exact g5 t ht'
    have hPl2 : PlacedOk env stm := by
      constructor
      · intro l hl i hi
        have hmem : i ∈ stm.periodSections.flatten := List.mem_flatten.mpr ⟨l, hl, hi⟩
        have hmem2 := hflat.subset hmem
        obtain ⟨l2, hl2, hil2⟩ := List.mem_flatten.mp hmem2
        obtain ⟨c', _, hlc'⟩ := List.mem_map.mp hl2
        rw [← hlc'] at hil2
        obtain ⟨hia, _⟩ := List.mem_filter.mp hil2
        exact hE.2.2.2 i hia
      · exact (hflat.nodup_iff).mpr (filters_nodup env hE.2.2.1 cts hcts)
    exact ⟨inv_of_fresh env stm hSh2 hF2 hPl2, hF2, f4, f5⟩

/-! ### Domain lookups are bounded on a well-formed environment -/

theorem validTs_bound {env : Env} (hE : EnvWf env) (sIdx : Nat) :
    ∀ ti ∈ validTs env sIdx,
      ti < env.teachers.length ∧ 0 < (teacherOf env ti).maxSections := by
  intro ti hti
  unfold validTs aGetD at hti
  rcases hg : aGet env.validTeachers (secOf env sIdx).sectionId with _ | l
  · rw [hg] at hti
    simp at hti
  · rw [hg] at hti
    simp only [Option.getD_some] at hti
    exact hE.1 _ (aGet_mem hg) ti hti

theorem validRs_bound {env : Env} (hE : EnvWf env) (sIdx : Nat) :
    ∀ ri ∈ validRs env sIdx, ri < env.classrooms.length := by
  intro ri hri
  unfold validRs aGetD at hri
  rcases hg : aGet env.validRooms (secOf env sIdx).sectionId with _ | l
  · rw [hg] at hri
    simp at hri
  · rw [hg] at hri
    simp only [Option.getD_some] at hri
    exact hE.2.1 _ (aGet_mem hg) ri hri

/-! ### The room pass preserves the core invariant -/

theorem roomLoop_cases (env : Env) (pid : String) (sIdx : Nat) :
    ∀ (rs : List Nat) (used : List String) (st : St),
      (roomLoop env pid sIdx rs used st).snd = st ∨
      ∃ ri ∈ rs, a2Get st.roomSchedule (roomOf env ri).name pid = none ∧
        (roomLoop env pid sIdx rs used st).snd = roomAssign env pid sIdx ri st
  | [], used, st => Or.inl rfl
  | ri :: rest, used, st => by
    have hunf : roomLoop env pid sIdx (ri :: rest) used st =
        (if used.contains (roomOf env ri).name then roomLoop env pid sIdx rest used st
        else if a2Get st.roomSchedule (roomOf env ri).name pid ≠ none then
          roomLoop env pid sIdx rest (used ++ [(roomOf env ri).name]) st
        else
          (used ++ [(roomOf env ri).name], roomAssign env pid sIdx ri st)) := rfl
    rw [hunf]
    by_cases h1 : used.contains (roomOf env ri).name
    · rw [if_pos h1]
      rcases roomLoop_cases env pid sIdx rest used st with h | ⟨rj, hrj, hfree, heq⟩
      · exact Or.inl h
      · exact Or.inr ⟨rj, List.mem_cons_of_mem _ hrj, hfree, heq⟩
    · rw [if_neg h1]
      by_cases h2 : a2Get st.roomSchedule (roomOf env ri).name pid ≠ none
      · rw [if_pos h2]
        rcases roomLoop_cases env pid sIdx rest _ st with h | ⟨rj, hrj, hfree, heq⟩
        · exact Or.inl h
        · exact Or.inr ⟨rj, List.mem_cons_of_mem _ hrj, hfree, heq⟩
      · rw [if_neg h2]
        have h2' : a2Get st.roomSchedule (roomOf env ri).name pid = none := by
          by_contra hc
          exact h2 hc
        exact Or.inr ⟨ri, List.mem_cons_self _ _, h2', rfl⟩

theorem roomAssign_core (env : Env) (st : St) (sIdx pIdx ri : Nat)
    (hC : Core env st)
    (hp : pIdx < env.periodIds.length)
    (hmem : sIdx ∈ st.periodSections.getD pIdx [])
    (hsR : st.assignedRoom.getD sIdx none = none)
    (hri : ri < env.classrooms.length)
    (hRFree : a2Get st.roomSchedule (roomOf env ri).name (pidOf env pIdx) = none) :
    Core env (roomAssign env (pidOf env pIdx) sIdx ri st) := by
  obtain ⟨hSh, hPl, hTS, hTF, hRS, hRF, hTB, hLd⟩ := hC
  obtain ⟨hL1, hL2, hL3, hK1, hK2, hK3, hN1, hN2, hN3, hN4, hN5⟩ := hSh
  have hpl : pIdx < st.periodSections.length := by rw [hL1]; exact hp
  have hsb : sIdx < env.secs.length := hPl.1 _ (getD_mem hpl []) sIdx hmem
  have hsl' : sIdx < st.assignedRoom.length := by rw [hL3]; exact hsb
  set rn := (roomOf env ri).name with hrn
  set pid0 := pidOf env pIdx with hpid0
  have hHKR : hasKey2 st.roomSchedule rn pid0 := hK3 _ (roomOf_mem hri) _ (pidOf_mem hp)
  have hps' : (roomAssign env pid0 sIdx ri st).periodSections = st.periodSections := rfl
  have haT' : (roomAssign env pid0 sIdx ri st).assignedTeacher = st.assignedTeacher := rfl
  have haR' : (roomAssign env pid0 sIdx ri st).assignedRoom =
      st.assignedRoom.set sIdx (some ri) := rfl
  have hTSe : (roomAssign env pid0 sIdx ri st).teacherSchedule = st.teacherSchedule := rfl
  have hRS' : (roomAssign env pid0 sIdx ri st).roomSchedule =
      a2Set st.roomSchedule rn pid0 (some sIdx) := rfl
  have hTL' : (roomAssign env pid0 sIdx ri st).teacherLoad = st.teacherLoad := rfl
  have hloceq : ∀ j pid, locatedAt env st j pid →
      locatedAt env (roomAssign env pid0 sIdx ri st) j pid := by
    intro j pid hloc
    obtain ⟨pIdx', hmem', hpid', hj⟩ := hloc
    refine ⟨pIdx', hmem', hpid', ?_⟩
    rw [hps']
    exact hj
  refine ⟨?_, ?_, ?_, ?_, ?_, ?_, ?_, ?_⟩
  · refine ⟨?_, ?_, ?_, ?_, ?_, ?_, ?_, ?_, ?_, ?_, ?_⟩
    · rw [hps']; exact hL1
    · rw [haT']; exact hL2
    · rw [haR', List.length_set]; exact hL3
    · intro t ht pid hpid
      rw [hTSe]
      exact hK1 t ht pid hpid
    · intro t ht
      rw [hTL']
      exact hK2 t ht
    · intro r hr pid hpid
      rw [hRS', hasKey2_a2Set]
      exact hK3 r hr pid hpid
    · rw [hTSe]; exact hN1
    · rw [hTSe]; exact hN2
    · rw [hRS']; exact keysNodup_a2Set hN3 _ _ _
    · rw [hRS']; exact innerKeysNodup_a2Set hN4 _ _ _
    · rw [hTL']; exact hN5
  · constructor
    · intro l hl i hi
      rw [hps'] at hl
      exact hPl.1 l hl i hi
    · rw [hps']
      exact hPl.2
  · intro t ht pid hpid sIdx' hmem'
    rw [hTSe] at hmem'
    obtain ⟨hb, hsome, hname, hloc⟩ := hTS t ht pid hpid sIdx' hmem'
    refine ⟨hb, ?_, ?_, hloceq _ _ hloc⟩
    · rw [haT']; exact hsome
    · rw [haT']; exact hname
  · intro pIdx' hpIdx' sIdx' hmem' ti hti
    rw [hps'] at hmem'
    rw [haT'] at hti
    rw [hTSe]
    exact hTF pIdx' hpIdx' sIdx' hmem' ti hti
  · intro r hr pid hpid sIdx' hmem'
    rw [hRS'] at hmem'
    by_cases hcase : r.name = rn ∧ pid = pid0
    · obtain ⟨he1, he2⟩ := hcase
      rw [he1, he2, a2Get_a2Set_self hHKR] at hmem'
      have hs' : sIdx' = sIdx := (by simpa using hmem' : sIdx = sIdx').symm
      subst hs'
      refine ⟨hsb, ?_, ?_, ?_⟩
      · rw [haR', getD_set_self hsl']; rfl
      · intro ri' hri'
        rw [haR', getD_set_self hsl'] at hri'
        have hee : ri' = ri := (by simpa using hri' : ri = ri').symm
        subst hee
        exact ⟨hri, he1.symm⟩
      · rw [he2]
        refine ⟨pIdx, by simpa using hp, rfl, ?_⟩
        rw [hps']
        exact hmem
    · have hne : r.name ≠ rn ∨ pid ≠ pid0 := by
        by_cases h1 : r.name = rn
        · right; intro h2; exact hcase ⟨h1, h2⟩
        · left; exact h1
      rw [a2Get_a2Set_ne hne] at hmem'
      obtain ⟨hb, hsome, hname, hloc⟩ := hRS r hr pid hpid sIdx' hmem'
      have hss : sIdx' ≠ sIdx := by
        intro h
        rw [h, hsR] at hsome
        simp at hsome
      refine ⟨hb, ?_, ?_, hloceq _ _ hloc⟩
      · rw [haR', getD_set_ne _ hss]
        exact hsome
      · intro ri' hri'
        rw [haR', getD_set_ne _ hss] at hri'
        exact hname ri' hri'
  · intro pIdx' hpIdx' sIdx' hmem' ri' hri'
    rw [hps'] at hmem'
    have hpl' : pIdx' < st.periodSections.length := by
      rw [hL1]; simpa using hpIdx'
    by_cases hss : sIdx' = sIdx
    · subst hss
      rw [haR', getD_set_self hsl'] at hri'
      have hee : ri' = ri := (by simpa using hri' : ri = ri').symm
      subst hee
      have hpe : pIdx' = pIdx := flatten_nodup_unique hPl.2 hpl' hpl hmem' hmem
      subst hpe
      rw [hRS', a2Get_a2Set_self hHKR]
    · rw [haR', getD_set_ne _ hss] at hri'
      have hold := hRF pIdx' hpIdx' sIdx' hmem' ri' hri'
      rw [hRS']
      have hne : (roomOf env ri').name ≠ rn ∨ pidOf env pIdx' ≠ pid0 := by
        by_cases h1 : (roomOf env ri').name = rn
        · by_cases h2 : pidOf env pIdx' = pid0
          · exfalso
            rw [h1, h2, hRFree] at hold
            exact Option.noConfusion hold
          · right; exact h2
        · left; exact h1
      rw [a2Get_a2Set_ne hne]
      exact hold
  · intro o ho ti hti
    rw [haT'] at ho
    exact hTB o ho ti hti
  · intro t ht
    have hcn : countName env (roomAssign env pid0 sIdx ri st) t.name =
        countName env st t.name := by
      unfold countName
      rw [haT']
    rw [hcn]
    have htl : aGetD (roomAssign env pid0 sIdx ri st).teacherLoad t.name 0 =
        aGetD st.teacherLoad t.name 0 := by rw [hTL']
    rw [htl]
    exact hLd t ht

theorem roomLoop_core (env : Env) (st : St) (sIdx pIdx : Nat) (rs : List Nat)
    (used : List String)
    (hC : Core env st)
    (hp : pIdx < env.periodIds.length)
    (hmem : sIdx ∈ st.periodSections.getD pIdx [])
    (hsR : st.assignedRoom.getD sIdx none = none)
    (hrs : ∀ ri ∈ rs, ri < env.classrooms.length) :
    Core env (roomLoop env (pidOf env pIdx) sIdx rs used st).snd ∧
    (∀ j, j ≠ sIdx →
      (roomLoop env (pidOf env pIdx) sIdx rs used st).snd.assignedRoom.getD j none =
        st.assignedRoom.getD j none) ∧
    (roomLoop env (pidOf env pIdx) sIdx rs used st).snd.periodSections = st.periodSections ∧
    (roomLoop env (pidOf env pIdx) sIdx rs used st).snd.assignedTeacher = st.assignedTeacher ∧
    (roomLoop env (pidOf env pIdx) sIdx rs used st).snd.teacherSchedule = st.teacherSchedule ∧
    (roomLoop env (pidOf env pIdx) sIdx rs used st).snd.teacherLoad = st.teacherLoad := by
  rcases roomLoop_cases env (pidOf env pIdx) sIdx rs used st with h | ⟨ri, hri, hfree, heq⟩
  · rw [h]
    exact ⟨hC, fun j _ => rfl, rfl, rfl, rfl, rfl⟩
  · rw [heq]
    refine ⟨roomAssign_core env st sIdx pIdx ri hC hp hmem hsR (hrs ri hri) hfree,
      ?_, rfl, rfl, rfl, rfl⟩
    intro j hj
    show (st.assignedRoom.set sIdx (some ri)).getD j none = st.assignedRoom.getD j none
    exact getD_set_ne _ hj _ _

theorem roomSecsLoop_core (env : Env) (pIdx : Nat) (hp : pIdx < env.periodIds.length)
    (hE : EnvWf env) :
    ∀ (l : List Nat) (used : List String) (st : St),
      Core env st →
      (∀ j ∈ l, j ∈ st.periodSections.getD pIdx []) →
      (∀ j ∈ l, st.assignedRoom.getD j none = none) →
      l.Nodup →
      Core env (roomSecsLoop env (pidOf env pIdx) l used st).snd ∧
      (∀ j, j ∉ l →
        (roomSecsLoop env (pidOf env pIdx) l used st).snd.assignedRoom.getD j none =
          st.assignedRoom.getD j none) ∧
      (roomSecsLoop env (pidOf env pIdx) l used st).snd.periodSections = st.periodSections ∧
      (roomSecsLoop env (pidOf env pIdx) l used st).snd.assignedTeacher = st.assignedTeacher ∧
      (roomSecsLoop env (pidOf env pIdx) l used st).snd.teacherSchedule = st.teacherSchedule ∧
      (roomSecsLoop env (pidOf env pIdx) l used st).snd.teacherLoad = st.teacherLoad
  | [], used, st, hC, _, _, _ => ⟨hC, fun j _ => rfl, rfl, rfl, rfl, rfl⟩
  | sIdx :: rest, used, st, hC, hmem, hnone, hnd => by
    have hunf : roomSecsLoop env (pidOf env pIdx) (sIdx :: rest) used st =
        roomSecsLoop env (pidOf env pIdx) rest
          (roomLoop env (pidOf env pIdx) sIdx (validRs env sIdx) used st).fst
          (roomLoop env (pidOf env pIdx) sIdx (validRs env sIdx) used st).snd := rfl
    rw [hunf]
    rw [List.nodup_cons] at hnd
    obtain ⟨hC1, hother, hps1, haT1, hTS1, hTL1⟩ :=
      roomLoop_core env st sIdx pIdx (validRs env sIdx) used hC hp
        (hmem sIdx (List.mem_cons_self _ _)) (hnone sIdx (List.mem_cons_self _ _))
        (fun ri hri => validRs_bound hE sIdx ri hri)
    obtain ⟨hC2, hother2, hps2, haT2, hTS2, hTL2⟩ :=
      roomSecsLoop_core env pIdx hp hE rest
        (roomLoop env (pidOf env pIdx) sIdx (validRs env sIdx) used st).fst
        (roomLoop env (pidOf env pIdx) sIdx (validRs env sIdx) used st).snd hC1
        (fun j hj => by
          rw [hps1]
          exact hmem j (List.mem_cons_of_mem _ hj))
        (fun j hj => by
          rw [hother j (fun he => hnd.1 (he ▸ hj))]
          exact hnone j (List.mem_cons_of_mem _ hj))
        hnd.2
    refine ⟨hC2, ?_, hps2.trans hps1, haT2.trans haT1, hTS2.trans hTS1, hTL2.trans hTL1⟩
    intro j hj
    rw [hother2 j (fun h => hj (List.mem_cons_of_mem _ h)),
      hother j (fun h => hj (h ▸ List.mem_cons_self sIdx rest))]

theorem roomPeriods_core (env : Env) (hE : EnvWf env) :
    ∀ (ps : List Nat) (st : St),
      Core env st →
      (∀ pIdx ∈ ps, pIdx < env.periodIds.length) →
      ps.Nodup →
      (∀ pIdx ∈ ps, ∀ j ∈ st.periodSections.getD pIdx [],
        st.assignedRoom.getD j none = none) →
      Core env (ps.foldl (fun acc pIdx =>
        (roomSecsLoop env (pidOf env pIdx) (acc.periodSections.getD pIdx []) [] acc).snd) st) ∧
      (∀ j, (∀ l ∈ st.periodSections, j ∉ l) →
        (ps.foldl (fun acc pIdx =>
          (roomSecsLoop env (pidOf env pIdx) (acc.periodSections.getD pIdx []) [] acc).snd)
            st).assignedRoom.getD j none = st.assignedRoom.getD j none) ∧
      (ps.foldl (fun acc pIdx =>
        (roomSecsLoop env (pidOf env pIdx) (acc.periodSections.getD pIdx []) [] acc).snd)
          st).periodSections = st.periodSections ∧
      (ps.foldl (fun acc pIdx =>
        (roomSecsLoop env (pidOf env pIdx) (acc.periodSections.getD pIdx []) [] acc).snd)
          st).assignedTeacher = st.assignedTeacher ∧
      (ps.foldl (fun acc pIdx =>
        (roomSecsLoop env (pidOf env pIdx) (acc.periodSections.getD pIdx []) [] acc).snd)
          st).teacherSchedule = st.teacherSchedule ∧
      (ps.foldl (fun acc pIdx =>
        (roomSecsLoop env (pidOf env pIdx) (acc.periodSections.getD pIdx []) [] acc).snd)
          st).teacherLoad = st.teacherLoad
  | [], st, hC, _, _, _ => ⟨hC, fun j _ => rfl, rfl, rfl, rfl, rfl⟩
  | pIdx :: rest, st, hC, hbnd, hnd, hroom => by
    rw [List.nodup_cons] at hnd
    have hp : pIdx < env.periodIds.length := hbnd pIdx (List.mem_cons_self _ _)
    have hlnd : (st.periodSections.getD pIdx []).Nodup := by
      by_cases hlt : pIdx < st.periodSections.length
      · exact nodup_of_mem_flatten hC.2.1.2 (getD_mem hlt [])
      · rw [getD_of_ge hlt]
        exact List.nodup_nil
    obtain ⟨hC1, hother1, hps1, haT1, hTS1, hTL1⟩ :=
      roomSecsLoop_core env pIdx hp hE (st.periodSections.getD pIdx []) [] st hC
        (fun j hj => hj) (hroom pIdx (List.mem_cons_self _ _)) hlnd
    have hfold : (pIdx :: rest).foldl (fun acc pIdx =>
        (roomSecsLoop env (pidOf env pIdx) (acc.periodSections.getD pIdx []) [] acc).snd) st =
        rest.foldl (fun acc pIdx =>
          (roomSecsLoop env (pidOf env pIdx) (acc.periodSections.getD pIdx []) [] acc).snd)
          (roomSecsLoop env (pidOf env pIdx) (st.periodSections.getD pIdx []) [] st).snd := rfl
    rw [hfold]
    obtain ⟨hC2, hother2, hps2, haT2, hTS2, hTL2⟩ :=
      roomPeriods_core env hE rest
        (roomSecsLoop env (pidOf env pIdx) (st.periodSections.getD pIdx []) [] st).snd hC1
        (fun pj hpj => hbnd pj (List.mem_cons_of_mem _ hpj)) hnd.2
        (fun pj hpj j hj => by
          rw [hps1] at hj
          have hjn : j ∉ st.periodSections.getD pIdx [] := by
            intro hmem2
            have hpjl : pj < st.periodSections.length := by
              rw [hC.1.1]
              exact hbnd pj (List.mem_cons_of_mem _ hpj)
            have hpl : pIdx < st.periodSections.length := by
              rw [hC.1.1]
              exact hp
            have := flatten_nodup_unique hC.2.1.2 hpjl hpl hj hmem2
            rw [this] at hpj
            exact hnd.1 hpj
          rw [hother1 j hjn]
          exact hroom pj (List.mem_cons_of_mem _ hpj) j hj)
    refine ⟨hC2, ?_, hps2.trans hps1, haT2.trans haT1, hTS2.trans hTS1, hTL2.trans hTL1⟩
    intro j hj
    have hj1 : j ∉ st.periodSections.getD pIdx [] := by
      intro hmem2
      by_cases hlt : pIdx < st.periodSections.length
      · exact hj _ (getD_mem hlt []) hmem2
      · rw [getD_of_ge hlt] at hmem2
        simp at hmem2
    rw [hother2 j (by rw [hps1]; exact hj), hother1 j hj1]

/-- `assign_classrooms_to_sections` preserves the core invariant from any
all-roomless state, leaves the other fields alone, and never touches a
section outside the period lists. -/
theorem assignClassrooms_core (env : Env) (hE : EnvWf env) (cts : List String) (st : St)
    (hC : Core env st)
    (hAR : ∀ o ∈ st.assignedRoom, o = none) :
    Core env (assignClassrooms env cts st) ∧
    (∀ j, (∀ l ∈ st.periodSections, j ∉ l) →
      (assignClassrooms env cts st).assignedRoom.getD j none = st.assignedRoom.getD j none) ∧
    (assignClassrooms env cts st).periodSections = st.periodSections ∧
    (assignClassrooms env cts st).assignedTeacher = st.assignedTeacher ∧
    (assignClassrooms env cts st).teacherSchedule = st.teacherSchedule ∧
    (assignClassrooms env cts st).teacherLoad = st.teacherLoad := by
  unfold assignClassrooms
  exact roomPeriods_core env hE (List.range env.periodIds.length) st hC
    (fun pIdx hp => List.mem_range.mp hp) (List.nodup_range _)
    (fun pIdx _ j _ => getD_none_of_all hAR j)

/-! ### The teacher pass preserves the core invariant -/

theorem located_unique_pid {env : Env} {st : St}
    (hND : st.periodSections.flatten.Nodup)
    (hL1 : st.periodSections.length = env.periodIds.length)
    {j : Nat} {pid1 pid2 : String}
    (h1 : locatedAt env st j pid1) (h2 : locatedAt env st j pid2) : pid1 = pid2 := by
  obtain ⟨p1, hp1, he1, hm1⟩ := h1
  obtain ⟨p2, hp2, he2, hm2⟩ := h2
  have hb1 : p1 < st.periodSections.length := by rw [hL1]; simpa using hp1
  have hb2 : p2 < st.periodSections.length := by rw [hL1]; simpa using hp2
  have hpp : p1 = p2 := flatten_nodup_unique hND hb1 hb2 hm1 hm2
  rw [← he1, ← he2, hpp]

theorem aSet_dec_inc {m : List (String × Int)} {k : String}
    (hk : hasKey m k) (hn : keysNodup m) :
    aSet (aSet m k (aGetD m k 0 - 1)) k
      (aGetD (aSet m k (aGetD m k 0 - 1)) k 0 + 1) = m := by
  obtain ⟨w, hw⟩ := Option.isSome_iff_exists.mp hk
  have hwD : aGetD m k 0 = w := by
    unfold aGetD
    rw [hw]
    rfl
  rw [aGetD_aSet_self hk, hwD, aSet_aSet]
  have harith : w - 1 + 1 = w := by omega
  rw [harith]
  apply aSet_id
  intro e he hkk
  exact aGet_entries hn hw e he hkk

theorem directLoop_cases (env : Env) (pid : String) (sIdx : Nat) :
    ∀ (ts : List Nat) (st : St),
      directLoop env pid sIdx ts st = st ∨
      ∃ ti ∈ ts,
        a2Get st.teacherSchedule (teacherOf env ti).name pid = none ∧
        aGetD st.teacherLoad (teacherOf env ti).name 0 < (teacherOf env ti).maxSections ∧
        directLoop env pid sIdx ts st = directAssign env pid sIdx ti st
  | [], st => Or.inl rfl
  | ti :: rest, st => by
    have hunf : directLoop env pid sIdx (ti :: rest) st =
        (if a2Get st.teacherSchedule (teacherOf env ti).name pid = none ∧
            aGetD st.teacherLoad (teacherOf env ti).name 0 < (teacherOf env ti).maxSections then
          directAssign env pid sIdx ti st
        else directLoop env pid sIdx rest st) := rfl
    rw [hunf]
    by_cases h1 : a2Get st.teacherSchedule (teacherOf env ti).name pid = none ∧
        aGetD st.teacherLoad (teacherOf env ti).name 0 < (teacherOf env ti).maxSections
    · rw [if_pos h1]
      exact Or.inr ⟨ti, List.mem_cons_self _ _, h1.1, h1.2, rfl⟩
    · rw [if_neg h1]
      rcases directLoop_cases env pid sIdx rest st with h | ⟨tj, htj, hcond⟩
      · exact Or.inl h
      · exact Or.inr ⟨tj, List.mem_cons_of_mem _ htj, hcond⟩

theorem directAssign_core (env : Env) (st : St) (sIdx pIdx ti : Nat)
    (hC : Core env st)
    (hp : pIdx < env.periodIds.length)
    (hmem : sIdx ∈ st.periodSections.getD pIdx [])
    (hsT : st.assignedTeacher.getD sIdx none = none)
    (hti : ti < env.teachers.length)
    (hTFree : a2Get st.teacherSchedule (teacherOf env ti).name (pidOf env pIdx) = none)
    (hLoad : aGetD st.teacherLoad (teacherOf env ti).name 0 < (teacherOf env ti).maxSections) :
    Core env (directAssign env (pidOf env pIdx) sIdx ti st) ∧
    (MaxOk env st → MaxOk env (directAssign env (pidOf env pIdx) sIdx ti st)) ∧
    (∀ j, j ≠ sIdx →
      (directAssign env (pidOf env pIdx) sIdx ti st).assignedTeacher.getD j none =
        st.assignedTeacher.getD j none) := by
  obtain ⟨hSh, hPl, hTS, hTF, hRS, hRF, hTB, hLd⟩ := hC
  obtain ⟨hL1, hL2, hL3, hK1, hK2, hK3, hN1, hN2, hN3, hN4, hN5⟩ := hSh
  have hpl : pIdx < st.periodSections.length := by rw [hL1]; exact hp
  have hsb : sIdx < env.secs.length := hPl.1 _ (getD_mem hpl []) sIdx hmem
  have hsl : sIdx < st.assignedTeacher.length := by rw [hL2]; exact hsb
  have hHK2 : hasKey2 st.teacherSchedule (teacherOf env ti).name (pidOf env pIdx) :=
    hK1 _ (teacherOf_mem hti) _ (pidOf_mem hp)
  have hHKL : hasKey st.teacherLoad (teacherOf env ti).name := hK2 _ (teacherOf_mem hti)
  have hps' : (directAssign env (pidOf env pIdx) sIdx ti st).periodSections =
      st.periodSections := rfl
  have haR' : (directAssign env (pidOf env pIdx) sIdx ti st).assignedRoom =
      st.assignedRoom := rfl
  have hRSe : (directAssign env (pidOf env pIdx) sIdx ti st).roomSchedule =
      st.roomSchedule := rfl
  have haT' : (directAssign env (pidOf env pIdx) sIdx ti st).assignedTeacher =
      st.assignedTeacher.set sIdx (some ti) := rfl
  have hTS' : (directAssign env (pidOf env pIdx) sIdx ti st).teacherSchedule =
      a2Set st.teacherSchedule (teacherOf env ti).name (pidOf env pIdx) (some sIdx) := rfl
  have hTL' : (directAssign env (pidOf env pIdx) sIdx ti st).teacherLoad =
      aSet st.teacherLoad (teacherOf env ti).name
        (aGetD st.teacherLoad (teacherOf env ti).name 0 + 1) := rfl
  have hloceq : ∀ j pid, locatedAt env st j pid →
      locatedAt env (directAssign env (pidOf env pIdx) sIdx ti st) j pid := by
    intro j pid h
    obtain ⟨pIdx', h1, h2, h3⟩ := h
    refine ⟨pIdx', h1, h2, ?_⟩
    rw [hps']
    exact h3
  have haTs : (directAssign env (pidOf env pIdx) sIdx ti st).assignedTeacher.getD sIdx none =
      some ti := by
    rw [haT', getD_set_self hsl]
  have haTo : ∀ j, j ≠ sIdx →
      (directAssign env (pidOf env pIdx) sIdx ti st).assignedTeacher.getD j none =
        st.assignedTeacher.getD j none := by
    intro j hj
    rw [haT', getD_set_ne _ hj]
  refine ⟨⟨?_, ?_, ?_, ?_, ?_, ?_, ?_, ?_⟩, ?_, haTo⟩
  · refine ⟨?_, ?_, ?_, ?_, ?_, ?_, ?_, ?_, ?_, ?_, ?_⟩
    · rw [hps']; exact hL1
    · rw [haT', List.length_set]; exact hL2
    · rw [haR']; exact hL3
    · intro t ht pid hpid
      rw [hTS', hasKey2_a2Set]
      exact hK1 t ht pid hpid
    · intro t ht
      unfold hasKey
      rw [hTL', aGet_isSome_iff, keys_aSet, ← aGet_isSome_iff]
      exact hK2 t ht
    · intro r hr pid hpid
      rw [hRSe]
      exact hK3 r hr pid hpid
    · rw [hTS']; exact keysNodup_a2Set hN1 _ _ _
    · rw [hTS']; exact innerKeysNodup_a2Set hN2 _ _ _
    · rw [hRSe]; exact hN3
    · rw [hRSe]; exact hN4
    · unfold keysNodup
      rw [hTL', keys_aSet]
      exact hN5
  · constructor
    · intro l hl i hi
      rw [hps'] at hl
      exact hPl.1 l hl i hi
    · rw [hps']
      exact hPl.2
  · intro t ht pid hpid sIdx' hmem'
    rw [hTS'] at hmem'
    by_cases hcase : t.name = (teacherOf env ti).name ∧ pid = pidOf env pIdx
    · obtain ⟨he1, he2⟩ := hcase
      rw [he1, he2, a2Get_a2Set_self hHK2] at hmem'
      have hs' : sIdx' = sIdx := (by simpa using hmem' : sIdx = sIdx').symm
      subst hs'
      refine ⟨hsb, by rw [haTs]; rfl, ?_, ?_⟩
      · intro ti' hti'
        rw [haTs] at hti'
        have hee : ti' = ti := (by simpa using hti' : ti = ti').symm
        subst hee
        exact ⟨hti, he1.symm⟩
      · rw [he2]
        refine ⟨pIdx, by simpa using hp, rfl, ?_⟩
        rw [hps']
        exact hmem
    · have hne : t.name ≠ (teacherOf env ti).name ∨ pid ≠ pidOf env pIdx := by
        by_cases h1 : t.name = (teacherOf env ti).name
        · right; intro h2; exact hcase ⟨h1, h2⟩
        · left; exact h1
      rw [a2Get_a2Set_ne hne] at hmem'
      obtain ⟨hb, hsome, hname, hloc⟩ := hTS t ht pid hpid sIdx' hmem'
      have hss : sIdx' ≠ sIdx := by
        intro h
        rw [h, hsT] at hsome
        simp at hsome
      refine ⟨hb, ?_, ?_, hloceq _ _ hloc⟩
      · rw [haTo sIdx' hss]
        exact hsome
      · rw [haTo sIdx' hss]
        exact hname
  · intro pIdx' hpIdx' sIdx' hmem'' ti' hti'
    rw [hps'] at hmem''
    have hpl' : pIdx' < st.periodSections.length := by rw [hL1]; simpa using hpIdx'
    by_cases hss : sIdx' = sIdx
    · subst hss
      rw [haTs] at hti'
      have hee : ti' = ti := (by simpa using hti' : ti = ti').symm
      subst hee
      have hpe : pIdx' = pIdx := flatten_nodup_unique hPl.2 hpl' hpl hmem'' hmem
      subst hpe
      rw [hTS', a2Get_a2Set_self hHK2]
    · rw [haTo sIdx' hss] at hti'
      have hold := hTF pIdx' hpIdx' sIdx' hmem'' ti' hti'
      rw [hTS']
      have hne : (teacherOf env ti').name ≠ (teacherOf env ti).name ∨
          pidOf env pIdx' ≠ pidOf env pIdx := by
        by_cases h1 : (teacherOf env ti').name = (teacherOf env ti).name
        · by_cases h2 : pidOf env pIdx' = pidOf env pIdx
          · exfalso
            rw [h1, h2, hTFree] at hold
            exact Option.noConfusion hold
          · right; exact h2
        · left; exact h1
      rw [a2Get_a2Set_ne hne]
      exact hold
  · intro r hr pid hpid sIdx' hmem'
    rw [hRSe] at hmem'
    obtain ⟨hb, hsome, hname, hloc⟩ := hRS r hr pid hpid sIdx' hmem'
    refine ⟨hb, ?_, ?_, hloceq _ _ hloc⟩
    · rw [haR']; exact hsome
    · rw [haR']; exact hname
  · intro pIdx' hpIdx' sIdx' hmem'' ri' hri'
    rw [hps'] at hmem''
    rw [haR'] at hri'
    rw [hRSe]
    exact hRF pIdx' hpIdx' sIdx' hmem'' ri' hri'
  · intro o ho ti' hti'
    rw [haT'] at ho
    rcases List.mem_or_eq_of_mem_set ho with h | h
    · exact hTB o h ti' hti'
    · subst h
      have hee : ti' = ti := (by simpa using hti' : ti = ti').symm
      rw [hee]
      exact hti
  · intro t ht
    have hcnt := filter_length_set (cellNames env t.name) st.assignedTeacher sIdx hsl (some ti)
    rw [getD_eq_getElem _ _ _ hsl] at hcnt
    have hold : st.assignedTeacher[sIdx] = none := by
      rw [← getD_eq_getElem _ _ none hsl]
      exact hsT
    rw [hold, cellNames_none, cellNames_some] at hcnt
    simp only [Bool.false_eq_true, if_false, Nat.add_zero] at hcnt
    unfold countName
    rw [haT', hTL']
    have hJ := hLd t ht
    unfold countName at hJ
    by_cases hname : t.name = (teacherOf env ti).name
    · rw [hname] at hcnt hJ ⊢
      rw [aGetD_aSet_self hHKL]
      simp only [beq_self_eq_true, if_true] at hcnt
      omega
    · rw [aGetD_aSet_ne hname]
      have hceq : ((teacherOf env ti).name == t.name) = false := by
        simp only [beq_eq_false_iff_ne, ne_eq]
        exact fun h => hname h.symm
      rw [hceq] at hcnt
      simp only [Bool.false_eq_true, if_false, Nat.add_zero] at hcnt
      omega
  · intro hM tj htj
    have hcnt := filter_length_set (fun o => o == some tj) st.assignedTeacher sIdx hsl (some ti)
    rw [getD_eq_getElem _ _ _ hsl] at hcnt
    have hold : st.assignedTeacher[sIdx] = none := by
      rw [← getD_eq_getElem _ _ none hsl]
      exact hsT
    rw [hold] at hcnt
    simp only [show ((none : Option Nat) == some tj) = false from rfl, Bool.false_eq_true,
      if_false, Nat.add_zero] at hcnt
    unfold countIdx
    rw [haT']
    by_cases he : ti = tj
    · subst he
      simp only [beq_self_eq_true, if_true] at hcnt
      have h1 : countIdx st ti ≤ countName env st ((teacherOf env ti).name) :=
        countIdx_le_countName env st hti
      have h2 := hLd (teacherOf env ti) (teacherOf_mem hti)
      unfold countIdx at h1
      have h3 : ((teacherOf env ti).maxSections : Int) ≤ max (teacherOf env ti).maxSections 0 :=
        le_max_left _ _
      omega
    · have hne2 : ((some ti : Option Nat) == some tj) = false := by
        simp only [beq_eq_false_iff_ne, ne_eq, Option.some.injEq]
        exact he
      rw [hne2] at hcnt
      simp only [Bool.false_eq_true, if_false, Nat.add_zero] at hcnt
      have hMj := hM tj htj
      unfold countIdx at hMj
      omega

/-- The swap body preserves the core invariant; under pairwise-distinct
teacher names it also preserves the per-object load bound; and it touches
no section other than the blocked one and the conflicting one. -/
theorem performSwap_core (env : Env) (st : St) (sIdx csIdx qi ai pIdx : Nat)
    (hC : Core env st)
    (hp : pIdx < env.periodIds.length)
    (hmem : sIdx ∈ st.periodSections.getD pIdx [])
    (hsT : st.assignedTeacher.getD sIdx none = none)
    (hqi : qi < env.teachers.length)
    (hcell : a2Get st.teacherSchedule (teacherOf env qi).name (pidOf env pIdx) = some csIdx)
    (hai : ai < env.teachers.length)
    (hnm : (teacherOf env ai).name ≠ (teacherOf env qi).name)
    (hfree : a2Get st.teacherSchedule (teacherOf env ai).name (pidOf env pIdx) = none)
    (hload : aGetD st.teacherLoad (teacherOf env ai).name 0 <
      (teacherOf env ai).maxSections) :
    Core env (performSwap env (pidOf env pIdx) sIdx csIdx qi ai st) ∧
    ((env.teachers.map Teacher.name).Nodup → MaxOk env st →
      MaxOk env (performSwap env (pidOf env pIdx) sIdx csIdx qi ai st)) ∧
    (∀ j, j ≠ sIdx → j ≠ csIdx →
      (performSwap env (pidOf env pIdx) sIdx csIdx qi ai st).assignedTeacher.getD j none =
        st.assignedTeacher.getD j none) := by
  obtain ⟨hSh, hPl, hTS, hTF, hRS, hRF, hTB, hLd⟩ := hC
  obtain ⟨hL1, hL2, hL3, hK1, hK2, hK3, hN1, hN2, hN3, hN4, hN5⟩ := hSh
  have hpl : pIdx < st.periodSections.length := by rw [hL1]; exact hp
  have hsb : sIdx < env.secs.length := hPl.1 _ (getD_mem hpl []) sIdx hmem
  have hsl : sIdx < st.assignedTeacher.length := by rw [hL2]; exact hsb
  obtain ⟨hcsb, hcsome, hcname, hcloc⟩ :=
    hTS (teacherOf env qi) (teacherOf_mem hqi) (pidOf env pIdx) (pidOf_mem hp) csIdx
      (by rw [hcell]; rfl)
  obtain ⟨ti0, hti0⟩ := Option.isSome_iff_exists.mp hcsome
  obtain ⟨hti0b, hti0n⟩ := hcname ti0 (Option.mem_def.mpr hti0)
  have hcs : csIdx ≠ sIdx := by
    intro h
    rw [h, hsT] at hti0
    exact Option.noConfusion hti0
  have hcsl : csIdx < st.assignedTeacher.length := by rw [hL2]; exact hcsb
  have hHK2q : hasKey2 st.teacherSchedule (teacherOf env qi).name (pidOf env pIdx) :=
    hK1 _ (teacherOf_mem hqi) _ (pidOf_mem hp)
  have hHK2a : hasKey2 st.teacherSchedule (teacherOf env ai).name (pidOf env pIdx) :=
    hK1 _ (teacherOf_mem hai) _ (pidOf_mem hp)
  have hHKLq : hasKey st.teacherLoad (teacherOf env qi).name := hK2 _ (teacherOf_mem hqi)
  have hHKLa : hasKey st.teacherLoad (teacherOf env ai).name := hK2 _ (teacherOf_mem hai)
  have hps' : (performSwap env (pidOf env pIdx) sIdx csIdx qi ai st).periodSections =
      st.periodSections := rfl
  have haR' : (performSwap env (pidOf env pIdx) sIdx csIdx qi ai st).assignedRoom =
      st.assignedRoom := rfl
  have hRSe : (performSwap env (pidOf env pIdx) sIdx csIdx qi ai st).roomSchedule =
      st.roomSchedule := rfl
  have haT' : (performSwap env (pidOf env pIdx) sIdx csIdx qi ai st).assignedTeacher =
      (st.assignedTeacher.set csIdx (some ai)).set sIdx (some qi) := rfl
  have hTSraw : (performSwap env (pidOf env pIdx) sIdx csIdx qi ai st).teacherSchedule =
      a2Set (a2Set (a2Set st.teacherSchedule (teacherOf env ai).name (pidOf env pIdx)
          (some csIdx)) (teacherOf env qi).name (pidOf env pIdx) none)
        (teacherOf env qi).name (pidOf env pIdx) (some sIdx) := rfl
  have hTSsimp : (performSwap env (pidOf env pIdx) sIdx csIdx qi ai st).teacherSchedule =
      a2Set (a2Set st.teacherSchedule (teacherOf env ai).name (pidOf env pIdx) (some csIdx))
        (teacherOf env qi).name (pidOf env pIdx) (some sIdx) := by
    rw [hTSraw, a2Set_a2Set]
  have hkYq : hasKey (aSet st.teacherLoad (teacherOf env ai).name
      (aGetD st.teacherLoad (teacherOf env ai).name 0 + 1)) (teacherOf env qi).name :=
    (hasKey_aSet _ _ _ _).mpr hHKLq
  have hNY : keysNodup (aSet st.teacherLoad (teacherOf env ai).name
      (aGetD st.teacherLoad (teacherOf env ai).name 0 + 1)) := by
    unfold keysNodup
    rw [keys_aSet]
    exact hN5
  have hTLsimp : (performSwap env (pidOf env pIdx) sIdx csIdx qi ai st).teacherLoad =
      aSet st.teacherLoad (teacherOf env ai).name
        (aGetD st.teacherLoad (teacherOf env ai).name 0 + 1) := by
    have h0 : (performSwap env (pidOf env pIdx) sIdx csIdx qi ai st).teacherLoad =
        aSet (aSet (aSet st.teacherLoad (teacherOf env ai).name
              (aGetD st.teacherLoad (teacherOf env ai).name 0 + 1)) (teacherOf env qi).name
            (aGetD (aSet st.teacherLoad (teacherOf env ai).name
              (aGetD st.teacherLoad (teacherOf env ai).name 0 + 1))
              (teacherOf env qi).name 0 - 1)) (teacherOf env qi).name
          (aGetD (aSet (aSet st.teacherLoad (teacherOf env ai).name
              (aGetD st.teacherLoad (teacherOf env ai).name 0 + 1)) (teacherOf env qi).name
            (aGetD (aSet st.teacherLoad (teacherOf env ai).name
              (aGetD st.teacherLoad (teacherOf env ai).name 0 + 1))
              (teacherOf env qi).name 0 - 1)) (teacherOf env qi).name 0 + 1) := rfl
    rw [h0, aSet_dec_inc hkYq hNY]
  have hHK2qA : hasKey2 (a2Set st.teacherSchedule (teacherOf env ai).name (pidOf env pIdx)
      (some csIdx)) (teacherOf env qi).name (pidOf env pIdx) :=
    (hasKey2_a2Set _ _ _ _ _ _).mpr hHK2q
  have hcellq' : a2Get (performSwap env (pidOf env pIdx) sIdx csIdx qi ai st).teacherSchedule
      (teacherOf env qi).name (pidOf env pIdx) = some sIdx := by
    rw [hTSsimp, a2Get_a2Set_self hHK2qA]
  have hcella' : a2Get (performSwap env (pidOf env pIdx) sIdx csIdx qi ai st).teacherSchedule
      (teacherOf env ai).name (pidOf env pIdx) = some csIdx := by
    rw [hTSsimp, a2Get_a2Set_ne (Or.inl hnm), a2Get_a2Set_self hHK2a]
  have hcellother : ∀ n p, (n ≠ (teacherOf env qi).name ∨ p ≠ pidOf env pIdx) →
      (n ≠ (teacherOf env ai).name ∨ p ≠ pidOf env pIdx) →
      a2Get (performSwap env (pidOf env pIdx) sIdx csIdx qi ai st).teacherSchedule n p =
        a2Get st.teacherSchedule n p := by
    intro n p h1 h2
    rw [hTSsimp, a2Get_a2Set_ne h1, a2Get_a2Set_ne h2]
  have hloceq : ∀ j pid, locatedAt env st j pid →
      locatedAt env (performSwap env (pidOf env pIdx) sIdx csIdx qi ai st) j pid := by
    intro j pid h
    obtain ⟨pIdx', h1, h2, h3⟩ := h
    refine ⟨pIdx', h1, h2, ?_⟩
    rw [hps']
    exact h3
  have hlocs : locatedAt env st sIdx (pidOf env pIdx) := ⟨pIdx, by simpa using hp, rfl, hmem⟩
  have hpid_unique : ∀ {j : Nat} {pid1 pid2 : String},
      locatedAt env st j pid1 → locatedAt env st j pid2 → pid1 = pid2 :=
    fun h1 h2 => located_unique_pid hPl.2 hL1 h1 h2
  have haTs : (performSwap env (pidOf env pIdx) sIdx csIdx qi ai st).assignedTeacher.getD
      sIdx none = some qi := by
    rw [haT', getD_set_self (by rw [List.length_set]; exact hsl)]
  have haTc : (performSwap env (pidOf env pIdx) sIdx csIdx qi ai st).assignedTeacher.getD
      csIdx none = some ai := by
    rw [haT', getD_set_ne _ hcs, getD_set_self hcsl]
  have haTo : ∀ j, j ≠ sIdx → j ≠ csIdx →
      (performSwap env (pidOf env pIdx) sIdx csIdx qi ai st).assignedTeacher.getD j none =
        st.assignedTeacher.getD j none := by
    intro j h1 h2
    rw [haT', getD_set_ne _ h1, getD_set_ne _ h2]
  refine ⟨⟨?_, ?_, ?_, ?_, ?_, ?_, ?_, ?_⟩, ?_, haTo⟩
  · refine ⟨?_, ?_, ?_, ?_, ?_, ?_, ?_, ?_, ?_, ?_, ?_⟩
    · rw [hps']; exact hL1
    · rw [haT', List.length_set, List.length_set]; exact hL2
    · rw [haR']; exact hL3
    · intro t ht pid hpid
      rw [hTSsimp, hasKey2_a2Set, hasKey2_a2Set]
      exact hK1 t ht pid hpid
    · intro t ht
      unfold hasKey
      rw [hTLsimp, aGet_isSome_iff, keys_aSet, ← aGet_isSome_iff]
      exact hK2 t ht
    · intro r hr pid hpid
      rw [hRSe]
      exact hK3 r hr pid hpid
    · rw [hTSsimp]; exact keysNodup_a2Set (keysNodup_a2Set hN1 _ _ _) _ _ _
    · rw [hTSsimp]; exact innerKeysNodup_a2Set (innerKeysNodup_a2Set hN2 _ _ _) _ _ _
    · rw [hRSe]; exact hN3
    · rw [hRSe]; exact hN4
    · unfold keysNodup
      rw [hTLsimp, keys_aSet]
      exact hN5
  · constructor
    · intro l hl i hi
      rw [hps'] at hl
      exact hPl.1 l hl i hi
    · rw [hps']
      exact hPl.2
  · intro t ht pid hpid sIdx' hmem'
    by_cases hq : t.name = (teacherOf env qi).name ∧ pid = pidOf env pIdx
    · obtain ⟨he1, he2⟩ := hq
      rw [he1, he2, hcellq'] at hmem'
      have hs' : sIdx' = sIdx := (by simpa using hmem' : sIdx = sIdx').symm
      subst hs'
      refine ⟨hsb, by rw [haTs]; rfl, ?_, ?_⟩
      · intro ti' hti'
        rw [haTs] at hti'
        have hee : ti' = qi := (by simpa using hti' : qi = ti').symm
        subst hee
        exact ⟨hqi, he1.symm⟩
      · rw [he2]
        exact hloceq _ _ hlocs
    · by_cases ha : t.name = (teacherOf env ai).name ∧ pid = pidOf env pIdx
      · obtain ⟨he1, he2⟩ := ha
        rw [he1, he2, hcella'] at hmem'
        have hs' : sIdx' = csIdx := (by simpa using hmem' : csIdx = sIdx').symm
        subst hs'
        refine ⟨hcsb, by rw [haTc]; rfl, ?_, ?_⟩
        · intro ti' hti'
          rw [haTc] at hti'
          have hee : ti' = ai := (by simpa using hti' : ai = ti').symm
          subst hee
          exact ⟨hai, he1.symm⟩
        · rw [he2]
          exact hloceq _ _ hcloc
      · have h1 : t.name ≠ (teacherOf env qi).name ∨ pid ≠ pidOf env pIdx := by
          by_cases hx : t.name = (teacherOf env qi).name
          · right; intro hy; exact hq ⟨hx, hy⟩
          · left; exact hx
        have h2 : t.name ≠ (teacherOf env ai).name ∨ pid ≠ pidOf env pIdx := by
          by_cases hx : t.name = (teacherOf env ai).name
          · right; intro hy; exact ha ⟨hx, hy⟩
          · left; exact hx
        rw [hcellother t.name pid h1 h2] at hmem'
        obtain ⟨hb, hsome, hname, hloc⟩ := hTS t ht pid hpid sIdx' hmem'
        have hss : sIdx' ≠ sIdx := by
          intro h
          rw [h, hsT] at hsome
          simp at hsome
        have hsc : sIdx' ≠ csIdx := by
          intro h
          subst h
          have hn2 := hname ti0 (Option.mem_def.mpr hti0)
          have htq : t.name = (teacherOf env qi).name := by
            rw [← hn2.2]
            exact hti0n
          have hpne : pid ≠ pidOf env pIdx := by
            intro hy
            exact hq ⟨htq, hy⟩
          exact hpne (hpid_unique hloc hcloc)
        refine ⟨hb, ?_, ?_, hloceq _ _ hloc⟩
        · rw [haTo sIdx' hss hsc]
          exact hsome
        · rw [haTo sIdx' hss hsc]
          exact hname
  · intro pIdx' hpIdx' sIdx' hmem'' ti' hti'
    rw [hps'] at hmem''
    have hpl' : pIdx' < st.periodSections.length := by rw [hL1]; simpa using hpIdx'
    by_cases hss : sIdx' = sIdx
    · subst hss
      rw [haTs] at hti'
      have hee : ti' = qi := (by simpa using hti' : qi = ti').symm
      subst hee
      have hpe : pIdx' = pIdx := flatten_nodup_unique hPl.2 hpl' hpl hmem'' hmem
      subst hpe
      exact hcellq'
    · by_cases hsc : sIdx' = csIdx
      · subst hsc
        rw [haTc] at hti'
        have hee : ti' = ai := (by simpa using hti' : ai = ti').symm
        subst hee
        have hpe : pidOf env pIdx' = pidOf env pIdx :=
          hpid_unique (locatedAt_of_mem (by simpa using hpIdx') hmem'') hcloc
        rw [hpe]
        exact hcella'
      · rw [haTo sIdx' hss hsc] at hti'
        have hold := hTF pIdx' hpIdx' sIdx' hmem'' ti' hti'
        have h1 : (teacherOf env ti').name ≠ (teacherOf env qi).name ∨
            pidOf env pIdx' ≠ pidOf env pIdx := by
          by_cases hx : (teacherOf env ti').name = (teacherOf env qi).name
          · by_cases hy : pidOf env pIdx' = pidOf env pIdx
            · exfalso
              rw [hx, hy, hcell] at hold
              have : csIdx = sIdx' := by simpa using hold
              exact hsc this.symm
            · right; exact hy
          · left; exact hx
        have h2 : (teacherOf env ti').name ≠ (teacherOf env ai).name ∨
            pidOf env pIdx' ≠ pidOf env pIdx := by
          by_cases hx : (teacherOf env ti').name = (teacherOf env ai).name
          · by_cases hy : pidOf env pIdx' = pidOf env pIdx
            · exfalso
              rw [hx, hy, hfree] at hold
              exact Option.noConfusion hold
            · right; exact hy
          · left; exact hx
        rw [hcellother _ _ h1 h2]
        exact hold
  · intro r hr pid hpid sIdx' hmem'
    rw [hRSe] at hmem'
    obtain ⟨hb, hsome, hname, hloc⟩ := hRS r hr pid hpid sIdx' hmem'
    refine ⟨hb, ?_, ?_, hloceq _ _ hloc⟩
    · rw [haR']; exact hsome
    · rw [haR']; exact hname
  · intro pIdx' hpIdx' sIdx' hmem'' ri' hri'
    rw [hps'] at hmem''
    rw [haR'] at hri'
    rw [hRSe]
    exact hRF pIdx' hpIdx' sIdx' hmem'' ri' hri'
  · intro o ho ti' hti'
    rw [haT'] at ho
    rcases List.mem_or_eq_of_mem_set ho with h | h
    · rcases List.mem_or_eq_of_mem_set h with h2 | h2
      · exact hTB o h2 ti' hti'
      · subst h2
        have hee : ti' = ai := (by simpa using hti' : ai = ti').symm
        rw [hee]
        exact hai
    · subst h
      have hee : ti' = qi := (by simpa using hti' : qi = ti').symm
      rw [hee]
      exact hqi
  · intro t ht
    have hcnt1 := filter_length_set (cellNames env t.name) st.assignedTeacher csIdx hcsl (some ai)
    rw [getD_eq_getElem _ _ _ hcsl] at hcnt1
    have hcsel : st.assignedTeacher[csIdx] = some ti0 := by
      rw [← getD_eq_getElem _ _ none hcsl]
      exact hti0
    rw [hcsel, cellNames_some, cellNames_some, hti0n] at hcnt1
    have hslA : sIdx < (st.assignedTeacher.set csIdx (some ai)).length := by
      rw [List.length_set]
      exact hsl
    have hcnt2 := filter_length_set (cellNames env t.name)
      (st.assignedTeacher.set csIdx (some ai)) sIdx hslA (some qi)
    rw [getD_eq_getElem _ _ _ hslA] at hcnt2
    have hsel2 : (st.assignedTeacher.set csIdx (some ai))[sIdx] = none := by
      rw [← getD_eq_getElem _ _ none hslA, getD_set_ne _ hcs.symm]
      exact hsT
    rw [hsel2, cellNames_none, cellNames_some] at hcnt2
    simp only [Bool.false_eq_true, if_false, Nat.add_zero] at hcnt2
    have hgoal_cn : countName env (performSwap env (pidOf env pIdx) sIdx csIdx qi ai st)
        t.name = (((st.assignedTeacher.set csIdx (some ai)).set sIdx (some qi)).filter
          (cellNames env t.name)).length := by
      unfold countName
      rw [haT']
    rw [hgoal_cn, hTLsimp]
    have hJ := hLd t ht
    unfold countName at hJ
    by_cases hta : (teacherOf env ai).name = t.name
    · by_cases htq : (teacherOf env qi).name = t.name
      · exact absurd (hta.trans htq.symm) hnm
      · have e1 : ((teacherOf env ai).name == t.name) = true := by simpa using hta
        have e2 : ((teacherOf env qi).name == t.name) = false := by simpa using htq
        rw [e1, e2] at hcnt1
        rw [e2] at hcnt2
        simp only [if_true, Bool.false_eq_true, if_false, Nat.add_zero] at hcnt1 hcnt2
        rw [← hta] at hJ hcnt1 hcnt2 ⊢
        rw [aGetD_aSet_self hHKLa]
        omega
    · have e1 : ((teacherOf env ai).name == t.name) = false := by simpa using hta
      rw [e1] at hcnt1
      rw [aGetD_aSet_ne (fun h => hta h.symm)]
      by_cases htq : (teacherOf env qi).name = t.name
      · have e2 : ((teacherOf env qi).name == t.name) = true := by simpa using htq
        rw [e2] at hcnt1
        rw [e2] at hcnt2
        simp only [if_true, Bool.false_eq_true, if_false, Nat.add_zero] at hcnt1 hcnt2
        omega
      · have e2 : ((teacherOf env qi).name == t.name) = false := by simpa using htq
        rw [e2] at hcnt1
        rw [e2] at hcnt2
        simp only [Bool.false_eq_true, if_false, Nat.add_zero] at hcnt1 hcnt2
        omega
  · intro hnames hM tj htj
    have hti0q : ti0 = qi := names_inj hnames hti0b hqi hti0n
    have hcnt1 := filter_length_set (fun o => o == some tj) st.assignedTeacher csIdx hcsl
      (some ai)
    rw [getD_eq_getElem _ _ _ hcsl] at hcnt1
    have hcsel : st.assignedTeacher[csIdx] = some ti0 := by
      rw [← getD_eq_getElem _ _ none hcsl]
      exact hti0
    rw [hcsel, hti0q] at hcnt1
    have hslA : sIdx < (st.assignedTeacher.set csIdx (some ai)).length := by
      rw [List.length_set]
      exact hsl
    have hcnt2 := filter_length_set (fun o => o == some tj)
      (st.assignedTeacher.set csIdx (some ai)) sIdx hslA (some qi)
    rw [getD_eq_getElem _ _ _ hslA] at hcnt2
    have hsel2 : (st.assignedTeacher.set csIdx (some ai))[sIdx] = none := by
      rw [← getD_eq_getElem _ _ none hslA, getD_set_ne _ hcs.symm]
      exact hsT
    rw [hsel2] at hcnt2
    simp only [show ((none : Option Nat) == some tj) = false from rfl, Bool.false_eq_true,
      if_false, Nat.add_zero] at hcnt2
    unfold countIdx
    rw [haT']
    have hMj := hM tj htj
    unfold countIdx at hMj
    by_cases hja : tj = ai
    · rw [hja] at hcnt1 hcnt2 hMj ⊢
      have eaa : ((some ai : Option Nat) == some ai) = true := by simp
      have eqa : ((some qi : Option Nat) == some ai) = false := by
        simp only [beq_eq_false_iff_ne, ne_eq, Option.some.injEq]
        intro h
        exact hnm (by rw [h])
      rw [eaa, eqa] at hcnt1
      rw [eqa] at hcnt2
      simp only [if_true, Bool.false_eq_true, if_false, Nat.add_zero] at hcnt1 hcnt2
      have hcc := countIdx_le_countName env st hai
      have hLda := hLd (teacherOf env ai) (teacherOf_mem hai)
      unfold countIdx at hcc
      have hmax : ((teacherOf env ai).maxSections : Int) ≤
          max (teacherOf env ai).maxSections 0 := le_max_left _ _
      omega
    · by_cases hjq : tj = qi
      · rw [hjq] at hcnt1 hcnt2 hMj ⊢
        have eqq : ((some qi : Option Nat) == some qi) = true := by simp
        have eaq : ((some ai : Option Nat) == some qi) = false := by
          simp only [beq_eq_false_iff_ne, ne_eq, Option.some.injEq]
          intro h
          exact hnm (by rw [h])
        rw [eqq, eaq] at hcnt1
        rw [eqq] at hcnt2
        simp only [if_true, Bool.false_eq_true, if_false, Nat.add_zero] at hcnt1 hcnt2
        omega
      · have e1 : ((some qi : Option Nat) == some tj) = false := by
          simp only [beq_eq_false_iff_ne, ne_eq, Option.some.injEq]
          exact fun h => hjq h.symm
        have e2 : ((some ai : Option Nat) == some tj) = false := by
          simp only [beq_eq_false_iff_ne, ne_eq, Option.some.injEq]
          exact fun h => hja h.symm
        rw [e1, e2] at hcnt1
        rw [e1] at hcnt2
        simp only [Bool.false_eq_true, if_false, Nat.add_zero] at hcnt1 hcnt2
        omega

theorem teacherForSection_core (env : Env) (hE : EnvWf env) (st : St) (sIdx pIdx : Nat)
    (hC : Core env st)
    (hp : pIdx < env.periodIds.length)
    (hmem : sIdx ∈ st.periodSections.getD pIdx [])
    (hsT : st.assignedTeacher.getD sIdx none = none) :
    Core env (teacherForSection env (pidOf env pIdx) sIdx st) ∧
    ((env.teachers.map Teacher.name).Nodup → MaxOk env st →
      MaxOk env (teacherForSection env (pidOf env pIdx) sIdx st)) ∧
    (∀ j, j ≠ sIdx → st.assignedTeacher.getD j none = none →
      (teacherForSection env (pidOf env pIdx) sIdx st).assignedTeacher.getD j none = none) ∧
    (teacherForSection env (pidOf env pIdx) sIdx st).periodSections = st.periodSections ∧
    (teacherForSection env (pidOf env pIdx) sIdx st).assignedRoom = st.assignedRoom ∧
    (teacherForSection env (pidOf env pIdx) sIdx st).roomSchedule = st.roomSchedule := by
  have hsl : sIdx < st.assignedTeacher.length := by
    rw [hC.1.2.1]
    exact hC.2.1.1 _ (getD_mem (by rw [hC.1.1]; exact hp) []) sIdx hmem
  have hunf : teacherForSection env (pidOf env pIdx) sIdx st =
      (if (directLoop env (pidOf env pIdx) sIdx (validTs env sIdx) st).assignedTeacher.getD
          sIdx none ≠ none then
        directLoop env (pidOf env pIdx) sIdx (validTs env sIdx) st
      else swapLoop env (pidOf env pIdx) sIdx (validTs env sIdx)
        (directLoop env (pidOf env pIdx) sIdx (validTs env sIdx) st)) := by
    unfold teacherForSection
    rw [hsT]
  rcases directLoop_cases env (pidOf env pIdx) sIdx (validTs env sIdx) st with
    hd | ⟨ti, hti, hfree, hload, hd⟩
  · rw [hunf, hd, if_neg (by rw [hsT]; exact fun h => h rfl)]
    rcases swapLoop_cases env (pidOf env pIdx) sIdx (validTs env sIdx) st hsT hsl with
      hs | ⟨qi, hqi, csIdx, ai, hcell, hai, hnm, hfree', hload', hs⟩
    · rw [hs]
      exact ⟨hC, fun _ hM => hM, fun j _ h => h, rfl, rfl, rfl⟩
    · rw [hs]
      have hqib := (validTs_bound hE sIdx qi hqi).1
      have hcsIdx_facts := hC.2.2.1 (teacherOf env qi) (teacherOf_mem hqib) (pidOf env pIdx)
        (pidOf_mem hp) csIdx (by rw [hcell]; rfl)
      have haib := (validTs_bound hE csIdx ai hai).1
      obtain ⟨hCsw, hMsw, hOsw⟩ := performSwap_core env st sIdx csIdx qi ai pIdx
        ⟨hC.1, hC.2.1, hC.2.2.1, hC.2.2.2.1, hC.2.2.2.2.1, hC.2.2.2.2.2.1,
          hC.2.2.2.2.2.2.1, hC.2.2.2.2.2.2.2⟩
        hp hmem hsT hqib hcell haib hnm hfree' hload'
      refine ⟨hCsw, hMsw, ?_, rfl, rfl, rfl⟩
      intro j hj hnonej
      have hjc : j ≠ csIdx := by
        intro h
        have hc2 := hcsIdx_facts.2.1
        rw [← h, hnonej] at hc2
        simp at hc2
      rw [hOsw j hj hjc]
      exact hnonej
  · have htib := (validTs_bound hE sIdx ti hti).1
    obtain ⟨hCd, hMd, hOd⟩ := directAssign_core env st sIdx pIdx ti hC hp hmem hsT htib
      hfree hload
    have hsome : (directAssign env (pidOf env pIdx) sIdx ti st).assignedTeacher.getD sIdx
        none = some ti := by
      show (st.assignedTeacher.set sIdx (some ti)).getD sIdx none = some ti
      exact getD_set_self hsl _ _
    rw [hunf, hd, if_pos (by rw [hsome]; simp)]
    refine ⟨hCd, fun _ hM => hMd hM, ?_, rfl, rfl, rfl⟩
    intro j hj hnonej
    rw [hOd j hj]
    exact hnonej

theorem teacherSecs_core (env : Env) (hE : EnvWf env) (pIdx : Nat)
    (hp : pIdx < env.periodIds.length) :
    ∀ (l : List Nat) (st : St),
      Core env st →
      (∀ j ∈ l, j ∈ st.periodSections.getD pIdx []) →
      (∀ j ∈ l, st.assignedTeacher.getD j none = none) →
      l.Nodup →
      Core env (l.foldl (fun acc2 sIdx =>
        teacherForSection env (pidOf env pIdx) sIdx acc2) st) ∧
      ((env.teachers.map Teacher.name).Nodup → MaxOk env st → MaxOk env (l.foldl
        (fun acc2 sIdx => teacherForSection env (pidOf env pIdx) sIdx acc2) st)) ∧
      (∀ j, j ∉ l → st.assignedTeacher.getD j none = none →
        (l.foldl (fun acc2 sIdx => teacherForSection env (pidOf env pIdx) sIdx acc2)
          st).assignedTeacher.getD j none = none) ∧
      (l.foldl (fun acc2 sIdx => teacherForSection env (pidOf env pIdx) sIdx acc2)
        st).periodSections = st.periodSections ∧
      (l.foldl (fun acc2 sIdx => teacherForSection env (pidOf env pIdx) sIdx acc2)
        st).assignedRoom = st.assignedRoom ∧
      (l.foldl (fun acc2 sIdx => teacherForSection env (pidOf env pIdx) sIdx acc2)
        st).roomSchedule = st.roomSchedule
  | [], st, hC, _, _, _ => ⟨hC, fun _ hM => hM, fun j _ h => h, rfl, rfl, rfl⟩
  | sIdx :: rest, st, hC, hmem, hnone, hnd => by
    rw [List.nodup_cons] at hnd
    obtain ⟨hC1, hM1, hO1, hps1, haR1, hRS1⟩ := teacherForSection_core env hE st sIdx pIdx hC
      hp (hmem sIdx (List.mem_cons_self _ _)) (hnone sIdx (List.mem_cons_self _ _))
    have hfold : (sIdx :: rest).foldl (fun acc2 s =>
        teacherForSection env (pidOf env pIdx) s acc2) st =
        rest.foldl (fun acc2 s => teacherForSection env (pidOf env pIdx) s acc2)
          (teacherForSection env (pidOf env pIdx) sIdx st) := rfl
    rw [hfold]
    obtain ⟨hC2, hM2, hO2, hps2, haR2, hRS2⟩ := teacherSecs_core env hE pIdx hp rest
      (teacherForSection env (pidOf env pIdx) sIdx st) hC1
      (fun j hj => by
        rw [hps1]
        exact hmem j (List.mem_cons_of_mem _ hj))
      (fun j hj => hO1 j (fun he => hnd.1 (he ▸ hj)) (hnone j (List.mem_cons_of_mem _ hj)))
      hnd.2
    refine ⟨hC2, ?_, ?_, hps2.trans hps1, haR2.trans haR1, hRS2.trans hRS1⟩
    · intro hnames hM
      exact hM2 hnames (hM1 hnames hM)
    · intro j hj hnonej
      exact hO2 j (fun h => hj (List.mem_cons_of_mem _ h))
        (hO1 j (fun h => hj (h ▸ List.mem_cons_self sIdx rest)) hnonej)

theorem teacherPeriods_core (env : Env) (hE : EnvWf env) :
    ∀ (ps : List Nat) (st : St),
      Core env st →
      (∀ pIdx ∈ ps, pIdx < env.periodIds.length) →
      ps.Nodup →
      (∀ pIdx ∈ ps, ∀ j ∈ st.periodSections.getD pIdx [],
        st.assignedTeacher.getD j none = none) →
      Core env (ps.foldl (fun acc pIdx => (acc.periodSections.getD pIdx []).foldl
        (fun acc2 sIdx => teacherForSection env (pidOf env pIdx) sIdx acc2) acc) st) ∧
      ((env.teachers.map Teacher.name).Nodup → MaxOk env st → MaxOk env
        (ps.foldl (fun acc pIdx => (acc.periodSections.getD pIdx []).foldl
          (fun acc2 sIdx => teacherForSection env (pidOf env pIdx) sIdx acc2) acc) st)) ∧
      (∀ j, (∀ l ∈ st.periodSections, j ∉ l) → st.assignedTeacher.getD j none = none →
        (ps.foldl (fun acc pIdx => (acc.periodSections.getD pIdx []).foldl
          (fun acc2 sIdx => teacherForSection env (pidOf env pIdx) sIdx acc2) acc)
            st).assignedTeacher.getD j none = none) ∧
      (ps.foldl (fun acc pIdx => (acc.periodSections.getD pIdx []).foldl
        (fun acc2 sIdx => teacherForSection env (pidOf env pIdx) sIdx acc2) acc)
          st).periodSections = st.periodSections ∧
      (ps.foldl (fun acc pIdx => (acc.periodSections.getD pIdx []).foldl
        (fun acc2 sIdx => teacherForSection env (pidOf env pIdx) sIdx acc2) acc)
          st).assignedRoom = st.assignedRoom ∧
      (ps.foldl (fun acc pIdx => (acc.periodSections.getD pIdx []).foldl
        (fun acc2 sIdx => teacherForSection env (pidOf env pIdx) sIdx acc2) acc)
          st).roomSchedule = st.roomSchedule
  | [], st, hC, _, _, _ => ⟨hC, fun _ hM => hM, fun j _ h => h, rfl, rfl, rfl⟩
  | pIdx :: rest, st, hC, hbnd, hnd, hteach => by
    rw [List.nodup_cons] at hnd
    have hp : pIdx < env.periodIds.length := hbnd pIdx (List.mem_cons_self _ _)
    have hlnd : (st.periodSections.getD pIdx []).Nodup := by
      by_cases hlt : pIdx < st.periodSections.length
      · exact nodup_of_mem_flatten hC.2.1.2 (getD_mem hlt [])
      · rw [getD_of_ge hlt]
        exact List.nodup_nil
    obtain ⟨hC1, hM1, hO1, hps1, haR1, hRS1⟩ := teacherSecs_core env hE pIdx hp
      (st.periodSections.getD pIdx []) st hC (fun j hj => hj)
      (hteach pIdx (List.mem_cons_self _ _)) hlnd
    have hfold : (pIdx :: rest).foldl (fun acc pj => (acc.periodSections.getD pj []).foldl
        (fun acc2 sIdx => teacherForSection env (pidOf env pj) sIdx acc2) acc) st =
        rest.foldl (fun acc pj => (acc.periodSections.getD pj []).foldl
          (fun acc2 sIdx => teacherForSection env (pidOf env pj) sIdx acc2) acc)
          ((st.periodSections.getD pIdx []).foldl
            (fun acc2 sIdx => teacherForSection env (pidOf env pIdx) sIdx acc2) st) := rfl
    rw [hfold]
    obtain ⟨hC2, hM2, hO2, hps2, haR2, hRS2⟩ := teacherPeriods_core env hE rest
      ((st.periodSections.getD pIdx []).foldl
        (fun acc2 sIdx => teacherForSection env (pidOf env pIdx) sIdx acc2) st) hC1
      (fun pj hpj => hbnd pj (List.mem_cons_of_mem _ hpj)) hnd.2
      (fun pj hpj j hj => by
        rw [hps1] at hj
        have hjn : j ∉ st.periodSections.getD pIdx [] := by
          intro hmem2
          have hpjl : pj < st.periodSections.length := by
            rw [hC.1.1]
            exact hbnd pj (List.mem_cons_of_mem _ hpj)
          have hpll : pIdx < st.periodSections.length := by
            rw [hC.1.1]
            exact hp
          have hpe := flatten_nodup_unique hC.2.1.2 hpjl hpll hj hmem2
          rw [hpe] at hpj
          exact hnd.1 hpj
        exact hO1 j hjn (hteach pj (List.mem_cons_of_mem _ hpj) j hj))
    refine ⟨hC2, ?_, ?_, hps2.trans hps1, haR2.trans haR1, hRS2.trans hRS1⟩
    · intro hnames hM
      exact hM2 hnames (hM1 hnames hM)
    · intro j hj hnonej
      have hj1 : j ∉ st.periodSections.getD pIdx [] := by
        intro hmem2
        by_cases hlt : pIdx < st.periodSections.length
        · exact hj _ (getD_mem hlt []) hmem2
        · rw [getD_of_ge hlt] at hmem2
          simp at hmem2
      exact hO2 j (by rw [hps1]; exact hj) (hO1 j hj1 hnonej)

/-- `assign_teachers_to_sections` preserves the core invariant from any
all-teacherless state, preserves the load bound when teacher names are
pairwise distinct, leaves rooms and period lists alone, and never assigns
a teacher to a section outside the period lists. -/
theorem assignTeachers_core (env : Env) (hE : EnvWf env) (st : St)
    (hC : Core env st)
    (hAT : ∀ o ∈ st.assignedTeacher, o = none) :
    Core env (assignTeachers env st) ∧
    ((env.teachers.map Teacher.name).Nodup → MaxOk env st →
      MaxOk env (assignTeachers env st)) ∧
    (∀ j, (∀ l ∈ st.periodSections, j ∉ l) →
      (assignTeachers env st).assignedTeacher.getD j none = none) ∧
    (assignTeachers env st).periodSections = st.periodSections ∧
    (assignTeachers env st).assignedRoom = st.assignedRoom ∧
    (assignTeachers env st).roomSchedule = st.roomSchedule := by
  unfold assignTeachers
  obtain ⟨h1, h2, h3, h4, h5, h6⟩ := teacherPeriods_core env hE
    (List.range env.periodIds.length) st hC (fun pIdx hp => List.mem_range.mp hp)
    (List.nodup_range _) (fun pIdx _ j _ => getD_none_of_all hAT j)
  exact ⟨h1, h2, fun j hj => h3 j hj (getD_none_of_all hAT j), h4, h5, h6⟩

/-- After a successful `run_scheduler` with duplicate-free room-type
labels, the final state satisfies the core invariant; with pairwise
distinct teacher names the per-object load bound also holds. -/
theorem runScheduler_core {classroomTypes : List String} {classrooms : List Classroom}
    {classList : List String} {classes : List ClassC} {teachers : List Teacher}
    {periodIds : List String} {env : Env} {st : St}
    (hok : runScheduler classroomTypes classrooms classList classes teachers periodIds =
      .ok (env, st))
    (hcts : classroomTypes.Nodup) :
    env.secs = generateSections classes ∧ env.teachers = teachers ∧
    EnvWf env ∧ Core env st ∧
    ((teachers.map Teacher.name).Nodup → MaxOk env st) := by
  simp only [runScheduler] at hok
  rcases hb : buildContext (generateSections classes) teachers classrooms periodIds with
    e0 | c0 <;> rw [hb] at hok <;> simp only [] at hok
  · exact Except.noConfusion hok
  · have hE : EnvWf (envOf (generateSections classes) teachers classrooms periodIds c0) :=
      envOf_wf hb
    obtain ⟨hInv0, hF0⟩ := initSt_fresh hb
    have hspec : ((solveFull (envOf (generateSections classes) teachers classrooms periodIds
          c0) (initSt (envOf (generateSections classes) teachers classrooms periodIds c0)
          c0) 0).fst = false →
        (solveFull (envOf (generateSections classes) teachers classrooms periodIds c0)
          (initSt (envOf (generateSections classes) teachers classrooms periodIds c0) c0)
          0).snd = initSt (envOf (generateSections classes) teachers classrooms periodIds
          c0) c0) ∧
        ((solveFull (envOf (generateSections classes) teachers classrooms periodIds c0)
          (initSt (envOf (generateSections classes) teachers classrooms periodIds c0) c0)
          0).fst = true →
        Inv (envOf (generateSections classes) teachers classrooms periodIds c0)
          (solveFull (envOf (generateSections classes) teachers classrooms periodIds c0)
            (initSt (envOf (generateSections classes) teachers classrooms periodIds c0) c0)
            0).snd) :=
      solveFullAux_spec _ hE _ 0 _ hInv0 (initSt_unplaced _ c0 0)
    rcases hs : solveFull (envOf (generateSections classes) teachers classrooms periodIds c0)
      (initSt (envOf (generateSections classes) teachers classrooms periodIds c0) c0) 0 with
      ⟨b, st1⟩
    rw [hs] at hok hspec
    cases b
    · simp only [] at hok
      have hst1 : st1 = initSt (envOf (generateSections classes) teachers classrooms
          periodIds c0) c0 := hspec.1 rfl
      have hlen1 : st1.assignedTeacher.length =
          (envOf (generateSections classes) teachers classrooms periodIds c0).secs.length := by
        rw [hst1]
        simp [initSt]
      have hlen2 : st1.assignedRoom.length =
          (envOf (generateSections classes) teachers classrooms periodIds c0).secs.length := by
        rw [hst1]
        simp [initSt]
      obtain ⟨hInvR, hFR⟩ := resetState_fresh
        (envOf (generateSections classes) teachers classrooms periodIds c0) st1 hlen1 hlen2
      rcases h2 : assignSecsToPeriods (envOf (generateSections classes) teachers classrooms
          periodIds c0) classroomTypes (resetState (envOf (generateSections classes) teachers
          classrooms periodIds c0) st1) with e2 | st2
      · rw [h2] at hok
        simp only [] at hok
        exact Except.noConfusion hok
      · rw [h2] at hok
        simp only [Except.ok.injEq, Prod.mk.injEq] at hok
        obtain ⟨henv, hst⟩ := hok
        obtain ⟨hInv2, hF2, haT2, haR2⟩ := assignSecs_inv _ classroomTypes _ st2 hE rfl
          hInvR hFR hcts h2
        have hAR2 : ∀ o ∈ st2.assignedRoom, o = none := by
          intro o ho
          rw [haR2] at ho
          exact hFR.2.2.2.1 o ho
        have hAT2n : ∀ o ∈ st2.assignedTeacher, o = none := by
          intro o ho
          rw [haT2] at ho
          exact hFR.2.2.1 o ho
        obtain ⟨hC3, _, hps3, haT3, _, _⟩ := assignClassrooms_core _ hE classroomTypes st2
          hInv2.1 hAR2
        have hAT3 : ∀ o ∈ (assignClassrooms (envOf (generateSections classes) teachers
            classrooms periodIds c0) classroomTypes st2).assignedTeacher, o = none := by
          intro o ho
          rw [haT3] at ho
          exact hAT2n o ho
        obtain ⟨hC4, hM4, _, _, _, _⟩ := assignTeachers_core _ hE _ hC3 hAT3
        rw [← henv, ← hst]
        refine ⟨rfl, rfl, hE, hC4, ?_⟩
        intro hnames
        exact hM4 hnames (maxOk_of_none hAT3)
    · simp only [] at hok
      have hInv1 : Inv (envOf (generateSections classes) teachers classrooms periodIds c0)
          st1 := hspec.2 rfl
      simp only [Except.ok.injEq, Prod.mk.injEq] at hok
      obtain ⟨henv, hst⟩ := hok
      rw [← henv, ← hst]
      exact ⟨rfl, rfl, hE, hInv1.1, fun _ => hInv1.2⟩

theorem core_period_distinct (env : Env) (st : St) (hC : Core env st)
    (hids : (env.secs.map SectionS.sectionId).Nodup) :
    ∀ pIdx ∈ List.range env.periodIds.length,
      (periodSecIds env st pIdx).Nodup ∧ (periodTeacherNames env st pIdx).Nodup ∧
      (periodRoomNames env st pIdx).Nodup := by
  intro pIdx hpIdx
  have hplt : pIdx < st.periodSections.length := by
    rw [hC.1.1]
    simpa using hpIdx
  have hlnd : (st.periodSections.getD pIdx []).Nodup :=
    nodup_of_mem_flatten hC.2.1.2 (getD_mem hplt [])
  have hbound : ∀ j ∈ st.periodSections.getD pIdx [], j < env.secs.length :=
    fun j hj => hC.2.1.1 _ (getD_mem hplt []) j hj
  refine ⟨?_, ?_, ?_⟩
  · unfold periodSecIds
    apply nodup_map_of_inj_on _ _ hlnd
    intro i hi j hj hij
    exact ids_inj hids (hbound i hi) (hbound j hj) hij
  · unfold periodTeacherNames
    apply nodup_filterMap_of _ _ hlnd
    intro i hi j hj n h1 h2
    obtain ⟨ti, hti, htin⟩ := Option.map_eq_some'.mp h1
    obtain ⟨tj, htj, htjn⟩ := Option.map_eq_some'.mp h2
    have hci := hC.2.2.2.1 pIdx hpIdx i hi ti (Option.mem_def.mpr hti)
    have hcj := hC.2.2.2.1 pIdx hpIdx j hj tj (Option.mem_def.mpr htj)
    rw [htin] at hci
    rw [htjn] at hcj
    rw [hci] at hcj
    exact Option.some.inj hcj
  · unfold periodRoomNames
    apply nodup_filterMap_of _ _ hlnd
    intro i hi j hj n h1 h2
    obtain ⟨ri, hri, hrin⟩ := Option.map_eq_some'.mp h1
    obtain ⟨rj, hrj, hrjn⟩ := Option.map_eq_some'.mp h2
    have hci := hC.2.2.2.2.2.1 pIdx hpIdx i hi ri (Option.mem_def.mpr hri)
    have hcj := hC.2.2.2.2.2.1 pIdx hpIdx j hj rj (Option.mem_def.mpr hrj)
    rw [hrin] at hci
    rw [hrjn] at hcj
    rw [hci] at hcj
    exact Option.some.inj hcj

/-- C1, amended. The claim holds with two extra input conditions (each
refuted separately by the counterexample and the C4 scenario): the
room-type labels are pairwise distinct and the generated section ids are
pairwise distinct. Then after a successful `run_scheduler` — whether via
the exhaustive solver or the greedy fallback — every period's
`assigned_sections` list carries pairwise-distinct section ids,
pairwise-distinct non-null teacher names, and pairwise-distinct non-null
classroom names. -/
theorem claim_C1_amended_thm (classroomTypes : List String) (classrooms : List Classroom)
    (classList : List String) (classes : List ClassC) (teachers : List Teacher)
    (periodIds : List String) (env : Env) (st : St)
    (hok : runScheduler classroomTypes classrooms classList classes teachers periodIds =
      .ok (env, st))
    (hcts : classroomTypes.Nodup)
    (hids : ((generateSections classes).map SectionS.sectionId).Nodup) :
    ∀ pIdx ∈ List.range env.periodIds.length,
      (periodSecIds env st pIdx).Nodup ∧ (periodTeacherNames env st pIdx).Nodup ∧
      (periodRoomNames env st pIdx).Nodup := by
  obtain ⟨hsecs, hteach, hE, hC, hM⟩ := runScheduler_core hok hcts
  exact core_period_distinct env st hC (by rw [hsecs]; exact hids)

/-- C1, amended, witness: the demo run satisfies the no-double-booking
invariant in its single period (applying the amended theorem at the demo
input). -/
theorem claim_C1_witness :
    (periodSecIds demoFinal.fst demoFinal.snd 0).Nodup ∧
    (periodTeacherNames demoFinal.fst demoFinal.snd 0).Nodup ∧
    (periodRoomNames demoFinal.fst demoFinal.snd 0).Nodup :=
  claim_C1_amended_thm ["r"] demoClassrooms [] demoClasses demoTeachers ["P1"]
    demoFinal.fst demoFinal.snd (by decide) (by decide) (by decide) 0 (by decide)

/-- C4, amended. The claim holds with three extra input conditions:
teacher names are pairwise distinct (refuted otherwise by the
counterexample — the scoreboard is keyed by name), the room-type labels
are pairwise distinct, and every `max_sections` is nonnegative. Then at
the end of `run_scheduler` every teacher object is assigned at most its
`max_sections` sections. -/
theorem claim_C4_amended_thm (classroomTypes : List String) (classrooms : List Classroom)
    (classList : List String) (classes : List ClassC) (teachers : List Teacher)
    (periodIds : List String) (env : Env) (st : St)
    (hok : runScheduler classroomTypes classrooms classList classes teachers periodIds =
      .ok (env, st))
    (hcts : classroomTypes.Nodup)
    (hnames : (teachers.map Teacher.name).Nodup)
    (hmax : ∀ t ∈ teachers, 0 ≤ t.maxSections) :
    ∀ ti ∈ List.range env.teachers.length,
      (countIdx st ti : Int) ≤ (teacherOf env ti).maxSections := by
  obtain ⟨hsecs, hteach, hE, hC, hM⟩ := runScheduler_core hok hcts
  intro ti hti
  have h := hM hnames ti hti
  have hmem : teacherOf env ti ∈ env.teachers := teacherOf_mem (List.mem_range.mp hti)
  have h0 : 0 ≤ (teacherOf env ti).maxSections := hmax _ (by rw [← hteach]; exact hmem)
  rw [max_eq_left h0] at h
  exact h

/-- C4, amended, witness: on the demo run teacher T1 ends within its load
bound (applying the amended theorem at the demo input). -/
theorem claim_C4_witness :
    (countIdx demoFinal.snd 0 : Int) ≤ (teacherOf demoFinal.fst 0).maxSections :=
  claim_C4_amended_thm ["r"] demoClassrooms [] demoClasses demoTeachers ["P1"]
    demoFinal.fst demoFinal.snd (by decide) (by decide) (by decide) (by decide) 0 (by decide)

/-- C6, amended. The room pass ignores the label list entirely (the result
is literally independent of it), and — in place of the claimed
label-ordered scan — what survives of the claim on a successful run with
duplicate-free labels is: within one period a room name is assigned to at
most one section (two members of a period list carrying equal non-null
room names are the same section index). -/
theorem claim_C6_amended_thm (classroomTypes : List String) (classrooms : List Classroom)
    (classList : List String) (classes : List ClassC) (teachers : List Teacher)
    (periodIds : List String) (env : Env) (st : St)
    (hok : runScheduler classroomTypes classrooms classList classes teachers periodIds =
      .ok (env, st))
    (hcts : classroomTypes.Nodup) :
    (∀ cts1 cts2 : List String, ∀ stX : St,
      assignClassrooms env cts1 stX = assignClassrooms env cts2 stX) ∧
    ∀ pIdx ∈ List.range env.periodIds.length,
      ∀ j1 ∈ st.periodSections.getD pIdx [], ∀ j2 ∈ st.periodSections.getD pIdx [],
        ∀ r1 ∈ st.assignedRoom.getD j1 none, ∀ r2 ∈ st.assignedRoom.getD j2 none,
          (roomOf env r1).name = (roomOf env r2).name → j1 = j2 := by
  obtain ⟨_, _, hE, hC, _⟩ := runScheduler_core hok hcts
  refine ⟨fun cts1 cts2 stX => rfl, ?_⟩
  intro pIdx hpIdx j1 hj1 j2 hj2 r1 hr1 r2 hr2 hname
  have hc1 := hC.2.2.2.2.2.1 pIdx hpIdx j1 hj1 r1 hr1
  have hc2 := hC.2.2.2.2.2.1 pIdx hpIdx j2 hj2 r2 hr2
  rw [hname] at hc1
  rw [hc1] at hc2
  exact Option.some.inj hc2

/-- C6, amended, witness: on the demo environment the room pass is
label-independent, and the single roomed section of the demo period is
room-distinct (applying the amended theorem at the demo input). -/
theorem claim_C6_witness :
    assignClassrooms demoFinal.fst ["a"] demoSt0 =
      assignClassrooms demoFinal.fst ["b"] demoSt0 ∧ (1 : Nat) = 1 := by
  have h := claim_C6_amended_thm ["r"] demoClassrooms [] demoClasses demoTeachers ["P1"]
    demoFinal.fst demoFinal.snd (by decide) (by decide)
  exact ⟨h.1 ["a"] ["b"] demoSt0,
    h.2 0 (by decide) 1 (by decide) 1 (by decide) 0 (by decide) 0 (by decide) rfl⟩

/-- C9, amended. Provided at least one period is supplied (the
counterexample shows the zero-period ZeroDivisionError otherwise),
`run_scheduler` raises an error exactly when (and with exactly the message
with which) the context builder does, and otherwise returns the complete
prioritized list of generated sections — a permutation of all section
indices; a validation conflict never prevents the return. -/
theorem claim_C9_amended_thm (classroomTypes : List String) (classrooms : List Classroom)
    (classList : List String) (classes : List ClassC) (teachers : List Teacher)
    (periodIds : List String) (hp : periodIds ≠ []) :
    (∀ e, runScheduler classroomTypes classrooms classList classes teachers periodIds =
        .error e ↔
      buildContext (generateSections classes) teachers classrooms periodIds = .error e) ∧
    (∀ env st, runScheduler classroomTypes classrooms classList classes teachers periodIds =
        .ok (env, st) →
      env.secs = generateSections classes ∧
      env.allSections.Perm (List.range env.secs.length)) := by
  have hnp : periodIds.length ≠ 0 := by
    intro h
    exact hp (List.length_eq_zero.mp h)
  rcases hb : buildContext (generateSections classes) teachers classrooms periodIds with
    e0 | c0
  · have hrun : runScheduler classroomTypes classrooms classList classes teachers periodIds =
        .error e0 := by
      simp only [runScheduler, hb]
    constructor
    · intro e
      rw [hrun]
      constructor
      · intro h
        have he : e0 = e := by injection h
        rw [he]
      · intro h
        have he : e0 = e := by injection h
        rw [he]
    · intro env st h
      rw [hrun] at h
      exact Except.noConfusion h
  · have hrun : ∃ stX, runScheduler classroomTypes classrooms classList classes teachers
        periodIds = .ok (envOf (generateSections classes) teachers classrooms periodIds c0,
          stX) := by
      simp only [runScheduler, hb]
      rcases hs : solveFull (envOf (generateSections classes) teachers classrooms periodIds
          c0) (initSt (envOf (generateSections classes) teachers classrooms periodIds c0)
          c0) 0 with ⟨b, st1⟩
      cases b
      · simp only []
        obtain ⟨st2, h2⟩ := assignSecs_total (envOf (generateSections classes) teachers
            classrooms periodIds c0) hnp classroomTypes
          (resetState (envOf (generateSections classes) teachers classrooms periodIds c0) st1)
        rw [h2]
        exact ⟨_, rfl⟩
      · simp only []
        exact ⟨st1, rfl⟩
    obtain ⟨stX, hrunX⟩ := hrun
    constructor
    · intro e
      rw [hrunX]
      constructor
      · intro h
        exact Except.noConfusion h
      · intro h
        exact Except.noConfusion h
    · intro env st h
      rw [hrunX] at h
      simp only [Except.ok.injEq, Prod.mk.injEq] at h
      obtain ⟨henv, hst⟩ := h
      rw [← henv]
      exact ⟨rfl, prioritized_perm _ _ _⟩

/-- C9, amended, witness: with no compatible room the run raises exactly
the builder's message (applying the amended theorem at a concrete
input). -/
theorem claim_C9_witness :
    runScheduler ["r"] [] [] [⟨"c1", 1, "r"⟩] [⟨"T", ["c1"], 1, 0⟩] ["P1"] =
      .error "CRITICAL: Section c1-1 has NO compatible rooms." :=
  ((claim_C9_amended_thm ["r"] [] [] [⟨"c1", 1, "r"⟩] [⟨"T", ["c1"], 1, 0⟩] ["P1"]
    (by decide)).1 "CRITICAL: Section c1-1 has NO compatible rooms.").mpr (by decide)

/-! ### Sections invisible to the fallback stay untouched (claim C10) -/

theorem a2Set_avoid {m : List (String × List (String × Option Nat))} {j : Nat}
    (h : ∀ row ∈ m, ∀ c ∈ row.snd, c.snd ≠ some j) (k1 k2 : String) {v : Option Nat}
    (hv : v ≠ some j) :
    ∀ row ∈ a2Set m k1 k2 v, ∀ c ∈ row.snd, c.snd ≠ some j := by
  intro row hrow c hc
  unfold a2Set at hrow
  rcases mem_aSet_elim hrow with hr | hr
  · rw [hr] at hc
    have hc' : c ∈ aSet (aGetD m k1 []) k2 v := hc
    rcases mem_aSet_elim hc' with hcc | hcc
    · rw [hcc]
      exact hv
    · unfold aGetD at hcc
      rcases hg : aGet m k1 with _ | row0
      · rw [hg] at hcc
        simp at hcc
      · rw [hg] at hcc
        simp only [Option.getD_some] at hcc
        exact h (k1, row0) (aGet_mem hg) c hcc
  · exact h row hr c hc

theorem a2Get_avoid {m : List (String × List (String × Option Nat))} {j : Nat}
    (h : ∀ row ∈ m, ∀ c ∈ row.snd, c.snd ≠ some j) (n pid : String) :
    a2Get m n pid ≠ some j := by
  unfold a2Get aGetD
  rcases hg : aGet m n with _ | row
  · simp
  · simp only [Option.getD_some]
    rcases hf : row.find? (fun kv => kv.fst == pid) with _ | c
    · rw [hf]
      simp
    · rw [hf]
      have hc : c ∈ row := List.mem_of_find?_eq_some hf
      have hcn := h (n, row) (aGet_mem hg) c hc
      simpa using hcn

theorem placeLoop_not_added (env : Env) (c : String) (sIdx0 : Nat)
    (hne : (secOf env sIdx0).requiredClassroomType ≠ c) :
    ∀ (secL : List Nat) (pCur : Nat) (st : St) (p2 : Nat) (st2 : St),
      placeLoop env c secL pCur st = .ok (p2, st2) →
      (∀ l ∈ st.periodSections, sIdx0 ∉ l) →
      ∀ l ∈ st2.periodSections, sIdx0 ∉ l
  | [], pCur, st, p2, st2, h, hP => by
    simp only [placeLoop, Except.ok.injEq, Prod.mk.injEq] at h
    rw [← h.2]
    exact hP
  | sIdx :: rest, pCur, st, p2, st2, h, hP => by
    have hunf : placeLoop env c (sIdx :: rest) pCur st =
        (if (secOf env sIdx).requiredClassroomType ≠ c then
          placeLoop env c rest pCur st
        else if env.periodIds.length = 0 then
          .error "ZeroDivisionError: integer modulo by zero"
        else
          placeLoop env c rest (pCur + 1)
            { st with periodSections := st.periodSections.set (pCur % env.periodIds.length) (st.periodSections.getD (pCur % env.periodIds.length) [] ++ [sIdx]) }) := rfl
    rw [hunf] at h
    by_cases h1 : (secOf env sIdx).requiredClassroomType ≠ c
    · rw [if_pos h1] at h
      exact placeLoop_not_added env c sIdx0 hne rest pCur st p2 st2 h hP
    · rw [if_neg h1] at h
      by_cases h2 : env.periodIds.length = 0
      · rw [if_pos h2] at h
        exact Except.noConfusion h
      · rw [if_neg h2] at h
        apply placeLoop_not_added env c sIdx0 hne rest (pCur + 1) _ p2 st2 h
        intro l hl
        rcases List.mem_or_eq_of_mem_set hl with hm | hm
        · exact hP l hm
        · rw [hm]
          intro hmem
          rcases List.mem_append.mp hmem with hm2 | hm2
          · by_cases hlt : (pCur % env.periodIds.length) < st.periodSections.length
            · exact hP _ (getD_mem hlt []) hm2
            · rw [getD_of_ge hlt] at hm2
              simp at hm2
          · have hx : sIdx0 = sIdx := by simpa using hm2
            have heq : (secOf env sIdx).requiredClassroomType = c := by
              by_contra hcne
              exact h1 hcne
            rw [← hx] at heq
            exact hne heq

theorem typesLoop_not_added (env : Env) (sIdx0 : Nat) :
    ∀ (cts : List String), (secOf env sIdx0).requiredClassroomType ∉ cts →
      ∀ (pCur : Nat) (st : St) (p2 : Nat) (st2 : St),
        typesLoop env cts pCur st = .ok (p2, st2) →
        (∀ l ∈ st.periodSections, sIdx0 ∉ l) →
        ∀ l ∈ st2.periodSections, sIdx0 ∉ l
  | [], _, pCur, st, p2, st2, h, hP => by
    simp only [typesLoop, Except.ok.injEq, Prod.mk.injEq] at h
    rw [← h.2]
    exact hP
  | c :: rest, hnotin, pCur, st, p2, st2, h, hP => by
    have hunf : typesLoop env (c :: rest) pCur st =
        (match placeLoop env c env.allSections pCur st with
        | .error e => .error e
        | .ok (pCur2, st2) => typesLoop env rest pCur2 st2) := rfl
    rw [hunf] at h
    rcases hpl : placeLoop env c env.allSections pCur st with e | ⟨pm, stm⟩ <;>
      rw [hpl] at h
    · exact Except.noConfusion h
    · have hne : (secOf env sIdx0).requiredClassroomType ≠ c := by
        intro he
        apply hnotin
        rw [he]
        exact List.mem_cons_self c rest
      have hP1 := placeLoop_not_added env c sIdx0 hne env.allSections pCur st pm stm hpl hP
      exact typesLoop_not_added env sIdx0 rest
        (fun hm => hnotin (List.mem_cons_of_mem _ hm)) pm stm p2 st2 h hP1

theorem assignSecs_untouched (env : Env) (cts : List String) (st st2 : St) (sIdx0 : Nat)
    (htype : (secOf env sIdx0).requiredClassroomType ∉ cts)
    (hP : ∀ l ∈ st.periodSections, sIdx0 ∉ l)
    (h : assignSecsToPeriods env cts st = .ok st2) :
    (∀ l ∈ st2.periodSections, sIdx0 ∉ l) ∧
    st2.assignedTeacher = st.assignedTeacher ∧ st2.assignedRoom = st.assignedRoom ∧
    st2.teacherSchedule = st.teacherSchedule := by
  unfold assignSecsToPeriods at h
  rcases ht : typesLoop env cts 0 st with e | ⟨p2, stm⟩ <;> rw [ht] at h
  · exact Except.noConfusion h
  · simp only [Except.ok.injEq] at h
    rw [← h]
    obtain ⟨f1, f2, f3, f4, f5, f6⟩ := typesLoop_frame env cts 0 st p2 stm ht
    exact ⟨typesLoop_not_added env sIdx0 cts htype 0 st p2 stm ht hP, f4, f5, f1⟩

theorem roomSecsLoop_untouched (env : Env) (pid : String) (j : Nat) :
    ∀ (l : List Nat) (used : List String) (st : St), j ∉ l →
      (roomSecsLoop env pid l used st).snd.periodSections = st.periodSections ∧
      (roomSecsLoop env pid l used st).snd.assignedTeacher = st.assignedTeacher ∧
      (roomSecsLoop env pid l used st).snd.teacherSchedule = st.teacherSchedule ∧
      (roomSecsLoop env pid l used st).snd.assignedRoom.getD j none =
        st.assignedRoom.getD j none
  | [], used, st, _ => ⟨rfl, rfl, rfl, rfl⟩
  | sIdx :: rest, used, st, hj => by
    have hunf : roomSecsLoop env pid (sIdx :: rest) used st =
        roomSecsLoop env pid rest (roomLoop env pid sIdx (validRs env sIdx) used st).fst
          (roomLoop env pid sIdx (validRs env sIdx) used st).snd := rfl
    rw [hunf]
    have hjs : j ≠ sIdx := fun h => hj (h ▸ List.mem_cons_self sIdx rest)
    have hstep : (roomLoop env pid sIdx (validRs env sIdx) used st).snd.periodSections =
        st.periodSections ∧
        (roomLoop env pid sIdx (validRs env sIdx) used st).snd.assignedTeacher =
          st.assignedTeacher ∧
        (roomLoop env pid sIdx (validRs env sIdx) used st).snd.teacherSchedule =
          st.teacherSchedule ∧
        (roomLoop env pid sIdx (validRs env sIdx) used st).snd.assignedRoom.getD j none =
          st.assignedRoom.getD j none := by
      rcases roomLoop_cases env pid sIdx (validRs env sIdx) used st with h | ⟨ri, _, _, h⟩
      · rw [h]
        exact ⟨rfl, rfl, rfl, rfl⟩
      · rw [h]
        refine ⟨rfl, rfl, rfl, ?_⟩
        show (st.assignedRoom.set sIdx (some ri)).getD j none = st.assignedRoom.getD j none
        exact getD_set_ne _ hjs _ _
    obtain ⟨g1, g2, g3, g4⟩ := roomSecsLoop_untouched env pid j rest
      (roomLoop env pid sIdx (validRs env sIdx) used st).fst
      (roomLoop env pid sIdx (validRs env sIdx) used st).snd
      (fun h => hj (List.mem_cons_of_mem _ h))
    exact ⟨g1.trans hstep.1, g2.trans hstep.2.1, g3.trans hstep.2.2.1,
      g4.trans hstep.2.2.2⟩

theorem roomPeriods_untouched (env : Env) (j : Nat) :
    ∀ (ps : List Nat) (st : St), (∀ l ∈ st.periodSections, j ∉ l) →
      (ps.foldl (fun acc pIdx =>
        (roomSecsLoop env (pidOf env pIdx) (acc.periodSections.getD pIdx []) [] acc).snd)
          st).periodSections = st.periodSections ∧
      (ps.foldl (fun acc pIdx =>
        (roomSecsLoop env (pidOf env pIdx) (acc.periodSections.getD pIdx []) [] acc).snd)
          st).assignedTeacher = st.assignedTeacher ∧
      (ps.foldl (fun acc pIdx =>
        (roomSecsLoop env (pidOf env pIdx) (acc.periodSections.getD pIdx []) [] acc).snd)
          st).teacherSchedule = st.teacherSchedule ∧
      (ps.foldl (fun acc pIdx =>
        (roomSecsLoop env (pidOf env pIdx) (acc.periodSections.getD pIdx []) [] acc).snd)
          st).assignedRoom.getD j none = st.assignedRoom.getD j none
  | [], st, _ => ⟨rfl, rfl, rfl, rfl⟩
  | pIdx :: rest, st, hP => by
    have hjl : j ∉ st.periodSections.getD pIdx [] := by
      by_cases hlt : pIdx < st.periodSections.length
      · exact hP _ (getD_mem hlt [])
      · rw [getD_of_ge hlt]
        simp
    obtain ⟨g1, g2, g3, g4⟩ := roomSecsLoop_untouched env (pidOf env pIdx) j
      (st.periodSections.getD pIdx []) [] st hjl
    have hfold : (pIdx :: rest).foldl (fun acc pj =>
        (roomSecsLoop env (pidOf env pj) (acc.periodSections.getD pj []) [] acc).snd) st =
        rest.foldl (fun acc pj =>
          (roomSecsLoop env (pidOf env pj) (acc.periodSections.getD pj []) [] acc).snd)
          (roomSecsLoop env (pidOf env pIdx) (st.periodSections.getD pIdx []) [] st).snd := rfl
    rw [hfold]
    obtain ⟨k1, k2, k3, k4⟩ := roomPeriods_untouched env j rest
      (roomSecsLoop env (pidOf env pIdx) (st.periodSections.getD pIdx []) [] st).snd
      (by rw [g1]; exact hP)
    exact ⟨k1.trans g1, k2.trans g2, k3.trans g3, k4.trans g4⟩

theorem assignClassrooms_untouched (env : Env) (cts : List String) (st : St) (j : Nat)
    (hP : ∀ l ∈ st.periodSections, j ∉ l) :
    (assignClassrooms env cts st).periodSections = st.periodSections ∧
    (assignClassrooms env cts st).assignedTeacher = st.assignedTeacher ∧
    (assignClassrooms env cts st).teacherSchedule = st.teacherSchedule ∧
    (assignClassrooms env cts st).assignedRoom.getD j none = st.assignedRoom.getD j none := by
  unfold assignClassrooms
  exact roomPeriods_untouched env j (List.range env.periodIds.length) st hP

theorem altLoop_untouched (env : Env) (pid : String) (sIdx csIdx qi j : Nat)
    (hjs : j ≠ sIdx) (hjc : j ≠ csIdx) (alts : List Nat) (st : St)
    (hT : st.assignedTeacher.getD j none = none)
    (hS : ∀ row ∈ st.teacherSchedule, ∀ c ∈ row.snd, c.snd ≠ some j) :
    (altLoop env pid sIdx csIdx qi alts st).periodSections = st.periodSections ∧
    (altLoop env pid sIdx csIdx qi alts st).assignedRoom = st.assignedRoom ∧
    (altLoop env pid sIdx csIdx qi alts st).assignedTeacher.getD j none = none ∧
    (∀ row ∈ (altLoop env pid sIdx csIdx qi alts st).teacherSchedule, ∀ c ∈ row.snd,
      c.snd ≠ some j) := by
  rcases altLoop_cases env pid sIdx csIdx qi alts st with h | ⟨ai, _, _, _, _, h⟩
  · rw [h]
    exact ⟨rfl, rfl, hT, hS⟩
  · rw [h]
    refine ⟨rfl, rfl, ?_, ?_⟩
    · show ((st.assignedTeacher.set csIdx (some ai)).set sIdx (some qi)).getD j none = none
      rw [getD_set_ne _ hjs, getD_set_ne _ hjc]
      exact hT
    · show ∀ row ∈ a2Set (a2Set (a2Set st.teacherSchedule (teacherOf env ai).name pid
          (some csIdx)) (teacherOf env qi).name pid none) (teacherOf env qi).name pid
          (some sIdx), ∀ c ∈ row.snd, c.snd ≠ some j
      apply a2Set_avoid
      · apply a2Set_avoid
        · apply a2Set_avoid hS
          intro he
          exact hjc (Option.some.inj he).symm
        · intro he
          exact Option.noConfusion he
      · intro he
        exact hjs (Option.some.inj he).symm

theorem swapLoop_untouched (env : Env) (pid : String) (sIdx j : Nat) (hjs : j ≠ sIdx) :
    ∀ (qts : List Nat) (st : St),
      st.assignedTeacher.getD j none = none →
      (∀ row ∈ st.teacherSchedule, ∀ c ∈ row.snd, c.snd ≠ some j) →
      (swapLoop env pid sIdx qts st).periodSections = st.periodSections ∧
      (swapLoop env pid sIdx qts st).assignedRoom = st.assignedRoom ∧
      (swapLoop env pid sIdx qts st).assignedTeacher.getD j none = none ∧
      (∀ row ∈ (swapLoop env pid sIdx qts st).teacherSchedule, ∀ c ∈ row.snd,
        c.snd ≠ some j)
  | [], st, hT, hS => ⟨rfl, rfl, hT, hS⟩
  | qi :: rest, st, hT, hS => by
    rcases hcell : a2Get st.teacherSchedule (teacherOf env qi).name pid with _ | csIdx
    · have heq : swapLoop env pid sIdx (qi :: rest) st = swapLoop env pid sIdx rest st := by
        have hunf : swapLoop env pid sIdx (qi :: rest) st =
            (match a2Get st.teacherSchedule (teacherOf env qi).name pid with
            | none => swapLoop env pid sIdx rest st
            | some csIdx =>
              let st2 := altLoop env pid sIdx csIdx qi (validTs env csIdx) st
              if st2.assignedTeacher.getD sIdx none ≠ none then st2
              else swapLoop env pid sIdx rest st2) := rfl
        rw [hunf, hcell]
      rw [heq]
      exact swapLoop_untouched env pid sIdx j hjs rest st hT hS
    · have hjc : j ≠ csIdx := by
        intro h
        rw [← h] at hcell
        exact a2Get_avoid hS (teacherOf env qi).name pid hcell
      have heq : swapLoop env pid sIdx (qi :: rest) st =
          (if (altLoop env pid sIdx csIdx qi (validTs env csIdx) st).assignedTeacher.getD
              sIdx none ≠ none then altLoop env pid sIdx csIdx qi (validTs env csIdx) st
          else swapLoop env pid sIdx rest
            (altLoop env pid sIdx csIdx qi (validTs env csIdx) st)) := by
        have hunf : swapLoop env pid sIdx (qi :: rest) st =
            (match a2Get st.teacherSchedule (teacherOf env qi).name pid with
            | none => swapLoop env pid sIdx rest st
            | some csIdx =>
              let st2 := altLoop env pid sIdx csIdx qi (validTs env csIdx) st
              if st2.assignedTeacher.getD sIdx none ≠ none then st2
              else swapLoop env pid sIdx rest st2) := rfl
        rw [hunf, hcell]
      rw [heq]
      obtain ⟨a1, a2, a3, a4⟩ := altLoop_untouched env pid sIdx csIdx qi j hjs hjc
        (validTs env csIdx) st hT hS
      by_cases hif : (altLoop env pid sIdx csIdx qi
          (validTs env csIdx) st).assignedTeacher.getD sIdx none ≠ none
      · rw [if_pos hif]
        exact ⟨a1, a2, a3, a4⟩
      · rw [if_neg hif]
        obtain ⟨b1, b2, b3, b4⟩ := swapLoop_untouched env pid sIdx j hjs rest
          (altLoop env pid sIdx csIdx qi (validTs env csIdx) st) a3 a4
        exact ⟨b1.trans a1, b2.trans a2, b3, b4⟩

theorem teacherForSection_untouched (env : Env) (pid : String) (sIdx j : Nat) (st : St)
    (hjs : j ≠ sIdx)
    (hT : st.assignedTeacher.getD j none = none)
    (hS : ∀ row ∈ st.teacherSchedule, ∀ c ∈ row.snd, c.snd ≠ some j) :
    (teacherForSection env pid sIdx st).periodSections = st.periodSections ∧
    (teacherForSection env pid sIdx st).assignedRoom = st.assignedRoom ∧
    (teacherForSection env pid sIdx st).assignedTeacher.getD j none = none ∧
    (∀ row ∈ (teacherForSection env pid sIdx st).teacherSchedule, ∀ c ∈ row.snd,
      c.snd ≠ some j) := by
  rcases hpre : st.assignedTeacher.getD sIdx none with _ | ti
  · have hunf : teacherForSection env pid sIdx st =
        (if (directLoop env pid sIdx (validTs env sIdx) st).assignedTeacher.getD sIdx none
            ≠ none then directLoop env pid sIdx (validTs env sIdx) st
        else swapLoop env pid sIdx (validTs env sIdx)
          (directLoop env pid sIdx (validTs env sIdx) st)) := by
      unfold teacherForSection
      rw [hpre]
    rw [hunf]
    have hst1 : (directLoop env pid sIdx (validTs env sIdx) st).periodSections =
        st.periodSections ∧
        (directLoop env pid sIdx (validTs env sIdx) st).assignedRoom = st.assignedRoom ∧
        (directLoop env pid sIdx (validTs env sIdx) st).assignedTeacher.getD j none =
          none ∧
        (∀ row ∈ (directLoop env pid sIdx (validTs env sIdx) st).teacherSchedule,
          ∀ c ∈ row.snd, c.snd ≠ some j) := by
      rcases directLoop_cases env pid sIdx (validTs env sIdx) st with hd | ⟨ti, _, _, _, hd⟩
      · rw [hd]
        exact ⟨rfl, rfl, hT, hS⟩
      · rw [hd]
        refine ⟨rfl, rfl, ?_, ?_⟩
        · show (st.assignedTeacher.set sIdx (some ti)).getD j none = none
          rw [getD_set_ne _ hjs]
          exact hT
        · show ∀ row ∈ a2Set st.teacherSchedule (teacherOf env ti).name pid (some sIdx),
            ∀ c ∈ row.snd, c.snd ≠ some j
          apply a2Set_avoid hS
          intro he
          exact hjs (Option.some.inj he).symm
    by_cases hif : (directLoop env pid sIdx (validTs env sIdx) st).assignedTeacher.getD
        sIdx none ≠ none
    · rw [if_pos hif]
      exact hst1
    · rw [if_neg hif]
      obtain ⟨b1, b2, b3, b4⟩ := swapLoop_untouched env pid sIdx j hjs (validTs env sIdx)
        (directLoop env pid sIdx (validTs env sIdx) st) hst1.2.2.1 hst1.2.2.2
      exact ⟨b1.trans hst1.1, b2.trans hst1.2.1, b3, b4⟩
  · have hunf : teacherForSection env pid sIdx st =
        { st with
          teacherSchedule := a2Set st.teacherSchedule (teacherOf env ti).name pid
            (some sIdx)
          teacherLoad := aSet st.teacherLoad (teacherOf env ti).name
            (aGetD st.teacherLoad (teacherOf env ti).name 0 + 1) } := by
      unfold teacherForSection
      rw [hpre]
    rw [hunf]
    refine ⟨rfl, rfl, hT, ?_⟩
    show ∀ row ∈ a2Set st.teacherSchedule (teacherOf env ti).name pid (some sIdx),
      ∀ c ∈ row.snd, c.snd ≠ some j
    apply a2Set_avoid hS
    intro he
    exact hjs (Option.some.inj he).symm

theorem teacherSecs_untouched (env : Env) (pid : String) (j : Nat) :
    ∀ (l : List Nat) (st : St), j ∉ l →
      st.assignedTeacher.getD j none = none →
      (∀ row ∈ st.teacherSchedule, ∀ c ∈ row.snd, c.snd ≠ some j) →
      (l.foldl (fun acc2 sIdx => teacherForSection env pid sIdx acc2) st).periodSections =
        st.periodSections ∧
      (l.foldl (fun acc2 sIdx => teacherForSection env pid sIdx acc2) st).assignedRoom =
        st.assignedRoom ∧
      (l.foldl (fun acc2 sIdx =>
        teacherForSection env pid sIdx acc2) st).assignedTeacher.getD j none = none ∧
      (∀ row ∈ (l.foldl (fun acc2 sIdx =>
        teacherForSection env pid sIdx acc2) st).teacherSchedule,
        ∀ c ∈ row.snd, c.snd ≠ some j)
  | [], st, _, hT, hS => ⟨rfl, rfl, hT, hS⟩
  | sIdx :: rest, st, hj, hT, hS => by
    have hjs : j ≠ sIdx := fun h => hj (h ▸ List.mem_cons_self sIdx rest)
    obtain ⟨a1, a2, a3, a4⟩ := teacherForSection_untouched env pid sIdx j st hjs hT hS
    have hfold : (sIdx :: rest).foldl (fun acc2 s =>
        teacherForSection env pid s acc2) st =
        rest.foldl (fun acc2 s => teacherForSection env pid s acc2)
          (teacherForSection env pid sIdx st) := rfl
    rw [hfold]
    obtain ⟨b1, b2, b3, b4⟩ := teacherSecs_untouched env pid j rest
      (teacherForSection env pid sIdx st) (fun h => hj (List.mem_cons_of_mem _ h)) a3 a4
    exact ⟨b1.trans a1, b2.trans a2, b3, b4⟩

theorem teacherPeriods_untouched (env : Env) (j : Nat) :
    ∀ (ps : List Nat) (st : St), (∀ l ∈ st.periodSections, j ∉ l) →
      st.assignedTeacher.getD j none = none →
      (∀ row ∈ st.teacherSchedule, ∀ c ∈ row.snd, c.snd ≠ some j) →
      (ps.foldl (fun acc pIdx => (acc.periodSections.getD pIdx []).foldl
        (fun acc2 sIdx => teacherForSection env (pidOf env pIdx) sIdx acc2) acc)
          st).periodSections = st.periodSections ∧
      (ps.foldl (fun acc pIdx => (acc.periodSections.getD pIdx []).foldl
        (fun acc2 sIdx => teacherForSection env (pidOf env pIdx) sIdx acc2) acc)
          st).assignedRoom = st.assignedRoom ∧
      (ps.foldl (fun acc pIdx => (acc.periodSections.getD pIdx []).foldl
        (fun acc2 sIdx => teacherForSection env (pidOf env pIdx) sIdx acc2) acc)
          st).assignedTeacher.getD j none = none ∧
      (∀ row ∈ (ps.foldl (fun acc pIdx => (acc.periodSections.getD pIdx []).foldl
        (fun acc2 sIdx => teacherForSection env (pidOf env pIdx) sIdx acc2) acc)
          st).teacherSchedule, ∀ c ∈ row.snd, c.snd ≠ some j)
  | [], st, _, hT, hS => ⟨rfl, rfl, hT, hS⟩
  | pIdx :: rest, st, hP, hT, hS => by
    have hjl : j ∉ st.periodSections.getD pIdx [] := by
      by_cases hlt : pIdx < st.periodSections.length
      · exact hP _ (getD_mem hlt [])
      · rw [getD_of_ge hlt]
        simp
    obtain ⟨a1, a2, a3, a4⟩ := teacherSecs_untouched env (pidOf env pIdx) j
      (st.periodSections.getD pIdx []) st hjl hT hS
    have hfold : (pIdx :: rest).foldl (fun acc pj => (acc.periodSections.getD pj []).foldl
        (fun acc2 sIdx => teacherForSection env (pidOf env pj) sIdx acc2) acc) st =
        rest.foldl (fun acc pj => (acc.periodSections.getD pj []).foldl
          (fun acc2 sIdx => teacherForSection env (pidOf env pj) sIdx acc2) acc)
          ((st.periodSections.getD pIdx []).foldl
            (fun acc2 sIdx => teacherForSection env (pidOf env pIdx) sIdx acc2) st) := rfl
    rw [hfold]
    obtain ⟨b1, b2, b3, b4⟩ := teacherPeriods_untouched env j rest
      ((st.periodSections.getD pIdx []).foldl
        (fun acc2 sIdx => teacherForSection env (pidOf env pIdx) sIdx acc2) st)
      (by rw [a1]; exact hP) a3 a4
    exact ⟨b1.trans a1, b2.trans a2, b3, b4⟩

theorem assignTeachers_untouched (env : Env) (st : St) (j : Nat)
    (hP : ∀ l ∈ st.periodSections, j ∉ l)
    (hT : st.assignedTeacher.getD j none = none)
    (hS : ∀ row ∈ st.teacherSchedule, ∀ c ∈ row.snd, c.snd ≠ some j) :
    (assignTeachers env st).periodSections = st.periodSections ∧
    (assignTeachers env st).assignedRoom = st.assignedRoom ∧
    (assignTeachers env st).assignedTeacher.getD j none = none := by
  unfold assignTeachers
  obtain ⟨h1, h2, h3, _⟩ := teacherPeriods_untouched env j
    (List.range env.periodIds.length) st hP hT hS
  exact ⟨h1, h2, h3⟩

/-- C10. A section whose required room type is missing from the label list
is invisible to the whole greedy fallback: the period pass never places it
(and, when at least one period exists, the pass raises no error at all),
and after the room and teacher passes it still sits in no period and
carries neither a classroom nor a teacher. -/
theorem claim_C10_thm (env : Env) (cts : List String) (st0 st2 : St) (sIdx0 : Nat)
    (htype : (secOf env sIdx0).requiredClassroomType ∉ cts)
    (hP0 : ∀ l ∈ st0.periodSections, sIdx0 ∉ l)
    (hT0 : st0.assignedTeacher.getD sIdx0 none = none)
    (hR0 : st0.assignedRoom.getD sIdx0 none = none)
    (hS0 : ∀ row ∈ st0.teacherSchedule, ∀ c ∈ row.snd, c.snd ≠ some sIdx0)
    (hok : assignSecsToPeriods env cts st0 = .ok st2) :
    (env.periodIds.length ≠ 0 →
      ∃ stX, assignSecsToPeriods env cts st0 = .ok stX) ∧
    (∀ l ∈ (assignTeachers env (assignClassrooms env cts st2)).periodSections,
      sIdx0 ∉ l) ∧
    (assignTeachers env (assignClassrooms env cts st2)).assignedTeacher.getD sIdx0 none =
      none ∧
    (assignTeachers env (assignClassrooms env cts st2)).assignedRoom.getD sIdx0 none =
      none := by
  obtain ⟨hP2, haT2, haR2, hTS2⟩ := assignSecs_untouched env cts st0 st2 sIdx0 htype hP0 hok
  have hT2 : st2.assignedTeacher.getD sIdx0 none = none := by
    rw [haT2]
    exact hT0
  have hR2 : st2.assignedRoom.getD sIdx0 none = none := by
    rw [haR2]
    exact hR0
  have hS2 : ∀ row ∈ st2.teacherSchedule, ∀ c ∈ row.snd, c.snd ≠ some sIdx0 := by
    rw [hTS2]
    exact hS0
  obtain ⟨g1, g2, g3, g4⟩ := assignClassrooms_untouched env cts st2 sIdx0 hP2
  have hP3 : ∀ l ∈ (assignClassrooms env cts st2).periodSections, sIdx0 ∉ l := by
    rw [g1]
    exact hP2
  have hT3 : (assignClassrooms env cts st2).assignedTeacher.getD sIdx0 none = none := by
    rw [g2]
    exact hT2
  have hS3 : ∀ row ∈ (assignClassrooms env cts st2).teacherSchedule, ∀ c ∈ row.snd,
      c.snd ≠ some sIdx0 := by
    rw [g3]
    exact hS2
  have hR3 : (assignClassrooms env cts st2).assignedRoom.getD sIdx0 none = none := by
    rw [g4]
    exact hR2
  obtain ⟨k1, k2, k3⟩ := assignTeachers_untouched env (assignClassrooms env cts st2) sIdx0
    hP3 hT3 hS3
  refine ⟨fun hnp => assignSecs_total env hnp cts st0, ?_, k3, ?_⟩
  · rw [k1]
    exact hP3
  · rw [k2]
    exact hR3

/-- C10, witness: on the concrete two-class input whose class c2 requires
the unlisted room type "x", section 1 ends the fallback with no teacher
and no classroom (applying the theorem at the concrete input). -/
theorem claim_C10_witness :
    (assignTeachers c10Env (assignClassrooms c10Env ["r"] c10St2)).assignedTeacher.getD 1
      none = none ∧
    (assignTeachers c10Env (assignClassrooms c10Env ["r"] c10St2)).assignedRoom.getD 1
      none = none := by
  have h := claim_C10_thm c10Env ["r"] c10St0 c10St2 1 (by decide) (by decide) (by decide)
    (by decide) (by decide) (by decide)
  exact ⟨h.2.2.1, h.2.2.2⟩

end Schedool
